import Mathlib

/-!
# car_monitoring: the OBD-II Bluetooth transport (`main/obd_bluetooth.c`)

A shallow embedding of `obd_bluetooth.c`: the SPP callback that feeds the
inbound queue, the bring-up `obd_bt_init`, the connection management
(`mac_str_to_bda`, `obd_bt_connect`, `obd_bt_disconnect`, `obd_bt_is_connected`),
the command session `obd_send_cmd_and_read` with its response reader, the RPM
decoder `parse_pid_rpm` and the loop of `obd_polling_task`.

Conventions of the embedding.

* A `char` or `uint8_t` is a `Nat` (its byte value); a C string is the list of
  its bytes before the terminating NUL; a nullable pointer is an `Option`.
* `TickType_t` and `size_t` are `Nat` reduced modulo `2^32`; `int` is `Int`
  reduced to the two's-complement range by `wrap_int`.
* The globals `s_connected`, `s_spp_handle`, `s_rx_queue` are fields of `World`,
  next to the state of the collaborators the code calls into: the FreeRTOS
  tick counter, the outcomes of coming allocations, link writes, connect
  requests and bring-up calls, the chunks and events the link provider is going
  to deliver, and a log of the link operations made.
* Time passes only while a task is blocked, in `xQueueReceive` or `vTaskDelay`.
* `configTICK_RATE_HZ` comes from the FreeRTOS configuration, which is not
  part of the repository; it is a parameter `hz` of the functions using it.
-/

namespace ObdBluetooth

/-! ## Machine integers -/

/-- Number of values of a 32-bit word (`TickType_t`, `size_t`, `unsigned`). -/
def WORD : Nat := 2 ^ 32

/-- Conversion of an unsigned 32-bit value to `int` (two's complement). -/
def to_int (n : Nat) : Int :=
  if n % WORD < 2 ^ 31 then ((n % WORD : Nat) : Int) else ((n % WORD : Nat) : Int) - (WORD : Int)

/-- Conversion of an `int` to an unsigned 32-bit value. -/
def to_word (z : Int) : Nat := (z % (WORD : Int)).toNat

/-- Reduction of an integer result to the range of `int`. -/
def wrap_int (z : Int) : Int := to_int (to_word z)

/-! ## Characters -/

/-- The prompt character `'>'` that ends a reply. -/
def PROMPT : Nat := 62

/-- The carriage return `'\r'` that ends a command. -/
def CR : Nat := 13

/-- The bytes of a string literal. -/
def cstr (s : String) : List Nat := s.toList.map Char.toNat

/-! ## State -/

/-- A FreeRTOS queue of `char*` items: its capacity and the queued pointers in
arrival order. A queued pointer is `none` for `NULL`, else the bytes of the
heap block it points to. -/
structure Queue where
  uxLength : Nat
  items : List (Option (List Nat))
deriving DecidableEq, Repr

/-- A call into the link provider. -/
inductive LinkOp where
  | spp_write (handle : Nat) (len : Nat) (data : List Nat)
  | spp_connect (bda : List Nat)
  | spp_disconnect (handle : Nat)
deriving DecidableEq, Repr

/-- The events `esp_spp_cb` is called with, each with the part of
`esp_spp_cb_param_t` the callback reads. -/
inductive SppEvent where
  | ESP_SPP_INIT_EVT
  | ESP_SPP_START_EVT
  | ESP_SPP_OPEN_EVT (handle : Nat)
  | ESP_SPP_CLOSE_EVT
  | ESP_SPP_DATA_IND_EVT (data : List Nat)
  | ESP_SPP_CONG_EVT
  | other
deriving DecidableEq, Repr

/-- The three globals of `obd_bluetooth.c` and the state of its collaborators. -/
structure World where
  /-- The global `static bool s_connected`. -/
  s_connected : Bool
  /-- The global `static uint32_t s_spp_handle`. -/
  s_spp_handle : Nat
  /-- The global `static QueueHandle_t s_rx_queue`, `none` for `NULL`. -/
  s_rx_queue : Option Queue
  /-- The FreeRTOS tick counter, as read by `xTaskGetTickCount`. -/
  tick : Nat
  /-- Outcomes of the coming `pvPortMalloc` calls (`true`: a block is
  returned); every call succeeds once the list is used up. -/
  heap : List Bool
  /-- Values the coming `esp_spp_write` calls return; `ESP_OK` once used up. -/
  spp_write_ret : List Int
  /-- Chunks the link provider is going to deliver through
  `ESP_SPP_DATA_IND_EVT`, each with the ticks between the previous delivery
  (or the start of the wait) and its own. -/
  feed : List (Nat × List Nat)
  /-- Calls made into the link provider, oldest first. -/
  link_ops : List LinkOp
  /-- Values the coming `esp_spp_connect` calls return; `ESP_OK` once used up. -/
  spp_connect_ret : List Int := []
  /-- Values the coming calls that bring the Bluetooth stack up return, in the
  order of the calls; `ESP_OK` once used up. -/
  stack_ret : List Int := []
  /-- Events the link provider delivers to `esp_spp_cb` while the task sleeps
  in `vTaskDelay`: one batch for each coming delay, none once used up. -/
  delay_events : List (List SppEvent) := []
deriving DecidableEq, Repr

/-- The value `ESP_OK`. -/
def ESP_OK : Int := 0

/-- One `pvPortMalloc` call: whether a block is returned. -/
def pvPortMalloc (w : World) : Bool × World :=
  match w.heap with
  | [] => (true, w)
  | b :: rest => (b, { w with heap := rest })

/-- One `esp_spp_write(handle, len, data)` call: the write is logged and the
provider's answer returned. -/
def esp_spp_write (w : World) (handle len : Nat) (data : List Nat) : Int × World :=
  let w1 := { w with link_ops := w.link_ops ++ [LinkOp.spp_write handle len data] }
  match w.spp_write_ret with
  | [] => (ESP_OK, w1)
  | r :: rest => (r, { w1 with spp_write_ret := rest })

/-- The call `xQueueSend(q, &pkt, 0)`: the item is appended unless the queue is
full; the result is `pdTRUE` (`true`) when it was queued. -/
def xQueueSend (q : Queue) (pkt : Option (List Nat)) : Bool × Queue :=
  if q.items.length < q.uxLength then (true, { q with items := q.items ++ [pkt] })
  else (false, q)

/-! ## The SPP callback -/

/-- The callback `esp_spp_cb`. -/
def esp_spp_cb (w : World) : SppEvent → World
  | SppEvent.ESP_SPP_OPEN_EVT handle => { w with s_spp_handle := handle, s_connected := true }
  | SppEvent.ESP_SPP_CLOSE_EVT => { w with s_connected := false, s_spp_handle := 0 }
  | SppEvent.ESP_SPP_DATA_IND_EVT data =>
    -- char *pkt = pvPortMalloc(len + 1);
    match pvPortMalloc w with
    | (true, w1) =>
      -- memcpy(pkt, data, len); pkt[len] = 0;
      let pkt := data ++ [0]
      match w1.s_rx_queue with
      | some q =>
        match xQueueSend q (some pkt) with
        | (true, q1) => { w1 with s_rx_queue := some q1 }
        | (false, _) => w1
      | none => w1
    | (false, w1) => w1
  | _ => w

/-! ## FreeRTOS services used by the reader -/

/-- The macro `portTICK_PERIOD_MS`, `(TickType_t) 1000 / configTICK_RATE_HZ`. -/
def portTICK_PERIOD_MS (hz : Nat) : Nat := 1000 / hz

/-- The macro `pdMS_TO_TICKS(ms)`,
`(TickType_t) (((TickType_t) ms * (TickType_t) configTICK_RATE_HZ) / (TickType_t) 1000)`. -/
def pdMS_TO_TICKS (hz : Nat) (ms : Int) : Nat := (to_word ms * hz % WORD) / 1000

/-- The call `xTaskGetTickCount()`. -/
def xTaskGetTickCount (w : World) : Nat := w.tick

/-- A task blocked on the empty queue for at most `wait` ticks while the link
provider delivers the chunks of `feed`: a chunk due before the wait is over is
handed to `esp_spp_cb`, and the task resumes with the item this queued, if
any. The result is `none` when the wait ran out (`pdFALSE`). -/
def wait_for_chunk : List (Nat × List Nat) → Nat → World → Option (Option (List Nat)) × World
  | [], wait, w => (none, { w with tick := (w.tick + wait) % WORD, feed := [] })
  | (gap, data) :: rest, wait, w =>
    if gap < wait then
      let w1 := esp_spp_cb { w with tick := (w.tick + gap) % WORD, feed := rest }
        (SppEvent.ESP_SPP_DATA_IND_EVT data)
      match w1.s_rx_queue with
      | some q =>
        match q.items with
        | pkt :: more => (some pkt, { w1 with s_rx_queue := some { q with items := more } })
        | [] => wait_for_chunk rest (wait - gap) w1
      | none => wait_for_chunk rest (wait - gap) w1
    else (none, { w with tick := (w.tick + wait) % WORD, feed := (gap - wait, data) :: rest })

/-- The call `xQueueReceive(q, &pkt, wait)` on the queue `q` of the world: the
oldest item if there is one, else the outcome of blocking for `wait` ticks. -/
def xQueueReceive (w : World) (q : Queue) (wait : Nat) : Option (Option (List Nat)) × World :=
  match q.items with
  | pkt :: more => (some pkt, { w with s_rx_queue := some { q with items := more } })
  | [] => wait_for_chunk w.feed wait w

/-! ## The command session and its response reader -/

/-- A caller's buffer, as the memory at and after the address passed. -/
abbrev Buf := Nat → Nat

/-- The assignment `out[i] = c`. -/
def Buf.write (out : Buf) (i c : Nat) : Buf := fun j => if j = i then c else out j

/-- The first `n` bytes of a buffer. -/
def Buf.read (out : Buf) (n : Nat) : List Nat := (List.range n).map out

/-- The inner loop of the reader,
`for (i = 0; pkt[i] != 0 && total < out_sz - 1; i++) { c = pkt[i]; out[total++] = c; if (c == '>') break; }`,
over the bytes of `pkt` from index `i` on. -/
def copy_pkt (out_sz : Nat) : List Nat → Buf → Nat → Buf × Nat
  | [], out, total => (out, total)
  | c :: rest, out, total =>
    if c ≠ 0 ∧ total < out_sz - 1 then
      let out1 := out.write total c
      if c = PROMPT then (out1, total + 1) else copy_pkt out_sz rest out1 (total + 1)
    else (out, total)

/-- The statement
`remaining_ms = timeout_ms - (int)((now - start_tick) * portTICK_PERIOD_MS)`. -/
def recompute_remaining (hz : Nat) (timeout_ms : Int) (start_tick now : Nat) : Int :=
  wrap_int (timeout_ms - to_int (((now + WORD - start_tick) % WORD) * portTICK_PERIOD_MS hz % WORD))

/-- The wait of one pop: `pdMS_TO_TICKS(remaining_ms)`, raised to one tick when
it is zero. -/
def wait_ticks (hz : Nat) (remaining_ms : Int) : Nat :=
  if pdMS_TO_TICKS hz remaining_ms = 0 then 1 else pdMS_TO_TICKS hz remaining_ms

/-- The outer loop of the reader, `while (remaining_ms > 0 && total < out_sz - 1)`,
run for at most `fuel` iterations; `none` when the fuel does not suffice. The
result is `total`, the buffer and the world at the exit of the loop. -/
def read_loop (hz : Nat) (timeout_ms : Int) (start_tick out_sz : Nat) :
    Nat → Int → Nat → Buf → World → Option (Nat × Buf × World)
  | 0, _, _, _, _ => none
  | fuel + 1, remaining_ms, total, out, w =>
    if 0 < remaining_ms ∧ total < out_sz - 1 then
      match w.s_rx_queue with
      | none => some (total, out, w)
      | some q =>
        match xQueueReceive w q (wait_ticks hz remaining_ms) with
        | (some none, w1) => read_loop hz timeout_ms start_tick out_sz fuel remaining_ms total out w1
        | (some (some pkt), w1) =>
          match copy_pkt out_sz pkt out total with
          | (out1, total1) =>
            if 0 < total1 ∧ out1 (total1 - 1) = PROMPT then some (total1, out1, w1)
            else
              read_loop hz timeout_ms start_tick out_sz fuel
                (recompute_remaining hz timeout_ms start_tick (xTaskGetTickCount w1)) total1 out1 w1
        | (none, w1) =>
          read_loop hz timeout_ms start_tick out_sz fuel
            (recompute_remaining hz timeout_ms start_tick (xTaskGetTickCount w1)) total out w1
    else some (total, out, w)

/-- What a call of `obd_send_cmd_and_read` leaves: the value returned, the
caller's buffer and the world. -/
structure Reply where
  ret : Int
  out : Option Buf
  world : World

/-- The sending part of `obd_send_cmd_and_read` (from `strlen(cmd)` to the test
of `err`): the command is copied to a heap buffer, a CR and a NUL are added,
and the command with its CR is written to the link. The result is `true` when
the buffer was allocated and the write answered `ESP_OK`; otherwise the
function returns -1. -/
def send_cmd (w : World) (cmd : List Nat) : Bool × World :=
  -- size_t cmd_len = strlen(cmd); char *sendbuf = pvPortMalloc(cmd_len + 2);
  let cmd_len := cmd.length
  match pvPortMalloc w with
  | (false, w1) => (false, w1)
  | (true, w1) =>
    -- memcpy(sendbuf, cmd, cmd_len); sendbuf[cmd_len] = CR; sendbuf[cmd_len+1] = 0;
    let sendbuf := cmd ++ [CR, 0]
    -- esp_spp_write(s_spp_handle, cmd_len + 1, sendbuf); vPortFree(sendbuf);
    match esp_spp_write w1 w1.s_spp_handle (cmd_len + 1) (sendbuf.take (cmd_len + 1)) with
    | (err, w2) => (decide (err = ESP_OK), w2)

/-- The reading part of `obd_send_cmd_and_read` (from `remaining_ms = timeout_ms`
to the end): the loop, run with `fuel`, then the termination of the buffer and
the removal of a trailing prompt. -/
def read_response (hz fuel : Nat) (w : World) (out : Buf) (out_sz : Nat) (timeout_ms : Int) :
    Option Reply :=
  match read_loop hz timeout_ms (xTaskGetTickCount w) out_sz fuel timeout_ms 0 out w with
  | none => none
  | some (total, out1, w1) =>
    if total = 0 then some ⟨0, some (out1.write 0 0), w1⟩
    else if 0 < total ∧ out1 (total - 1) = PROMPT then
      some ⟨to_int (total - 1), some (out1.write (total - 1) 0), w1⟩
    else some ⟨to_int total, some (out1.write total 0), w1⟩

/-- The function `obd_send_cmd_and_read(cmd, out, out_sz, timeout_ms)`, its
reading loop run with `fuel`. -/
def obd_send_cmd_and_read (hz fuel : Nat) (w : World) (cmd : Option (List Nat))
    (out : Option Buf) (out_sz : Nat) (timeout_ms : Int) : Option Reply :=
  match cmd, out with
  | some cmd, some out =>
    if out_sz = 0 then some ⟨-1, some out, w⟩
    else if w.s_connected = false ∨ w.s_spp_handle = 0 then some ⟨-1, some out, w⟩
    else
      match send_cmd w cmd with
      | (false, w1) => some ⟨-1, some out, w1⟩
      | (true, w1) => read_response hz fuel w1 out out_sz timeout_ms
  | _, out => some ⟨-1, out, w⟩

/-! ## The C library functions used by the decoder -/

/-- The function `strstr(haystack, needle)`: the part of `haystack` from the
first occurrence of `needle` on, `none` for `NULL`. -/
def strstr : List Nat → List Nat → Option (List Nat)
  | [], needle => if needle.isPrefixOf [] then some [] else none
  | c :: rest, needle =>
    if needle.isPrefixOf (c :: rest) then some (c :: rest) else strstr rest needle

/-- The function `isspace` in the C locale. -/
def isspace (c : Nat) : Bool := c = 32 || (9 ≤ c && c ≤ 13)

/-- The input after its leading white space. -/
def skip_space : List Nat → List Nat
  | [] => []
  | c :: rest => if isspace c then skip_space rest else c :: rest

/-- The value of a hexadecimal digit, of either letter case. -/
def hex_digit (c : Nat) : Option Nat :=
  if 48 ≤ c ∧ c ≤ 57 then some (c - 48)
  else if 65 ≤ c ∧ c ≤ 70 then some (c - 55)
  else if 97 ≤ c ∧ c ≤ 102 then some (c - 87)
  else none

/-- The longest leading run of hexadecimal digits, as digit values, and the
input after it. -/
def hex_run : List Nat → List Nat × List Nat
  | [] => ([], [])
  | c :: rest =>
    match hex_digit c with
    | some d => ((d :: (hex_run rest).1), (hex_run rest).2)
    | none => ([], c :: rest)

/-- The value `strtoul` gives to a run of hexadecimal digits: `ULONG_MAX` when
it does not fit in 32 bits, the size of `unsigned long` on the 32-bit target
the program is built for. -/
def hex_value (digits : List Nat) : Nat :=
  if digits.foldl (fun acc d => acc * 16 + d) 0 < WORD then
    digits.foldl (fun acc d => acc * 16 + d) 0
  else WORD - 1

/-- The optional sign of a number: whether it is `-`, and the input after it. -/
def scan_sign (s : List Nat) : Bool × List Nat :=
  match s with
  | 45 :: t => (true, t)
  | 43 :: t => (false, t)
  | _ => (false, s)

/-- The input after an optional `0x` or `0X`. -/
def scan_hex_mark (s : List Nat) : List Nat :=
  match s with
  | 48 :: 120 :: t => t
  | 48 :: 88 :: t => t
  | _ => s

/-- Whether the input starts with `0x` or `0X`. -/
def has_hex_mark (s : List Nat) : Bool :=
  match s with
  | 48 :: 120 :: _ => true
  | 48 :: 88 :: _ => true
  | _ => false

/-- The conversion `%x` of `sscanf` into an `int`: white space is skipped, then
an optional sign, an optional `0x` or `0X` and a run of hexadecimal digits are
read. Without a digit and without `0x` the conversion fails. A bare `0x`, with
no digit after it, is read whole and converts to 0, as the C library does (the
C standard would have the conversion fail; a library that puts the `x` back
converts 0 as well and leaves the `x` unread, a variant that is not modelled).
The result is the value stored and the input left. -/
def scan_x (input : List Nat) : Option (Int × List Nat) :=
  let signed := scan_sign (skip_space input)
  match hex_run (scan_hex_mark signed.2) with
  | ([], rest) => if has_hex_mark signed.2 then some (0, rest) else none
  | (ds, rest) =>
    some (to_int (if signed.1 then (WORD - hex_value ds) % WORD else hex_value ds), rest)

/-- A directive of a `sscanf` format: an ordinary character, white space, or
the conversion `%x`. -/
inductive Directive where
  | lit (c : Nat)
  | space
  | hex
deriving DecidableEq, Repr

/-- The directives of a format string made of ordinary characters, white space
and `%x`. -/
def directives : List Nat → List Directive
  | [] => []
  | 37 :: 120 :: rest => Directive.hex :: directives rest
  | c :: rest => (if isspace c then Directive.space else Directive.lit c) :: directives rest

/-- The value `EOF`. -/
def EOF : Int := -1

/-- The run of `sscanf` over the directives of its format: the result is the
value returned, the number of conversions made or `EOF` when the input ran out
before the first of them, and the values stored, in order. -/
def sscanf_run : List Directive → List Nat → List Int → Int × List Int
  | [], _, vals => (vals.length, vals)
  | Directive.space :: fmt, input, vals => sscanf_run fmt (skip_space input) vals
  | Directive.lit c :: fmt, input, vals =>
    match input with
    | [] => (if vals.isEmpty then EOF else vals.length, vals)
    | d :: rest => if d = c then sscanf_run fmt rest vals else (vals.length, vals)
  | Directive.hex :: fmt, input, vals =>
    match skip_space input with
    | [] => (if vals.isEmpty then EOF else vals.length, vals)
    | d :: rest =>
      match scan_x (d :: rest) with
      | none => (vals.length, vals)
      | some (v, left) => sscanf_run fmt left (vals ++ [v])

/-- The call `sscanf(input, format, ...)` for a format of ordinary characters,
white space and `%x` conversions into `int`s. -/
def sscanf (input format : List Nat) : Int × List Int :=
  sscanf_run (directives format) input []

/-! ## The RPM decoder -/

/-- The expression `((a << 8) | b) / 4` on `int`s. -/
def rpm_formula (a b : Int) : Int := Int.tdiv (Int.lor (wrap_int (a * 256)) b) 4

/-- The function `parse_pid_rpm(payload)`. -/
def parse_pid_rpm (payload : Option (List Nat)) : Int :=
  match payload with
  | none => -1
  | some payload =>
    -- const char *p = strstr(payload, "41 0C"); if (!p) p = strstr(payload, "410C");
    let p :=
      match strstr payload (cstr "41 0C") with
      | some p => some p
      | none => strstr payload (cstr "410C")
    match p with
    | none => -1
    | some p =>
      match sscanf p (cstr "41 0C %x %x") with
      | (2, [a, b]) => rpm_formula a b
      | _ =>
        match sscanf p (cstr "410C %x %x") with
        | (2, [a, b]) => rpm_formula a b
        | _ => -1

/-! ## Reference notions for the reader -/

/-- The bytes the inner loop copies from a packet when `room` cells are free. -/
def copied : Nat → List Nat → List Nat
  | _, [] => []
  | room, c :: rest =>
    if c ≠ 0 ∧ 0 < room then
      if c = PROMPT then [c] else c :: copied (room - 1) rest
    else []

/-- The buffer after `bytes` were stored from index `i` on. -/
def Buf.store (out : Buf) : Nat → List Nat → Buf
  | _, [] => out
  | i, c :: rest => Buf.store (out.write i c) (i + 1) rest

/-- The bytes of a reply up to and including its first prompt, all of them when
there is none. -/
def upto_prompt : List Nat → List Nat
  | [] => []
  | c :: rest => if c = PROMPT then [c] else c :: upto_prompt rest

/-- The chunks `cs` are dequeued one after the other by the pops of the reader:
each pop is made with time left, by the wait the reader computes, and returns
the packet holding the next chunk. The result is the time left and the world
after the last of them. -/
def dequeue_all (hz : Nat) (timeout_ms : Int) (start_tick : Nat) :
    List (List Nat) → Int → World → Option (Int × World)
  | [], remaining_ms, w => some (remaining_ms, w)
  | c :: cs, remaining_ms, w =>
    if 0 < remaining_ms then
      match w.s_rx_queue with
      | none => none
      | some q =>
        match xQueueReceive w q (wait_ticks hz remaining_ms) with
        | (some (some pkt), w1) =>
          if pkt = c ++ [0] then
            dequeue_all hz timeout_ms start_tick cs
              (recompute_remaining hz timeout_ms start_tick (xTaskGetTickCount w1)) w1
          else none
        | _ => none
    else none

/-- How many of the chunks `cs` the reader dequeues until it stops for a prompt
or a full buffer, with `room` cells free. -/
def chunks_needed : Nat → List (List Nat) → Nat
  | _, [] => 0
  | room, c :: cs =>
    if room = 0 then 0
    else if PROMPT ∈ c ∨ room ≤ c.length then 1
    else 1 + chunks_needed (room - c.length) cs

/-- A connected world with one chunk queued and one more due after 20 ticks. -/
def world_two_chunks : World where
  s_connected := true
  s_spp_handle := 7
  s_rx_queue := some ⟨16, [some [52, 49, 32, 48, 67, 32, 48, 66, 0]]⟩
  tick := 4294967290
  heap := []
  spp_write_ret := []
  feed := [(20, [66, 56, 62])]
  link_ops := []

/-- The world `world_two_chunks` after the command `010C` was sent. -/
def world_two_chunks_sent : World :=
  { world_two_chunks with link_ops := [LinkOp.spp_write 7 5 [48, 49, 48, 67, 13]] }

/-- The world `world_two_chunks_sent` after both chunks were dequeued. -/
def world_two_chunks_read : World :=
  { world_two_chunks_sent with s_rx_queue := some ⟨16, []⟩, tick := 14, feed := [] }

/-- A connected world whose queue holds one chunk with an embedded NUL. -/
def world_nul_chunk : World where
  s_connected := true
  s_spp_handle := 7
  s_rx_queue := some ⟨16, [some [65, 0, 66, 67, 0]]⟩
  tick := 0
  heap := []
  spp_write_ret := []
  feed := []
  link_ops := []

/-- A connected world with an empty queue and nothing to come. -/
def world_silent : World where
  s_connected := true
  s_spp_handle := 7
  s_rx_queue := some ⟨16, []⟩
  tick := 4294967000
  heap := []
  spp_write_ret := []
  feed := []
  link_ops := []

/-- The world `world_two_chunks_sent` after its queued chunk was dequeued. -/
def world_two_chunks_first_read : World :=
  { world_two_chunks_sent with s_rx_queue := some ⟨16, []⟩ }

/-- A connected world whose inbound queue was never created. -/
def world_no_queue : World where
  s_connected := true
  s_spp_handle := 7
  s_rx_queue := none
  tick := 0
  heap := []
  spp_write_ret := []
  feed := [(1, [52, 49, 62])]
  link_ops := []

/-- A connected world in which the next allocation fails. -/
def world_heap_full : World where
  s_connected := true
  s_spp_handle := 7
  s_rx_queue := some ⟨16, []⟩
  tick := 0
  heap := [false]
  spp_write_ret := []
  feed := []
  link_ops := []

/-- A connected world in which the next write to the link fails. -/
def world_write_fails : World where
  s_connected := true
  s_spp_handle := 7
  s_rx_queue := some ⟨16, [some [52, 49, 62, 0]]⟩
  tick := 0
  heap := []
  spp_write_ret := [-1]
  feed := [(3, [52, 49, 62])]
  link_ops := []

/-- The text after a number: nothing, or a character that is no hexadecimal
digit. -/
def ends_number (rest : List Nat) : Prop :=
  rest = [] ∨ ∃ c r, rest = c :: r ∧ hex_digit c = none

/-- The byte two hexadecimal digits spell, in either letter case. -/
def hex_byte (x1 x2 : Nat) : Option Nat :=
  match hex_digit x1, hex_digit x2 with
  | some h1, some h2 => some (16 * h1 + h2)
  | _, _ => none

/-- The chunks a reader can still get: those queued and those to come. -/
def pending (w : World) : Nat :=
  (match w.s_rx_queue with
    | some q => q.items.length
    | none => 0) + w.feed.length

/-- The queue of the world is missing or empty. -/
def queue_idle (w : World) : Prop :=
  w.s_rx_queue = none ∨ ∃ q, w.s_rx_queue = some q ∧ q.items = []

/-! ## Connection management -/

/-- One `esp_spp_connect(sec, role, scn, bda)` call: the request is logged and
the provider's answer returned. -/
def esp_spp_connect (w : World) (bda : List Nat) : Int × World :=
  match w.spp_connect_ret with
  | [] => (ESP_OK, { w with link_ops := w.link_ops ++ [LinkOp.spp_connect bda] })
  | r :: rest =>
    (r, { w with link_ops := w.link_ops ++ [LinkOp.spp_connect bda], spp_connect_ret := rest })

/-- One `esp_spp_disconnect(handle)` call: the request is logged; the caller
ignores the answer. -/
def esp_spp_disconnect (w : World) (handle : Nat) : World :=
  { w with link_ops := w.link_ops ++ [LinkOp.spp_disconnect handle] }

/-- The call `vTaskDelay(ticks)`: the clock advances and the events the link
provider delivers meanwhile are handled by `esp_spp_cb`, in order. -/
def vTaskDelay (w : World) (ticks : Nat) : World :=
  match w.delay_events with
  | [] => { w with tick := (w.tick + ticks) % WORD }
  | evs :: rest => evs.foldl esp_spp_cb { w with tick := (w.tick + ticks) % WORD, delay_events := rest }

/-- One call that brings the Bluetooth stack up, with the value it returns. -/
def stack_call (w : World) : Int × World :=
  match w.stack_ret with
  | [] => (ESP_OK, w)
  | r :: rest => (r, { w with stack_ret := rest })

/-- A run of `n` bring-up calls, each followed by `if (ret) return ret;`. -/
def bring_up : Nat → World → Int × World
  | 0, w => (ESP_OK, w)
  | n + 1, w =>
    match stack_call w with
    | (ret, w1) => if ret ≠ ESP_OK then (ret, w1) else bring_up n w1

/-- The call `xQueueCreate(len, sizeof(char*))`: an empty queue of capacity
`len`, or `NULL` when its storage cannot be allocated. -/
def xQueueCreate (w : World) (len : Nat) : Option Queue × World :=
  match pvPortMalloc w with
  | (true, w1) => (some ⟨len, []⟩, w1)
  | (false, w1) => (none, w1)

/-- The function `obd_bt_init()`: six bring-up calls (`esp_bt_controller_init`,
`esp_bt_controller_enable`, `esp_bluedroid_init`, `esp_bluedroid_enable`,
`esp_spp_register_callback`, `esp_spp_enhanced_init`), then the creation of
the inbound queue when there is none. -/
def obd_bt_init (w : World) : Int × World :=
  match bring_up 6 w with
  | (ret, w1) =>
    if ret ≠ ESP_OK then (ret, w1)
    else
      match w1.s_rx_queue with
      | some _ => (ESP_OK, w1)
      | none =>
        -- s_rx_queue = xQueueCreate(16, sizeof(char*)); a failure is only logged
        match xQueueCreate w1 16 with
        | (q, w2) => (ESP_OK, { w2 with s_rx_queue := q })

/-- The function `mac_str_to_bda(mac, bda)`: the six bytes stored in `bda`, or
`none` when it returns `false`. -/
def mac_str_to_bda (mac : Option (List Nat)) : Option (List Nat) :=
  match mac with
  | none => none
  | some mac =>
    match sscanf mac (cstr "%x:%x:%x:%x:%x:%x") with
    | (6, vals) => some (vals.map (fun v => to_word v % 256))
    | _ => none

/-- The function `obd_bt_connect(mac_str)`. -/
def obd_bt_connect (w : World) (mac_str : Option (List Nat)) : Int × World :=
  match mac_str with
  | none => (-1, w)
  | some mac =>
    if w.s_connected = true then (0, w)
    else
      match mac_str_to_bda (some mac) with
      | none => (-1, w)
      | some remote_bda =>
        match esp_spp_connect w remote_bda with
        | (err, w1) => if err ≠ ESP_OK then (-1, w1) else (0, w1)

/-- The function `obd_bt_disconnect()`. -/
def obd_bt_disconnect (w : World) : World :=
  if w.s_connected = true ∧ w.s_spp_handle ≠ 0 then esp_spp_disconnect w w.s_spp_handle else w

/-- The function `obd_bt_is_connected()`. -/
def obd_bt_is_connected (w : World) : Bool := w.s_connected

/-! ## The polling task -/

/-- The string a `char` array of `cap` bytes holds: its bytes before the first
NUL. -/
def c_string (out : Buf) (cap : Nat) : List Nat := (out.read cap).takeWhile (fun b => b ≠ 0)

/-- How one iteration of the polling loop ends. -/
inductive PollOutcome where
  | connect_failed
  | exchange_failed
  | rpm (value : Int)
  | decode_failed
deriving DecidableEq, Repr

/-- What one iteration of the polling loop leaves: whether it took the connect
branch, how it ended, the array `reply` and the world at the start of the next
iteration. -/
structure PollResult where
  tried_connect : Bool
  outcome : PollOutcome
  reply : Buf
  world : World

/-- The second half of an iteration of the polling loop, from the declaration
of `reply` on: the command `010C` is sent and answered within 3000 ms; a
negative result disconnects and waits 1000 ms; otherwise the reply is decoded,
the result logged, and the task sleeps for the polling interval. -/
def poll_exchange (hz fuel : Nat) (w : World) (interval : Int) (reply : Buf) (tried : Bool) :
    Option PollResult :=
  match obd_send_cmd_and_read hz fuel w (some (cstr "010C")) (some reply) 512 3000 with
  | none => none
  | some r =>
    if r.ret < 0 then
      some ⟨tried, PollOutcome.exchange_failed, r.out.getD reply,
        vTaskDelay (obd_bt_disconnect r.world) (pdMS_TO_TICKS hz 1000)⟩
    else
      some ⟨tried,
        if 0 ≤ parse_pid_rpm (some (c_string (r.out.getD reply) 512)) then
          PollOutcome.rpm (parse_pid_rpm (some (c_string (r.out.getD reply) 512)))
        else PollOutcome.decode_failed,
        r.out.getD reply, vTaskDelay r.world (pdMS_TO_TICKS hz interval)⟩

/-- One iteration of the loop `while (1)` of `obd_polling_task`. -/
def obd_polling_iteration (hz fuel : Nat) (w : World) (mac : List Nat) (interval : Int)
    (reply : Buf) : Option PollResult :=
  if obd_bt_is_connected w = false then
    match obd_bt_connect w (some mac) with
    | (ret, w1) =>
      if ret ≠ 0 then
        some ⟨true, PollOutcome.connect_failed, reply, vTaskDelay w1 (pdMS_TO_TICKS hz 2000)⟩
      else poll_exchange hz fuel (vTaskDelay w1 (pdMS_TO_TICKS hz 500)) interval reply true
  else poll_exchange hz fuel w interval reply false

/-- The first `n` iterations of `obd_polling_task` for the arguments `mac` and
`interval_ms`: the address is cut to 31 characters, an interval that is not
positive is replaced by 1000, and the iterations follow one another. -/
def obd_polling_task (hz fuel : Nat) (mac : List Nat) (interval_ms : Int) :
    Nat → World → Buf → Option (List PollResult)
  | 0, _, _ => some []
  | n + 1, w, reply =>
    match obd_polling_iteration hz fuel w (mac.take 31)
        (if 0 < interval_ms then interval_ms else 1000) reply with
    | none => none
    | some r =>
      match obd_polling_task hz fuel mac interval_ms n r.world r.reply with
      | none => none
      | some rs => some (r :: rs)

/-! ## Reference notions for the scenario and the decoder -/

/-- The longest leading part of a reply that holds no prompt. -/
def before_prompt (s : List Nat) : List Nat := s.takeWhile (fun b => b ≠ PROMPT)

/-- The text starts with two numbers that `%x` converts, separated by white
space or nothing. -/
def two_hex_values (t : List Nat) : Bool :=
  match scan_x t with
  | some (_, r) => (scan_x r).isSome
  | none => false

/-! ## Sequences of queue operations -/

/-- An operation on the inbound queue: a chunk delivered by the link provider
(`esp_spp_cb` with `ESP_SPP_DATA_IND_EVT`) or a pop that does not wait
(`xQueueReceive(s_rx_queue, &pkt, 0)`). -/
inductive QueueOp where
  | deliver (data : List Nat)
  | pop
deriving DecidableEq, Repr

/-- One operation on the inbound queue of the world, with the item a pop
received. -/
def queue_op (w : World) : QueueOp → Option (Option (List Nat)) × World
  | QueueOp.deliver data => (none, esp_spp_cb w (SppEvent.ESP_SPP_DATA_IND_EVT data))
  | QueueOp.pop =>
    match w.s_rx_queue with
    | some q => xQueueReceive w q 0
    | none => (none, w)

/-- A sequence of operations on the inbound queue: the items popped, in the
order of the pops, and the world left. -/
def queue_run : List QueueOp → World → List (Option (List Nat)) × World
  | [], w => ([], w)
  | op :: ops, w =>
    match queue_op w op with
    | (some pkt, w1) => (pkt :: (queue_run ops w1).1, (queue_run ops w1).2)
    | (none, w1) => queue_run ops w1

/-- The items of the inbound queue, oldest first. -/
def queue_items (w : World) : List (Option (List Nat)) :=
  match w.s_rx_queue with
  | some q => q.items
  | none => []

/-- The packet `esp_spp_cb` builds for a chunk: its bytes and one NUL. -/
def packet (data : List Nat) : Option (List Nat) := some (data ++ [0])

/-- The packets of the chunks delivered by a sequence of operations, in the
order of arrival. -/
def delivered : List QueueOp → List (Option (List Nat))
  | [] => []
  | QueueOp.deliver data :: ops => packet data :: delivered ops
  | QueueOp.pop :: ops => delivered ops

/-- A world before `obd_bt_init`: no queue, the link down, every allocation
granted. -/
def world_boot : World where
  s_connected := false
  s_spp_handle := 0
  s_rx_queue := none
  tick := 0
  heap := []
  spp_write_ret := []
  feed := []
  link_ops := []

/-- The world `world_boot` with the second allocation to come refused. -/
def world_boot_tight : World := { world_boot with heap := [true, false] }

/-! ## Sequences of events and calls -/

/-- What can happen to the transport between two moments: the link provider
calls `esp_spp_cb` with an event, or a task calls one of `obd_bt_connect`,
`obd_bt_disconnect`, `obd_send_cmd_and_read`. -/
inductive Action where
  | event (e : SppEvent)
  | connect (mac_str : Option (List Nat))
  | disconnect
  | send (cmd : Option (List Nat)) (out : Option Buf) (out_sz : Nat) (timeout_ms : Int)

/-- The world after one action, `none` when the reading loop needs more than
`fuel` iterations. -/
def act (hz fuel : Nat) (w : World) : Action → Option World
  | Action.event e => some (esp_spp_cb w e)
  | Action.connect mac_str => some (obd_bt_connect w mac_str).2
  | Action.disconnect => some (obd_bt_disconnect w)
  | Action.send cmd out out_sz timeout_ms =>
    (obd_send_cmd_and_read hz fuel w cmd out out_sz timeout_ms).map (fun r => r.world)

/-- The world after a sequence of actions. -/
def run (hz fuel : Nat) : List Action → World → Option World
  | [], w => some w
  | a :: rest, w =>
    match act hz fuel w a with
    | none => none
    | some w1 => run hz fuel rest w1

/-- The handles of the open events among the actions, in order. -/
def open_handles : List Action → List Nat
  | [] => []
  | Action.event (SppEvent.ESP_SPP_OPEN_EVT handle) :: rest => handle :: open_handles rest
  | _ :: rest => open_handles rest

/-- The transport handle is present exactly when the link state is Connected. -/
def handle_iff_connected (w : World) : Prop := w.s_spp_handle ≠ 0 ↔ w.s_connected = true

/-- The actions of a session: a connect request, the link opened with the
handle 7, a chunk delivered, a command exchanged, a disconnect request, the
link closed. -/
def session_actions : List Action :=
  [Action.connect (some (cstr "AA:BB:CC:DD:EE:FF")),
    Action.event (SppEvent.ESP_SPP_OPEN_EVT 7),
    Action.event (SppEvent.ESP_SPP_DATA_IND_EVT (cstr "41 0C 0B B8>")),
    Action.send (some (cstr "010C")) (some (fun _ => 255)) 512 3000,
    Action.disconnect,
    Action.event SppEvent.ESP_SPP_CLOSE_EVT]

/-- A connected world with nothing queued and nothing to come. -/
def world_linked : World where
  s_connected := true
  s_spp_handle := 7
  s_rx_queue := some ⟨16, []⟩
  tick := 1000
  heap := []
  spp_write_ret := []
  feed := []
  link_ops := []

/-! ## Reference notions for the polling loop -/

/-- The link state after the events of a batch, from the state `c` before it:
an open event gives Connected, a close event Disconnected, any other event
leaves the state. -/
def link_after (c : Bool) : List SppEvent → Bool
  | [] => c
  | SppEvent.ESP_SPP_OPEN_EVT _ :: rest => link_after true rest
  | SppEvent.ESP_SPP_CLOSE_EVT :: rest => link_after false rest
  | _ :: rest => link_after c rest

/-- The connect branch of an iteration of the polling loop. -/
def connect_branch (hz fuel : Nat) (w : World) (mac : List Nat) (interval : Int) (reply : Buf) :
    Option PollResult :=
  match obd_bt_connect w (some mac) with
  | (ret, w1) =>
    if ret ≠ 0 then
      some ⟨true, PollOutcome.connect_failed, reply, vTaskDelay w1 (pdMS_TO_TICKS hz 2000)⟩
    else poll_exchange hz fuel (vTaskDelay w1 (pdMS_TO_TICKS hz 500)) interval reply true

/-- The world `world_write_fails` with a close event delivered during the next
delay. -/
def world_write_fails_closed : World :=
  { world_write_fails with delay_events := [[SppEvent.ESP_SPP_CLOSE_EVT]] }

/-- What the call of `obd_send_cmd_and_read` leaves in `world_write_fails_closed`:
the value -1, the buffer untouched, the write logged. -/
def reply_write_failed : Reply where
  ret := -1
  out := some (fun _ => 255)
  world :=
    { world_write_fails_closed with
      spp_write_ret := []
      link_ops := [LinkOp.spp_write 7 5 [48, 49, 48, 67, 13]] }

/-! ## Reference notions for addresses -/

/-- A connected world with three chunks queued: `41 0C 0B `, then `B8>` followed
by a carriage return, then `NEXT`. -/
def world_three_queued : World where
  s_connected := true
  s_spp_handle := 7
  s_rx_queue := some ⟨16, [some [52, 49, 32, 48, 67, 32, 48, 66, 32, 0],
    some [66, 56, 62, 13, 0], some [78, 69, 88, 84, 0]]⟩
  tick := 1000
  heap := []
  spp_write_ret := []
  feed := []
  link_ops := []

/-- The chunks queued in `world_three_queued`. -/
def chunks_three : List (List Nat) :=
  [[52, 49, 32, 48, 67, 32, 48, 66, 32], [66, 56, 62, 13], [78, 69, 88, 84]]

/-- The world `world_three_queued` once the command `010C` is written. -/
def world_three_sent : World :=
  { world_three_queued with link_ops := [LinkOp.spp_write 7 5 [48, 49, 48, 67, 13]] }

/-- The world `world_three_sent` once the first two chunks are dequeued. -/
def world_three_read : World :=
  { world_three_sent with s_rx_queue := some ⟨16, [some [78, 69, 88, 84, 0]]⟩ }

/-- The text after the response token `strstr` finds in a payload: after the
first `41 0C`, or after the first `410C` when there is no `41 0C`; `none` when
the payload holds neither. -/
def token_tail (payload : List Nat) : Option (List Nat) :=
  match strstr payload (cstr "41 0C") with
  | some p => some (p.drop 5)
  | none =>
    match strstr payload (cstr "410C") with
    | some p => some (p.drop 4)
    | none => none

/-- The decoding of the text after the token: the formula on the two numbers
`%x` converts one after the other, -1 when either conversion fails. -/
def decode_tail (t : List Nat) : Int :=
  match scan_x t with
  | none => -1
  | some (a, r) =>
    match scan_x r with
    | none => -1
    | some (b, _) => rpm_formula a b

/-! ## Lemmas -/

theorem store_apply (bytes : List Nat) : ∀ (out : Buf) (i j : Nat),
    Buf.store out i bytes j = if i ≤ j ∧ j < i + bytes.length then bytes.getD (j - i) 0 else out j := by
  induction bytes with
  | nil =>
    intro out i j
    have h : ¬ (i ≤ j ∧ j < i + ([] : List Nat).length) := by simp
    simp only [Buf.store, if_neg h]
  | cons c rest ih =>
    intro out i j
    simp only [Buf.store, ih, Buf.write, List.length_cons]
    by_cases h1 : j = i
    · subst h1
      simp
    · by_cases h2 : i + 1 ≤ j
      · have h3 : i ≤ j := by omega
        have h4 : j - i = (j - (i + 1)) + 1 := by omega
        by_cases h5 : j < i + 1 + rest.length
        · have h6 : j < i + (rest.length + 1) := by omega
          simp [h2, h3, h5, h6, h4]
        · have h6 : ¬ j < i + (rest.length + 1) := by omega
          simp [h5, h6, h1]
      · have h3 : ¬ i ≤ j := by omega
        simp [h2, h3, h1]

theorem copy_pkt_eq (out_sz : Nat) (pkt : List Nat) : ∀ (out : Buf) (total : Nat),
    copy_pkt out_sz pkt out total =
      (Buf.store out total (copied (out_sz - 1 - total) pkt),
        total + (copied (out_sz - 1 - total) pkt).length) := by
  induction pkt with
  | nil => intro out total; simp [copy_pkt, copied, Buf.store]
  | cons c rest ih =>
    intro out total
    by_cases h : c ≠ 0 ∧ total < out_sz - 1
    · have h2 : c ≠ 0 ∧ 0 < out_sz - 1 - total := ⟨h.1, by omega⟩
      have h3 : out_sz - 1 - total - 1 = out_sz - 1 - (total + 1) := by omega
      by_cases hp : c = PROMPT
      · simp only [copy_pkt, copied, if_pos h, if_pos h2, if_pos hp, Buf.store, List.length_singleton]
      · simp only [copy_pkt, copied, if_pos h, if_pos h2, if_neg hp, Buf.store, ih, h3,
          List.length_cons, Nat.add_assoc, Nat.add_comm 1]
    · have h2 : ¬ (c ≠ 0 ∧ 0 < out_sz - 1 - total) := by
        intro hh; exact h ⟨hh.1, by omega⟩
      simp only [copy_pkt, copied, if_neg h, if_neg h2, Buf.store, List.length_nil, Nat.add_zero]

theorem copied_chunk (data : List Nat) : ∀ room : Nat,
    copied room (data ++ [0]) = (upto_prompt (data.takeWhile (fun b => b ≠ 0))).take room := by
  induction data with
  | nil => intro room; simp [copied, upto_prompt]
  | cons b rest ih =>
    intro room
    by_cases hb : b = 0
    · subst hb
      simp [copied, upto_prompt]
    · cases room with
      | zero => simp [copied]
      | succ r =>
        have hP : PROMPT ≠ 0 := by decide
        by_cases hp : b = PROMPT
        · simp [copied, upto_prompt, hP, hp, List.takeWhile]
        · simp [copied, upto_prompt, hb, hp, List.takeWhile, ih]

theorem takeWhile_nul_free (c : List Nat) (h : ∀ b ∈ c, b ≠ 0) :
    c.takeWhile (fun b => b ≠ 0) = c := by
  rw [List.takeWhile_eq_self_iff]
  intro b hb
  simpa using h b hb

theorem upto_prompt_of_not_mem (c : List Nat) (h : PROMPT ∉ c) : upto_prompt c = c := by
  induction c with
  | nil => rfl
  | cons b rest ih =>
    have hb : b ≠ PROMPT := fun e => h (by simp [e])
    have hr : PROMPT ∉ rest := fun e => h (by simp [e])
    simp [upto_prompt, hb, ih hr]

theorem upto_prompt_append_of_not_mem (c r : List Nat) (h : PROMPT ∉ c) :
    upto_prompt (c ++ r) = c ++ upto_prompt r := by
  induction c with
  | nil => rfl
  | cons b rest ih =>
    have hb : b ≠ PROMPT := fun e => h (by simp [e])
    have hr : PROMPT ∉ rest := fun e => h (by simp [e])
    simp [upto_prompt, hb, ih hr]

theorem upto_prompt_append_of_mem (c r : List Nat) (h : PROMPT ∈ c) :
    upto_prompt (c ++ r) = upto_prompt c := by
  induction c with
  | nil => simp at h
  | cons b rest ih =>
    by_cases hb : b = PROMPT
    · simp [upto_prompt, hb]
    · have hr : PROMPT ∈ rest := by
        rcases List.mem_cons.1 h with e | e
        · exact absurd e.symm hb
        · exact e
      simp [upto_prompt, hb, ih hr]

/-- Every byte of `upto_prompt c` before its last is not the prompt. -/
theorem upto_prompt_getD_ne (c : List Nat) : ∀ i : Nat, i + 1 < (upto_prompt c).length →
    (upto_prompt c).getD i 0 ≠ PROMPT := by
  induction c with
  | nil => intro i h; simp [upto_prompt] at h
  | cons b rest ih =>
    intro i h
    by_cases hb : b = PROMPT
    · simp [upto_prompt, hb] at h
    · simp only [upto_prompt, if_neg hb, List.length_cons] at h ⊢
      cases i with
      | zero => simpa using hb
      | succ j =>
        have := ih j (by omega)
        simpa using this

/-- When the prompt occurs in `c`, it is the last byte of `upto_prompt c`. -/
theorem upto_prompt_last (c : List Nat) (h : PROMPT ∈ c) :
    0 < (upto_prompt c).length ∧ (upto_prompt c).getD ((upto_prompt c).length - 1) 0 = PROMPT := by
  induction c with
  | nil => simp at h
  | cons b rest ih =>
    by_cases hb : b = PROMPT
    · simp [upto_prompt, hb]
    · have hr : PROMPT ∈ rest := by
        rcases List.mem_cons.1 h with e | e
        · exact absurd e.symm hb
        · exact e
      obtain ⟨h1, h2⟩ := ih hr
      simp only [upto_prompt, if_neg hb, List.length_cons]
      refine ⟨by omega, ?_⟩
      have : (upto_prompt rest).length + 1 - 1 = ((upto_prompt rest).length - 1) + 1 := by omega
      rw [this]
      simpa using h2

theorem dequeue_all_cons {hz : Nat} {T : Int} {start : Nat} {c : List Nat} {cs : List (List Nat)}
    {rem : Int} {w : World} {r : Int × World}
    (h : dequeue_all hz T start (c :: cs) rem w = some r) :
    0 < rem ∧ ∃ q w1, w.s_rx_queue = some q ∧
      xQueueReceive w q (wait_ticks hz rem) = (some (some (c ++ [0])), w1) ∧
      dequeue_all hz T start cs (recompute_remaining hz T start (xTaskGetTickCount w1)) w1 = some r := by
  unfold dequeue_all at h
  split at h
  · rename_i hrem
    refine ⟨hrem, ?_⟩
    split at h
    · exact absurd h (by simp)
    · rename_i q hq
      split at h
      · rename_i pkt w1 hrecv
        split at h
        · rename_i hpkt
          subst hpkt
          exact ⟨q, w1, hq, hrecv, h⟩
        · exact absurd h (by simp)
      · exact absurd h (by simp)
  · exact absurd h (by simp)

theorem read_loop_exit (hz : Nat) (T : Int) (start out_sz fuel : Nat) (rem : Int) (total : Nat)
    (out : Buf) (w : World) (h : ¬ (0 < rem ∧ total < out_sz - 1)) :
    read_loop hz T start out_sz (fuel + 1) rem total out w = some (total, out, w) := by
  simp only [read_loop, if_neg h]

theorem read_loop_chunk (hz : Nat) (T : Int) (start out_sz fuel : Nat) (rem : Int) (total : Nat)
    (out : Buf) (w w1 : World) (q : Queue) (pkt : List Nat)
    (h : 0 < rem ∧ total < out_sz - 1) (hq : w.s_rx_queue = some q)
    (hrecv : xQueueReceive w q (wait_ticks hz rem) = (some (some pkt), w1)) :
    read_loop hz T start out_sz (fuel + 1) rem total out w =
      if 0 < (copy_pkt out_sz pkt out total).2 ∧
          (copy_pkt out_sz pkt out total).1 ((copy_pkt out_sz pkt out total).2 - 1) = PROMPT then
        some ((copy_pkt out_sz pkt out total).2, (copy_pkt out_sz pkt out total).1, w1)
      else
        read_loop hz T start out_sz fuel
          (recompute_remaining hz T start (xTaskGetTickCount w1))
          (copy_pkt out_sz pkt out total).2 (copy_pkt out_sz pkt out total).1 w1 := by
  simp only [read_loop, if_pos h, hq, hrecv]

theorem store_append (a b : List Nat) : ∀ (out : Buf) (i : Nat),
    Buf.store out i (a ++ b) = Buf.store (Buf.store out i a) (i + a.length) b := by
  induction a with
  | nil => intro out i; simp [Buf.store]
  | cons x rest ih =>
    intro out i
    have e : i + 1 + rest.length = i + (rest.length + 1) := by omega
    show Buf.store (out.write i x) (i + 1) (rest ++ b) = _
    rw [ih]
    simp only [Buf.store, List.length_cons, e]

/-- The last cell a store reached holds the last byte stored. -/
theorem store_last (out : Buf) (i : Nat) (t : List Nat) (h : 0 < t.length) :
    Buf.store out i t (i + t.length - 1) = t.getD (t.length - 1) 0 := by
  rw [store_apply]
  have h1 : i ≤ i + t.length - 1 ∧ i + t.length - 1 < i + t.length := by omega
  rw [if_pos h1]
  congr 1
  omega

/-- A packet that makes the reader stop, by its prompt or by filling the buffer. -/
theorem take_upto_stop (c : List Nat) (room : Nat) (hroom : 0 < room)
    (hstop : PROMPT ∈ c ∨ room ≤ c.length) :
    0 < ((upto_prompt c).take room).length ∧
      (((upto_prompt c).take room).getD (((upto_prompt c).take room).length - 1) 0 = PROMPT ∨
        ((upto_prompt c).take room).length = room) := by
  by_cases hlen : room ≤ (upto_prompt c).length
  · have : ((upto_prompt c).take room).length = room := by simp [hlen]
    exact ⟨by omega, Or.inr this⟩
  · have hlen2 : (upto_prompt c).length ≤ room := by omega
    have hmem : PROMPT ∈ c := by
      rcases hstop with h | h
      · exact h
      · by_contra hn
        rw [upto_prompt_of_not_mem c hn] at hlen
        exact hlen h
    rw [List.take_of_length_le hlen2]
    obtain ⟨h1, h2⟩ := upto_prompt_last c hmem
    exact ⟨h1, Or.inl h2⟩

/-- The reader on a packet that makes it stop: the bytes up to the prompt or to
the end of the buffer are stored and the loop is left, at once or at its next
test. -/
theorem read_loop_stop_chunk (hz : Nat) (T : Int) (start out_sz fuel : Nat) (rem : Int)
    (total : Nat) (out : Buf) (w w1 : World) (q : Queue) (c : List Nat)
    (hnul : ∀ b ∈ c, b ≠ 0)
    (h : 0 < rem ∧ total < out_sz - 1) (hq : w.s_rx_queue = some q)
    (hrecv : xQueueReceive w q (wait_ticks hz rem) = (some (some (c ++ [0])), w1))
    (hstop : PROMPT ∈ c ∨ out_sz - 1 - total ≤ c.length) :
    read_loop hz T start out_sz (fuel + 2) rem total out w =
      some (total + ((upto_prompt c).take (out_sz - 1 - total)).length,
        Buf.store out total ((upto_prompt c).take (out_sz - 1 - total)), w1) := by
  rw [read_loop_chunk hz T start out_sz (fuel + 1) rem total out w w1 q (c ++ [0]) h hq hrecv]
  rw [copy_pkt_eq, copied_chunk, takeWhile_nul_free c hnul]
  obtain ⟨h1, h2⟩ := take_upto_stop c (out_sz - 1 - total) (by omega) hstop
  generalize ht : (upto_prompt c).take (out_sz - 1 - total) = t at h1 h2
  simp only
  split
  · rfl
  · rename_i hbrk
    have hlast := store_last out total t h1
    have hne : t.getD (t.length - 1) 0 ≠ PROMPT := by
      intro e
      apply hbrk
      refine ⟨by omega, ?_⟩
      rw [hlast]; exact e
    have hlen : t.length = out_sz - 1 - total := by
      rcases h2 with e | e
      · exact absurd e hne
      · exact e
    apply read_loop_exit
    intro hh
    omega

/-- The reader on a packet that leaves room and holds no prompt: its bytes are
stored and the loop goes on. -/
theorem read_loop_plain_chunk (hz : Nat) (T : Int) (start out_sz fuel : Nat) (rem : Int)
    (total : Nat) (out : Buf) (w w1 : World) (q : Queue) (c : List Nat)
    (hnul : ∀ b ∈ c, b ≠ 0) (hinv : 0 < total → out (total - 1) ≠ PROMPT)
    (h : 0 < rem ∧ total < out_sz - 1) (hq : w.s_rx_queue = some q)
    (hrecv : xQueueReceive w q (wait_ticks hz rem) = (some (some (c ++ [0])), w1))
    (hp : PROMPT ∉ c) (hlen : c.length < out_sz - 1 - total) :
    (0 < total + c.length → Buf.store out total c (total + c.length - 1) ≠ PROMPT) ∧
    read_loop hz T start out_sz (fuel + 1) rem total out w =
      read_loop hz T start out_sz fuel (recompute_remaining hz T start (xTaskGetTickCount w1))
        (total + c.length) (Buf.store out total c) w1 := by
  have hinv2 : 0 < total + c.length → Buf.store out total c (total + c.length - 1) ≠ PROMPT := by
    intro hpos
    by_cases hc : 0 < c.length
    · rw [store_last out total c hc]
      intro e
      apply hp
      rw [← e, List.getD_eq_getElem c 0 (by omega)]
      exact List.getElem_mem _
    · have hc0 : c = [] := List.length_eq_zero.1 (by omega)
      subst hc0
      simpa [Buf.store] using hinv (by simpa using hpos)
  refine ⟨hinv2, ?_⟩
  rw [read_loop_chunk hz T start out_sz fuel rem total out w w1 q (c ++ [0]) h hq hrecv]
  rw [copy_pkt_eq, copied_chunk, takeWhile_nul_free c hnul, upto_prompt_of_not_mem c hp,
    List.take_of_length_le (by omega)]
  simp only
  rw [if_neg]
  intro hh
  exact hinv2 hh.1 hh.2

/-- The reader on chunks that make it stop, by a prompt or a full buffer: it
dequeues the chunks needed and no more, and leaves the loop with the bytes up
to the first prompt, cut to the room of the buffer. -/
theorem read_loop_stops (hz : Nat) (T : Int) (start out_sz : Nat) :
    ∀ (cs : List (List Nat)) (rem : Int) (total : Nat) (out : Buf) (w : World) (r : Int × World),
      (∀ c ∈ cs, ∀ b ∈ c, b ≠ 0) →
      (0 < total → out (total - 1) ≠ PROMPT) →
      (PROMPT ∈ cs.flatten ∨ out_sz - 1 - total ≤ cs.flatten.length) →
      dequeue_all hz T start (cs.take (chunks_needed (out_sz - 1 - total) cs)) rem w = some r →
      ∀ fuel, chunks_needed (out_sz - 1 - total) cs + 1 ≤ fuel →
        read_loop hz T start out_sz fuel rem total out w =
          some (total + ((upto_prompt cs.flatten).take (out_sz - 1 - total)).length,
            Buf.store out total ((upto_prompt cs.flatten).take (out_sz - 1 - total)), r.2) := by
  intro cs
  induction cs with
  | nil =>
    intro rem total out w r _ _ hstop hdq fuel hfuel
    have hroom : out_sz - 1 - total = 0 := by
      rcases hstop with h | h
      · simp at h
      · simpa using h
    obtain ⟨f, rfl⟩ : ∃ f, fuel = f + 1 := ⟨fuel - 1, by omega⟩
    simp only [chunks_needed, List.take_nil, dequeue_all, Option.some.injEq] at hdq
    subst hdq
    rw [read_loop_exit _ _ _ _ _ _ _ _ _ (by omega)]
    simp [upto_prompt, Buf.store]
  | cons c cs ih =>
    intro rem total out w r hnul hinv hstop hdq fuel hfuel
    have hnulc : ∀ b ∈ c, b ≠ 0 := hnul c (by simp)
    have hnulcs : ∀ c' ∈ cs, ∀ b ∈ c', b ≠ 0 := fun c' hc' => hnul c' (by simp [hc'])
    by_cases hroom : out_sz - 1 - total = 0
    · obtain ⟨f, rfl⟩ : ∃ f, fuel = f + 1 := ⟨fuel - 1, by omega⟩
      simp only [hroom, chunks_needed, if_true, List.take_zero, dequeue_all,
        Option.some.injEq] at hdq
      subst hdq
      rw [read_loop_exit _ _ _ _ _ _ _ _ _ (by omega)]
      simp [hroom, Buf.store]
    · by_cases hc : PROMPT ∈ c ∨ out_sz - 1 - total ≤ c.length
      · have hk : chunks_needed (out_sz - 1 - total) (c :: cs) = 1 := by
          simp only [chunks_needed, if_neg hroom, if_pos hc]
        rw [hk] at hdq hfuel
        obtain ⟨f, rfl⟩ : ∃ f, fuel = f + 2 := ⟨fuel - 2, by omega⟩
        simp only [List.take_succ_cons, List.take_zero] at hdq
        obtain ⟨hrem, q, w1, hq, hrecv, hrest⟩ := dequeue_all_cons hdq
        simp only [dequeue_all, Option.some.injEq] at hrest
        subst hrest
        rw [read_loop_stop_chunk hz T start out_sz f rem total out w w1 q c hnulc
          ⟨hrem, by omega⟩ hq hrecv hc]
        have e : (upto_prompt (c :: cs).flatten).take (out_sz - 1 - total) =
            (upto_prompt c).take (out_sz - 1 - total) := by
          rw [List.flatten_cons]
          by_cases hm : PROMPT ∈ c
          · rw [upto_prompt_append_of_mem c _ hm]
          · have hl : out_sz - 1 - total ≤ c.length := by
              rcases hc with h | h
              · exact absurd h hm
              · exact h
            rw [upto_prompt_append_of_not_mem c _ hm, upto_prompt_of_not_mem c hm,
              List.take_append_of_le_length hl]
        rw [e]
      · have hm : PROMPT ∉ c := fun h => hc (Or.inl h)
        have hl : c.length < out_sz - 1 - total := by
          by_contra h
          exact hc (Or.inr (by omega))
        have hk : chunks_needed (out_sz - 1 - total) (c :: cs) =
            1 + chunks_needed (out_sz - 1 - (total + c.length)) cs := by
          simp only [chunks_needed, if_neg hroom, if_neg hc]
          congr 2
          omega
        rw [hk] at hdq hfuel
        obtain ⟨f, rfl⟩ : ∃ f, fuel = f + 1 := ⟨fuel - 1, by omega⟩
        rw [Nat.add_comm 1, List.take_succ_cons] at hdq
        obtain ⟨hrem, q, w1, hq, hrecv, hrest⟩ := dequeue_all_cons hdq
        obtain ⟨hinv2, hstep⟩ := read_loop_plain_chunk hz T start out_sz f rem total out w w1 q c
          hnulc hinv ⟨hrem, by omega⟩ hq hrecv hm hl
        rw [hstep]
        have hstop2 : PROMPT ∈ cs.flatten ∨ out_sz - 1 - (total + c.length) ≤ cs.flatten.length := by
          rcases hstop with h | h
          · left
            rw [List.flatten_cons, List.mem_append] at h
            rcases h with h | h
            · exact absurd h hm
            · exact h
          · right
            rw [List.flatten_cons, List.length_append] at h
            omega
        rw [ih _ _ _ _ r hnulcs hinv2 hstop2 hrest f (by omega)]
        have e : (upto_prompt (c :: cs).flatten).take (out_sz - 1 - total) =
            c ++ (upto_prompt cs.flatten).take (out_sz - 1 - (total + c.length)) := by
          rw [List.flatten_cons, upto_prompt_append_of_not_mem c _ hm, List.take_append_eq_append_take,
            List.take_of_length_le (by omega)]
          congr 2
          omega
        rw [e, store_append, List.length_append, Nat.add_assoc]

theorem to_int_of_lt (n : Nat) (h : n < 2 ^ 31) : to_int n = (n : Int) := by
  have h1 : n % WORD = n := Nat.mod_eq_of_lt (by unfold WORD; omega)
  simp only [to_int, h1, if_pos h]

/-- Reading back a buffer in which `t` was stored from index 0 and a NUL was
then written over what followed. -/
theorem read_store_write (out : Buf) (t x : List Nat) :
    ((Buf.store out 0 (t ++ x)).write t.length 0).read (t.length + 1) = t ++ [0] := by
  apply List.ext_getElem
  · simp [Buf.read]
  · intro i h1 h2
    simp only [Buf.read, List.getElem_map, List.getElem_range, Buf.write]
    simp only [Buf.read, List.length_map, List.length_range] at h1
    by_cases hi : i = t.length
    · subst hi
      simp
    · have hlt : i < t.length := by omega
      rw [if_neg hi, store_apply]
      have hc : 0 ≤ i ∧ i < 0 + (t ++ x).length := by
        simp only [List.length_append]; omega
      rw [if_pos hc, Nat.sub_zero, List.getD_eq_getElem _ 0 (by simp only [List.length_append]; omega),
        List.getElem_append_left hlt, List.getElem_append_left hlt]

theorem chunks_needed_all (last : List Nat) : ∀ (init : List (List Nat)) (room : Nat),
    PROMPT ∉ init.flatten → init.flatten.length + last.length + 1 ≤ room →
    chunks_needed room (init ++ [last ++ [PROMPT]]) = init.length + 1 := by
  intro init
  induction init with
  | nil =>
    intro room _ hroom
    have h0 : room ≠ 0 := by omega
    simp [chunks_needed, h0]
  | cons c init ih =>
    intro room hp hroom
    simp only [List.flatten_cons, List.mem_append, not_or, List.length_append] at hp hroom
    have h0 : room ≠ 0 := by omega
    have hc : ¬ (PROMPT ∈ c ∨ room ≤ c.length) := by
      intro h
      rcases h with h | h
      · exact hp.1 h
      · omega
    have e := ih (room - c.length) hp.2 (by omega)
    show chunks_needed room (c :: (init ++ [last ++ [PROMPT]])) = _
    simp only [chunks_needed, if_neg h0, if_neg hc, List.length_cons, e]
    omega

/-- A call that passes its checks and sends its command is the reading part. -/
theorem obd_send_cmd_and_read_sent (hz fuel : Nat) (w w1 : World) (cmd : List Nat) (out : Buf)
    (out_sz : Nat) (timeout_ms : Int) (hsz : out_sz ≠ 0) (hconn : w.s_connected = true)
    (hhandle : w.s_spp_handle ≠ 0) (hsend : send_cmd w cmd = (true, w1)) :
    obd_send_cmd_and_read hz fuel w (some cmd) (some out) out_sz timeout_ms =
      read_response hz fuel w1 out out_sz timeout_ms := by
  have h : ¬ (w.s_connected = false ∨ w.s_spp_handle = 0) := by
    simp [hconn, hhandle]
  simp only [obd_send_cmd_and_read, if_neg hsz, if_neg h, hsend]

/-- Before the first prompt, the cut at the prompt changes nothing. -/
theorem take_upto_prompt (s : List Nat) : ∀ n : Nat,
    n ≤ (s.takeWhile (fun b => b ≠ PROMPT)).length →
    (upto_prompt s).take n = (s.takeWhile (fun b => b ≠ PROMPT)).take n ∧
      (upto_prompt s).take n = s.take n := by
  induction s with
  | nil => intro n _; simp [upto_prompt]
  | cons b rest ih =>
    intro n hn
    by_cases hb : b = PROMPT
    · have h0 : n = 0 := by simpa [List.takeWhile, hb] using hn
      subst h0
      simp
    · cases n with
      | zero => simp
      | succ m =>
        have htw : (b :: rest).takeWhile (fun b => b ≠ PROMPT) =
            b :: rest.takeWhile (fun b => b ≠ PROMPT) :=
          List.takeWhile_cons_of_pos (by simpa using hb)
        rw [htw] at hn ⊢
        have hm : m ≤ (rest.takeWhile (fun b => b ≠ PROMPT)).length := by
          simpa using hn
        obtain ⟨h1, h2⟩ := ih m hm
        simp only [upto_prompt, if_neg hb, List.take_succ_cons, h1, ← h2, and_self]

/-- Every chunk counted by `chunks_needed` is needed: before it, no prompt was
met and the buffer was not full. -/
theorem chunks_needed_minimal : ∀ (cs : List (List Nat)) (room j : Nat),
    j < chunks_needed room cs →
    PROMPT ∉ (cs.take j).flatten ∧ (cs.take j).flatten.length < room := by
  intro cs
  induction cs with
  | nil => intro room j h; simp [chunks_needed] at h
  | cons c cs ih =>
    intro room j h
    by_cases h0 : room = 0
    · simp [chunks_needed, h0] at h
    · cases j with
      | zero => simp; omega
      | succ i =>
        by_cases hc : PROMPT ∈ c ∨ room ≤ c.length
        · simp [chunks_needed, h0, hc] at h
        · simp only [chunks_needed, if_neg h0, if_neg hc] at h
          obtain ⟨h1, h2⟩ := ih (room - c.length) i (by omega)
          simp only [List.take_succ_cons, List.flatten_cons, List.mem_append, List.length_append]
          refine ⟨?_, ?_⟩
          · intro hh
            rcases hh with hh | hh
            · exact hc (Or.inl hh)
            · exact h1 hh
          · omega

theorem WORD_eq : WORD = 4294967296 := by decide

/-- The time left is computed exactly as long as it fits in an `int`. -/
theorem wrap_int_sub_to_int (T : Int) (x : Nat) (hx : x < WORD)
    (h1 : -(2 ^ 31) ≤ T - (x : Int)) (h2 : T - (x : Int) < 2 ^ 31) :
    wrap_int (T - to_int x) = T - (x : Int) := by
  rw [WORD_eq] at hx
  simp only [wrap_int, to_int, to_word, WORD_eq]
  have hxm : x % 4294967296 = x := Nat.mod_eq_of_lt hx
  rw [hxm]
  push_cast
  split <;> split <;> omega

/-- A wait computed from the time left, counted in milliseconds, does not
exceed the time left. -/
theorem pdMS_TO_TICKS_mul_le (hz : Nat) (rem : Int) (h1 : 1 ≤ hz) (h2 : hz ≤ 1000)
    (hrem : 0 < rem) (hrem2 : rem < 2 ^ 31) :
    ((pdMS_TO_TICKS hz rem * portTICK_PERIOD_MS hz : Nat) : Int) ≤ rem := by
  obtain ⟨r, rfl⟩ : ∃ r : Nat, rem = (r : Int) := ⟨rem.toNat, by omega⟩
  have hw : to_word (r : Int) = r := by
    simp only [to_word, WORD_eq]
    omega
  simp only [pdMS_TO_TICKS, portTICK_PERIOD_MS, hw]
  have ha : r * hz % WORD ≤ r * hz := Nat.mod_le _ _
  have hb : r * hz % WORD / 1000 ≤ r * hz / 1000 := Nat.div_le_div_right ha
  have hc : 1000 / hz * hz ≤ 1000 := Nat.div_mul_le_self 1000 hz
  have hd : r * hz / 1000 * 1000 ≤ r * hz := Nat.div_mul_le_self _ _
  have he : r * hz / 1000 * (1000 / hz) * hz ≤ r * hz := by
    calc r * hz / 1000 * (1000 / hz) * hz = r * hz / 1000 * (1000 / hz * hz) := by ring
      _ ≤ r * hz / 1000 * 1000 := Nat.mul_le_mul_left _ hc
      _ ≤ r * hz := hd
  have hf : r * hz / 1000 * (1000 / hz) ≤ r := Nat.le_of_mul_le_mul_right he (by omega)
  have hg : r * hz % WORD / 1000 * (1000 / hz) ≤ r :=
    le_trans (Nat.mul_le_mul_right _ hb) hf
  exact_mod_cast hg

theorem wait_ticks_pos (hz : Nat) (rem : Int) : 1 ≤ wait_ticks hz rem := by
  unfold wait_ticks
  split <;> omega

/-- One wait, counted in milliseconds, exceeds neither the time left nor one
tick period, whichever is larger. -/
theorem wait_ticks_mul_le (hz : Nat) (rem : Int) (h1 : 1 ≤ hz) (h2 : hz ≤ 1000)
    (hrem : 0 < rem) (hrem2 : rem < 2 ^ 31) :
    ((wait_ticks hz rem * portTICK_PERIOD_MS hz : Nat) : Int) ≤ max rem 1000 := by
  unfold wait_ticks
  split
  · have : portTICK_PERIOD_MS hz ≤ 1000 := Nat.div_le_self _ _
    simp only [Nat.one_mul]
    omega
  · have := pdMS_TO_TICKS_mul_le hz rem h1 h2 hrem hrem2
    omega

/-- A pop on the empty queue with nothing to come times out after the wait. -/
theorem xQueueReceive_idle (w : World) (q : Queue) (wait : Nat) (hitems : q.items = [])
    (hfeed : w.feed = []) :
    xQueueReceive w q wait = (none, { w with tick := (w.tick + wait) % WORD, feed := [] }) := by
  simp only [xQueueReceive, hitems, hfeed, wait_for_chunk]

/-- The reader on a queue that stays empty: it leaves the loop with nothing
read once the time is used up, after at most as many pops as milliseconds were
left. -/
theorem read_loop_idle (hz : Nat) (T : Int) (start out_sz : Nat) (out : Buf) (q : Queue)
    (h1 : 1 ≤ hz) (h2 : hz ≤ 1000) (hT2 : T < 2 ^ 31) (hstart : start < WORD)
    (hitems : q.items = []) :
    ∀ (m e : Nat) (w : World),
      w.s_rx_queue = some q → w.feed = [] → w.tick = (start + e) % WORD →
      T - ((e * portTICK_PERIOD_MS hz : Nat) : Int) ≤ (m : Int) →
      ∀ fuel, m + 1 ≤ fuel →
        ∃ w1, read_loop hz T start out_sz fuel (T - ((e * portTICK_PERIOD_MS hz : Nat) : Int)) 0 out w =
            some (0, out, w1) ∧ w1.s_rx_queue = some q ∧ w1.feed = [] ∧
          w1.s_connected = w.s_connected ∧ w1.s_spp_handle = w.s_spp_handle ∧
          w1.link_ops = w.link_ops := by
  intro m
  induction m with
  | zero =>
    intro e w _ _ _ hm fuel hfuel
    obtain ⟨f, rfl⟩ : ∃ f, fuel = f + 1 := ⟨fuel - 1, by omega⟩
    exact ⟨w, read_loop_exit _ _ _ _ _ _ _ _ _ (by omega), by assumption, by assumption, rfl, rfl, rfl⟩
  | succ m ih =>
    intro e w hq hfeed htick hm fuel hfuel
    obtain ⟨f, rfl⟩ : ∃ f, fuel = f + 1 := ⟨fuel - 1, by omega⟩
    by_cases hc : 0 < T - ((e * portTICK_PERIOD_MS hz : Nat) : Int) ∧ 0 < out_sz - 1
    · have hp : 1 ≤ portTICK_PERIOD_MS hz := by
        unfold portTICK_PERIOD_MS
        exact (Nat.one_le_div_iff (by omega)).2 h2
      have hw := wait_ticks_mul_le hz _ h1 h2 hc.1 (by omega)
      have hwp := wait_ticks_pos hz (T - ((e * portTICK_PERIOD_MS hz : Nat) : Int))
      generalize hwt : wait_ticks hz (T - ((e * portTICK_PERIOD_MS hz : Nat) : Int)) = wt at hw hwp
      have hrecv := xQueueReceive_idle w q wt hitems hfeed
      have hwle : wt ≤ wt * portTICK_PERIOD_MS hz := Nat.le_mul_of_pos_right _ hp
      have hele : e ≤ e * portTICK_PERIOD_MS hz := Nat.le_mul_of_pos_right _ hp
      have hmul : (e + wt) * portTICK_PERIOD_MS hz =
          e * portTICK_PERIOD_MS hz + wt * portTICK_PERIOD_MS hz := Nat.add_mul _ _ _
      have hw2 : ((wt * portTICK_PERIOD_MS hz : Nat) : Int) ≤
          max (T - ((e * portTICK_PERIOD_MS hz : Nat) : Int)) 1000 := hw
      have hbound : ((e + wt) * portTICK_PERIOD_MS hz : Nat) < WORD := by
        rw [WORD_eq, hmul]
        generalize e * portTICK_PERIOD_MS hz = A at hw2 hc
        generalize wt * portTICK_PERIOD_MS hz = B at hw2
        omega
      have hsmall : e + wt < WORD := by
        have : e + wt ≤ (e + wt) * portTICK_PERIOD_MS hz := Nat.le_mul_of_pos_right _ hp
        omega
      have hnow : ((w.tick + wt) % WORD + WORD - start) % WORD = e + wt := by
        rw [htick, WORD_eq]
        rw [WORD_eq] at hsmall hstart
        omega
      have hrec : recompute_remaining hz T start ((w.tick + wt) % WORD) =
          T - (((e + wt) * portTICK_PERIOD_MS hz : Nat) : Int) := by
        unfold recompute_remaining
        rw [hnow, Nat.mod_eq_of_lt hbound]
        apply wrap_int_sub_to_int _ _ hbound
        · rw [hmul]
          generalize e * portTICK_PERIOD_MS hz = A at hw2 hc
          generalize wt * portTICK_PERIOD_MS hz = B at hw2
          omega
        · omega
      have hstep : read_loop hz T start out_sz (f + 1)
          (T - ((e * portTICK_PERIOD_MS hz : Nat) : Int)) 0 out w =
          read_loop hz T start out_sz f (T - (((e + wt) * portTICK_PERIOD_MS hz : Nat) : Int)) 0 out
            { w with tick := (w.tick + wt) % WORD, feed := [] } := by
        rw [← hrec]
        simp only [read_loop, if_pos hc, hq, hwt, hrecv, xTaskGetTickCount]
      rw [hstep]
      have htick2 : ({ w with tick := (w.tick + wt) % WORD, feed := [] } : World).tick =
          (start + (e + wt)) % WORD := by
        show (w.tick + wt) % WORD = _
        rw [htick, WORD_eq]
        omega
      have hm2 : T - (((e + wt) * portTICK_PERIOD_MS hz : Nat) : Int) ≤ (m : Int) := by
        rw [hmul]
        have hB : 1 ≤ wt * portTICK_PERIOD_MS hz := by omega
        generalize e * portTICK_PERIOD_MS hz = A at hm
        generalize wt * portTICK_PERIOD_MS hz = B at hB
        omega
      obtain ⟨w1, hr, ha, hb, hc1, hd, he⟩ :=
        ih (e + wt) { w with tick := (w.tick + wt) % WORD, feed := [] } hq rfl htick2 hm2 f (by omega)
      exact ⟨w1, hr, ha, hb, hc1, hd, he⟩
    · exact ⟨w, read_loop_exit _ _ _ _ _ _ _ _ _ hc, hq, hfeed, rfl, rfl, rfl⟩

/-- Sending a command changes neither the globals nor the clock nor what the
link provider is going to deliver. -/
theorem send_cmd_frame (w w1 : World) (cmd : List Nat) (b : Bool) (h : send_cmd w cmd = (b, w1)) :
    w1.s_connected = w.s_connected ∧ w1.s_spp_handle = w.s_spp_handle ∧
      w1.s_rx_queue = w.s_rx_queue ∧ w1.tick = w.tick ∧ w1.feed = w.feed := by
  unfold send_cmd pvPortMalloc esp_spp_write at h
  cases hh : w.heap with
  | nil =>
    cases hr : w.spp_write_ret with
    | nil =>
      simp only [hh, hr, Prod.mk.injEq] at h
      obtain ⟨_, rfl⟩ := h
      simp
    | cons r rest =>
      simp only [hh, hr, Prod.mk.injEq] at h
      obtain ⟨_, rfl⟩ := h
      simp
  | cons a rest =>
    cases a with
    | false =>
      simp only [hh, Prod.mk.injEq] at h
      obtain ⟨_, rfl⟩ := h
      simp
    | true =>
      cases hr : w.spp_write_ret with
      | nil =>
        simp only [hh, hr, Prod.mk.injEq] at h
        obtain ⟨_, rfl⟩ := h
        simp
      | cons r rest2 =>
        simp only [hh, hr, Prod.mk.injEq] at h
        obtain ⟨_, rfl⟩ := h
        simp

theorem copied_length_le : ∀ (pkt : List Nat) (room : Nat), (copied room pkt).length ≤ room := by
  intro pkt
  induction pkt with
  | nil => intro room; simp [copied]
  | cons c rest ih =>
    intro room
    unfold copied
    split
    · rename_i h
      split
      · simp only [List.length_singleton]; omega
      · have := ih (room - 1)
        simp only [List.length_cons]
        omega
    · simp

theorem copied_ne_zero : ∀ (pkt : List Nat) (room : Nat), ∀ b ∈ copied room pkt, b ≠ 0 := by
  intro pkt
  induction pkt with
  | nil => intro room b hb; simp [copied] at hb
  | cons c rest ih =>
    intro room b hb
    unfold copied at hb
    split at hb
    · rename_i h
      split at hb
      · simp only [List.mem_singleton] at hb
        rw [hb]; exact h.1
      · rcases List.mem_cons.1 hb with e | e
        · rw [e]; exact h.1
        · exact ih _ b e
    · simp at hb

/-- The inner loop keeps the bytes read free of NUL and touches no cell from
index `out_sz - 1` on. -/
theorem copy_pkt_inv (out_sz : Nat) (pkt : List Nat) (out : Buf) (total : Nat)
    (htot : total ≤ out_sz - 1) (hnz : ∀ i, i < total → out i ≠ 0) :
    total ≤ (copy_pkt out_sz pkt out total).2 ∧ (copy_pkt out_sz pkt out total).2 ≤ out_sz - 1 ∧
      (∀ i, i < (copy_pkt out_sz pkt out total).2 → (copy_pkt out_sz pkt out total).1 i ≠ 0) ∧
      (∀ i, out_sz - 1 ≤ i → (copy_pkt out_sz pkt out total).1 i = out i) := by
  rw [copy_pkt_eq]
  have hl := copied_length_le pkt (out_sz - 1 - total)
  have hz := copied_ne_zero pkt (out_sz - 1 - total)
  generalize copied (out_sz - 1 - total) pkt = t at hl hz
  refine ⟨by simp, by simp only; omega, ?_, ?_⟩
  · intro i hi
    simp only at hi ⊢
    rw [store_apply]
    split
    · rename_i h
      rw [List.getD_eq_getElem t 0 (by omega)]
      exact hz _ (List.getElem_mem _)
    · rename_i h
      exact hnz i (by omega)
  · intro i hi
    simp only
    rw [store_apply, if_neg (by omega)]

/-- The outer loop keeps the bytes read free of NUL, never reads more than
`out_sz - 1` bytes and touches no cell from index `out_sz - 1` on. -/
theorem read_loop_inv (hz : Nat) (T : Int) (start out_sz : Nat) :
    ∀ (fuel : Nat) (rem : Int) (total : Nat) (out : Buf) (w : World) (r : Nat × Buf × World),
      read_loop hz T start out_sz fuel rem total out w = some r →
      total ≤ out_sz - 1 → (∀ i, i < total → out i ≠ 0) →
      r.1 ≤ out_sz - 1 ∧ (∀ i, i < r.1 → r.2.1 i ≠ 0) ∧ (∀ i, out_sz - 1 ≤ i → r.2.1 i = out i) := by
  intro fuel
  induction fuel with
  | zero => intro rem total out w r h; simp [read_loop] at h
  | succ f ih =>
    intro rem total out w r h htot hnz
    unfold read_loop at h
    split at h
    · split at h
      · simp only [Option.some.injEq] at h
        subst h
        exact ⟨htot, hnz, fun _ _ => rfl⟩
      · rename_i q hq
        split at h
        · exact ih _ _ _ _ r h htot hnz
        · rename_i pkt w1 hrecv
          obtain ⟨c1, c2, c3, c4⟩ := copy_pkt_inv out_sz pkt out total htot hnz
          split at h
          rename_i out1 total1 hcp
          rw [hcp] at c1 c2 c3 c4
          simp only at c1 c2 c3 c4
          split at h
          · simp only [Option.some.injEq] at h
            subst h
            exact ⟨c2, c3, c4⟩
          · obtain ⟨d1, d2, d3⟩ := ih _ _ _ _ r h c2 c3
            exact ⟨d1, d2, fun i hi => by rw [d3 i hi, c4 i hi]⟩
        · exact ih _ _ _ _ r h htot hnz
    · simp only [Option.some.injEq] at h
      subst h
      exact ⟨htot, hnz, fun _ _ => rfl⟩

theorem to_int_nonneg (n : Nat) (hn : n < WORD) (h : 0 ≤ to_int n) : to_int n = (n : Int) := by
  rw [WORD_eq] at hn
  have h1 : n % 4294967296 = n := Nat.mod_eq_of_lt hn
  simp only [to_int, WORD_eq, h1] at h ⊢
  split
  · rfl
  · rename_i hh
    rw [if_neg hh] at h
    omega

/-- The reading part leaves a terminated buffer: the value returned, when it is
not negative, is the index of the first NUL, at most `out_sz - 1`, and no cell
from index `out_sz` on is touched. -/
theorem read_response_inv (hz fuel : Nat) (w : World) (out : Buf) (out_sz : Nat) (T : Int)
    (r : Reply) (hsz : 1 ≤ out_sz) (hsz2 : out_sz ≤ WORD)
    (h : read_response hz fuel w out out_sz T = some r) (hret : 0 ≤ r.ret) :
    ∃ (out1 : Buf) (n : Nat), r.out = some out1 ∧ r.ret = (n : Int) ∧ n ≤ out_sz - 1 ∧ out1 n = 0 ∧
      (∀ i, i < n → out1 i ≠ 0) ∧ (∀ i, out_sz ≤ i → out1 i = out i) := by
  unfold read_response at h
  split at h
  · simp at h
  · rename_i total out1 w1 hloop
    obtain ⟨i1, i2, i3⟩ := read_loop_inv hz T _ out_sz fuel T 0 out w (total, out1, w1) hloop
      (by omega) (by intro i hi; omega)
    simp only at i1 i2 i3
    split at h
    · rename_i h0
      simp only [Option.some.injEq] at h
      subst h
      refine ⟨out1.write 0 0, 0, rfl, rfl, by omega, by simp [Buf.write], by intro i hi; omega, ?_⟩
      intro i hi
      have : i ≠ 0 := by omega
      simp only [Buf.write, if_neg this]
      exact i3 i (by omega)
    · rename_i h0
      split at h
      · simp only [Option.some.injEq] at h
        subst h
        simp only at hret
        have hn := to_int_nonneg (total - 1) (by omega) hret
        refine ⟨out1.write (total - 1) 0, total - 1, rfl, hn, by omega, by simp [Buf.write], ?_, ?_⟩
        · intro i hi
          have : i ≠ total - 1 := by omega
          simp only [Buf.write, if_neg this]
          exact i2 i (by omega)
        · intro i hi
          have : i ≠ total - 1 := by omega
          simp only [Buf.write, if_neg this]
          exact i3 i (by omega)
      · simp only [Option.some.injEq] at h
        subst h
        simp only at hret
        have hn := to_int_nonneg total (by omega) hret
        refine ⟨out1.write total 0, total, rfl, hn, i1, by simp [Buf.write], ?_, ?_⟩
        · intro i hi
          have : i ≠ total := by omega
          simp only [Buf.write, if_neg this]
          exact i2 i hi
        · intro i hi
          have : i ≠ total := by omega
          simp only [Buf.write, if_neg this]
          exact i3 i (by omega)

theorem pvPortMalloc_frame (w w0 : World) (b : Bool) (h : pvPortMalloc w = (b, w0)) :
    w0.s_connected = w.s_connected ∧ w0.s_spp_handle = w.s_spp_handle ∧
      w0.s_rx_queue = w.s_rx_queue ∧ w0.tick = w.tick ∧ w0.feed = w.feed ∧
      w0.spp_write_ret = w.spp_write_ret ∧ w0.link_ops = w.link_ops := by
  unfold pvPortMalloc at h
  split at h
  · simp only [Prod.mk.injEq] at h
    obtain ⟨_, rfl⟩ := h
    simp
  · simp only [Prod.mk.injEq] at h
    obtain ⟨_, rfl⟩ := h
    simp

/-- A data event changes neither the link state nor the log of link operations
nor the answers of the coming writes. -/
theorem esp_spp_cb_data_frame (w : World) (data : List Nat) :
    (esp_spp_cb w (SppEvent.ESP_SPP_DATA_IND_EVT data)).link_ops = w.link_ops ∧
      (esp_spp_cb w (SppEvent.ESP_SPP_DATA_IND_EVT data)).s_connected = w.s_connected ∧
      (esp_spp_cb w (SppEvent.ESP_SPP_DATA_IND_EVT data)).s_spp_handle = w.s_spp_handle ∧
      (esp_spp_cb w (SppEvent.ESP_SPP_DATA_IND_EVT data)).spp_write_ret = w.spp_write_ret := by
  simp only [esp_spp_cb]
  cases hm : pvPortMalloc w with
  | mk b w0 =>
    obtain ⟨f1, f2, _, _, _, f6, f7⟩ := pvPortMalloc_frame w w0 b hm
    cases b with
    | false => simp [f1, f2, f6, f7]
    | true =>
      simp only
      cases hq : w0.s_rx_queue with
      | none => simp [f1, f2, f6, f7]
      | some q =>
        simp only [xQueueSend]
        split <;> simp_all

/-- Blocking on the queue changes neither the link state nor the log of link
operations. -/
theorem wait_for_chunk_frame : ∀ (feed : List (Nat × List Nat)) (wait : Nat) (w : World),
    (wait_for_chunk feed wait w).2.link_ops = w.link_ops ∧
      (wait_for_chunk feed wait w).2.s_connected = w.s_connected ∧
      (wait_for_chunk feed wait w).2.s_spp_handle = w.s_spp_handle ∧
      (wait_for_chunk feed wait w).2.spp_write_ret = w.spp_write_ret := by
  intro feed
  induction feed with
  | nil => intro wait w; simp [wait_for_chunk]
  | cons x rest ih =>
    intro wait w
    obtain ⟨gap, data⟩ := x
    simp only [wait_for_chunk]
    split
    · obtain ⟨e1, e2, e3, e4⟩ := esp_spp_cb_data_frame
        { w with tick := (w.tick + gap) % WORD, feed := rest } data
      simp only at e1 e2 e3 e4
      split
      · split
        · simp only
          exact ⟨e1, e2, e3, e4⟩
        · obtain ⟨i1, i2, i3, i4⟩ := ih (wait - gap) (esp_spp_cb
            { w with tick := (w.tick + gap) % WORD, feed := rest } (SppEvent.ESP_SPP_DATA_IND_EVT data))
          exact ⟨i1.trans e1, i2.trans e2, i3.trans e3, i4.trans e4⟩
      · obtain ⟨i1, i2, i3, i4⟩ := ih (wait - gap) (esp_spp_cb
          { w with tick := (w.tick + gap) % WORD, feed := rest } (SppEvent.ESP_SPP_DATA_IND_EVT data))
        exact ⟨i1.trans e1, i2.trans e2, i3.trans e3, i4.trans e4⟩
    · simp

theorem xQueueReceive_frame (w : World) (q : Queue) (wait : Nat) :
    (xQueueReceive w q wait).2.link_ops = w.link_ops ∧
      (xQueueReceive w q wait).2.s_connected = w.s_connected ∧
      (xQueueReceive w q wait).2.s_spp_handle = w.s_spp_handle ∧
      (xQueueReceive w q wait).2.spp_write_ret = w.spp_write_ret := by
  unfold xQueueReceive
  split
  · simp
  · exact wait_for_chunk_frame _ _ _

/-- The reading loop changes neither the link state nor the log of link
operations. -/
theorem read_loop_frame (hz : Nat) (T : Int) (start out_sz : Nat) :
    ∀ (fuel : Nat) (rem : Int) (total : Nat) (out : Buf) (w : World) (r : Nat × Buf × World),
      read_loop hz T start out_sz fuel rem total out w = some r →
      r.2.2.link_ops = w.link_ops ∧ r.2.2.s_connected = w.s_connected ∧
        r.2.2.s_spp_handle = w.s_spp_handle ∧ r.2.2.spp_write_ret = w.spp_write_ret := by
  intro fuel
  induction fuel with
  | zero => intro rem total out w r h; simp [read_loop] at h
  | succ f ih =>
    intro rem total out w r h
    unfold read_loop at h
    split at h
    · split at h
      · simp only [Option.some.injEq] at h
        subst h
        simp
      · rename_i q hq
        have hx := xQueueReceive_frame w q (wait_ticks hz rem)
        split at h
        · rename_i w1 hrecv
          rw [hrecv] at hx
          obtain ⟨i1, i2, i3, i4⟩ := ih _ _ _ _ r h
          exact ⟨i1.trans hx.1, i2.trans hx.2.1, i3.trans hx.2.2.1, i4.trans hx.2.2.2⟩
        · rename_i pkt w1 hrecv
          rw [hrecv] at hx
          split at h
          split at h
          · simp only [Option.some.injEq] at h
            subst h
            exact hx
          · obtain ⟨i1, i2, i3, i4⟩ := ih _ _ _ _ r h
            exact ⟨i1.trans hx.1, i2.trans hx.2.1, i3.trans hx.2.2.1, i4.trans hx.2.2.2⟩
        · rename_i w1 hrecv
          rw [hrecv] at hx
          obtain ⟨i1, i2, i3, i4⟩ := ih _ _ _ _ r h
          exact ⟨i1.trans hx.1, i2.trans hx.2.1, i3.trans hx.2.2.1, i4.trans hx.2.2.2⟩
    · simp only [Option.some.injEq] at h
      subst h
      simp

theorem read_response_frame (hz fuel : Nat) (w : World) (out : Buf) (out_sz : Nat) (T : Int)
    (r : Reply) (h : read_response hz fuel w out out_sz T = some r) :
    r.world.link_ops = w.link_ops ∧ r.world.s_connected = w.s_connected ∧
      r.world.s_spp_handle = w.s_spp_handle ∧ r.world.spp_write_ret = w.spp_write_ret := by
  unfold read_response at h
  split at h
  · simp at h
  · rename_i total out1 w1 hloop
    have hf := read_loop_frame hz T _ out_sz fuel T 0 out w (total, out1, w1) hloop
    split at h
    · simp only [Option.some.injEq] at h
      subst h
      exact hf
    · split at h <;>
      · simp only [Option.some.injEq] at h
        subst h
        exact hf

/-- The bytes written for a command: the command and a CR. -/
theorem sendbuf_take (cmd : List Nat) : (cmd ++ [CR, 0]).take (cmd.length + 1) = cmd ++ [CR] := by
  rw [List.take_append_eq_append_take, List.take_of_length_le (by omega)]
  simp

/-- With its buffer allocated, the sending part makes one write: the command
and a CR, `strlen(cmd) + 1` bytes, on the current handle. -/
theorem send_cmd_writes (w w0 : World) (cmd : List Nat) (hmalloc : pvPortMalloc w = (true, w0)) :
    ∃ b w1, send_cmd w cmd = (b, w1) ∧
      w1.link_ops = w.link_ops ++ [LinkOp.spp_write w.s_spp_handle (cmd.length + 1) (cmd ++ [CR])] := by
  obtain ⟨_, f2, _, _, _, _, f7⟩ := pvPortMalloc_frame w w0 true hmalloc
  simp only [send_cmd, hmalloc, esp_spp_write, sendbuf_take, f2, f7]
  split <;> exact ⟨_, _, rfl, rfl⟩

theorem token_bytes : cstr "41 0C" = [52, 49, 32, 48, 67] := by decide

theorem format_separated :
    directives (cstr "41 0C %x %x") =
      [Directive.lit 52, Directive.lit 49, Directive.space, Directive.lit 48, Directive.lit 67,
        Directive.space, Directive.hex, Directive.space, Directive.hex] := by decide

theorem format_joined :
    directives (cstr "410C %x %x") =
      [Directive.lit 52, Directive.lit 49, Directive.lit 48, Directive.lit 67,
        Directive.space, Directive.hex, Directive.space, Directive.hex] := by decide

/-- A hexadecimal digit is a character in one of three ranges, with a value
below 16. -/
theorem hex_digit_some (c d : Nat) (h : hex_digit c = some d) :
    ((48 ≤ c ∧ c ≤ 57 ∧ d = c - 48) ∨ (65 ≤ c ∧ c ≤ 70 ∧ d = c - 55) ∨
      (97 ≤ c ∧ c ≤ 102 ∧ d = c - 87)) ∧ d < 16 := by
  unfold hex_digit at h
  split at h
  · simp only [Option.some.injEq] at h
    omega
  · split at h
    · simp only [Option.some.injEq] at h
      omega
    · split at h
      · simp only [Option.some.injEq] at h
        omega
      · simp at h

theorem isspace_of_hex_digit (c d : Nat) (h : hex_digit c = some d) : isspace c = false := by
  have := (hex_digit_some c d h).1
  simp only [isspace, Bool.or_eq_false_iff, decide_eq_false_iff_not, Bool.and_eq_false_iff]
  omega

theorem skip_space_of_hex_digit (c d : Nat) (rest : List Nat) (h : hex_digit c = some d) :
    skip_space (c :: rest) = c :: rest := by
  simp only [skip_space, isspace_of_hex_digit c d h, Bool.false_eq_true, if_false]

theorem strstr_cons (c : Nat) (rest needle : List Nat) :
    strstr (c :: rest) needle =
      if needle.isPrefixOf (c :: rest) then some (c :: rest) else strstr rest needle := rfl

/-- The strings `strstr` steps over before it finds its needle. -/
theorem strstr_append (needle tail : List Nat) (hne : needle ≠ []) : ∀ pre : List Nat,
    (∀ s t : List Nat, pre = t ++ s → s ≠ [] → needle.isPrefixOf (s ++ (needle ++ tail)) = false) →
    strstr (pre ++ (needle ++ tail)) needle = some (needle ++ tail) := by
  intro pre
  induction pre with
  | nil =>
    intro _
    obtain ⟨a, l, rfl⟩ := List.exists_cons_of_ne_nil hne
    have h1 : (a :: l).isPrefixOf (a :: (l ++ tail)) = true := by
      rw [List.isPrefixOf_iff_prefix]
      exact List.prefix_append (a :: l) tail
    show strstr (a :: (l ++ tail)) (a :: l) = some (a :: (l ++ tail))
    rw [strstr_cons, if_pos h1]
  | cons c rest ih =>
    intro h
    have h1 : needle.isPrefixOf (c :: (rest ++ (needle ++ tail))) = false :=
      h (c :: rest) [] rfl (by simp)
    show strstr (c :: (rest ++ (needle ++ tail))) needle = some (needle ++ tail)
    rw [strstr_cons, h1]
    simp only [Bool.false_eq_true, if_false]
    apply ih
    intro s t hst hs
    exact h s (c :: t) (by rw [hst]; rfl) hs

/-- The token `41 0C` does not overlap itself: it starts no earlier than where
it is put, after a string shorter than itself. -/
theorem token_no_overlap (s tail : List Nat) (hs : s ≠ []) (hlen : s.length < 5) :
    ([52, 49, 32, 48, 67] : List Nat).isPrefixOf (s ++ ([52, 49, 32, 48, 67] ++ tail)) = false := by
  match s, hs, hlen with
  | [a], _, _ =>
    by_cases h1 : a = 52 <;> simp [List.isPrefixOf, h1]
  | [a, b], _, _ =>
    by_cases h1 : a = 52 <;> by_cases h2 : b = 49 <;> simp [List.isPrefixOf, h1, h2]
  | [a, b, c], _, _ =>
    by_cases h1 : a = 52 <;> by_cases h2 : b = 49 <;> by_cases h3 : c = 32 <;>
      simp [List.isPrefixOf, h1, h2, h3]
  | [a, b, c, d], _, _ =>
    by_cases h1 : a = 52 <;> by_cases h2 : b = 49 <;> by_cases h3 : c = 32 <;>
      by_cases h4 : d = 48 <;> simp [List.isPrefixOf, h1, h2, h3, h4]
  | _ :: _ :: _ :: _ :: _ :: _, _, h => simp at h; omega

/-- The search `strstr(payload, "41 0C")` finds the token where it stands when
the text before it does not hold it. -/
theorem strstr_token (pre tail : List Nat) (hpre : ¬ cstr "41 0C" <:+: pre) :
    strstr (pre ++ (cstr "41 0C" ++ tail)) (cstr "41 0C") = some (cstr "41 0C" ++ tail) := by
  rw [token_bytes] at hpre ⊢
  apply strstr_append _ _ (by simp)
  intro s t hst hs
  by_cases hlen : s.length < 5
  · exact token_no_overlap s tail hs hlen
  · by_contra hcon
    have hp : ([52, 49, 32, 48, 67] : List Nat) <+: s ++ ([52, 49, 32, 48, 67] ++ tail) := by
      rw [← List.isPrefixOf_iff_prefix]
      simpa using hcon
    have hp2 : ([52, 49, 32, 48, 67] : List Nat) <+: s :=
      List.prefix_of_prefix_length_le hp (List.prefix_append s _) (by simp; omega)
    apply hpre
    rw [hst]
    exact List.IsInfix.trans hp2.isInfix (List.suffix_append t s).isInfix

theorem scan_sign_of_hex_digit (c d : Nat) (rest : List Nat) (h : hex_digit c = some d) :
    scan_sign (c :: rest) = (false, c :: rest) := by
  have hc := (hex_digit_some c d h).1
  unfold scan_sign
  split
  · rename_i t heq
    simp only [List.cons.injEq] at heq
    omega
  · rename_i t heq
    simp only [List.cons.injEq] at heq
    omega
  · rfl

theorem scan_hex_mark_of_hex_digit (c1 c2 d : Nat) (rest : List Nat) (h : hex_digit c2 = some d) :
    scan_hex_mark (c1 :: c2 :: rest) = c1 :: c2 :: rest := by
  have hc := (hex_digit_some c2 d h).1
  unfold scan_hex_mark
  split
  · rename_i t heq
    simp only [List.cons.injEq] at heq
    omega
  · rename_i t heq
    simp only [List.cons.injEq] at heq
    omega
  · rfl

theorem hex_run_ends (rest : List Nat) (h : ends_number rest) : hex_run rest = ([], rest) := by
  rcases h with h | ⟨c, r, h, hc⟩
  · subst h; rfl
  · subst h
    simp only [hex_run, hc]

theorem hex_run_two (x1 x2 h1 h2 : Nat) (rest : List Nat) (hx1 : hex_digit x1 = some h1)
    (hx2 : hex_digit x2 = some h2) (hrest : ends_number rest) :
    hex_run (x1 :: x2 :: rest) = ([h1, h2], rest) := by
  simp only [hex_run, hx1, hx2, hex_run_ends rest hrest]

/-- The conversion `%x` on a number of two hexadecimal digits. -/
theorem scan_x_two (x1 x2 h1 h2 : Nat) (rest : List Nat) (hx1 : hex_digit x1 = some h1)
    (hx2 : hex_digit x2 = some h2) (hrest : ends_number rest) :
    scan_x (x1 :: x2 :: rest) = some (((16 * h1 + h2 : Nat) : Int), rest) := by
  have b1 := (hex_digit_some x1 h1 hx1).2
  have b2 := (hex_digit_some x2 h2 hx2).2
  have hv : hex_value [h1, h2] = 16 * h1 + h2 := by
    have e : List.foldl (fun acc d => acc * 16 + d) 0 [h1, h2] = 16 * h1 + h2 := by
      simp only [List.foldl]
      omega
    have hlt : 16 * h1 + h2 < WORD := by rw [WORD_eq]; omega
    simp only [hex_value, e, if_pos hlt]
  simp only [scan_x, skip_space_of_hex_digit x1 h1 _ hx1, scan_sign_of_hex_digit x1 h1 _ hx1,
    scan_hex_mark_of_hex_digit x1 x2 h2 _ hx2, hex_run_two x1 x2 h1 h2 rest hx1 hx2 hrest, hv]
  simp only [Bool.false_eq_true, if_false]
  rw [to_int_of_lt _ (by omega)]

theorem hex_byte_some (x1 x2 a : Nat) (h : hex_byte x1 x2 = some a) :
    ∃ h1 h2, hex_digit x1 = some h1 ∧ hex_digit x2 = some h2 ∧ a = 16 * h1 + h2 ∧ a < 256 := by
  unfold hex_byte at h
  split at h
  · rename_i h1 h2 e1 e2
    simp only [Option.some.injEq] at h
    have b1 := (hex_digit_some x1 h1 e1).2
    have b2 := (hex_digit_some x2 h2 e2).2
    exact ⟨h1, h2, e1, e2, h.symm, by omega⟩
  · simp at h

theorem ends_number_space (rest : List Nat) : ends_number (32 :: rest) :=
  Or.inr ⟨32, rest, rfl, by decide⟩

/-- The first `sscanf` of the decoder on a reply with separated bytes. -/
theorem sscanf_separated (x1 x2 y1 y2 a b : Nat) (suf : List Nat)
    (ha : hex_byte x1 x2 = some a) (hb : hex_byte y1 y2 = some b) (hsuf : ends_number suf) :
    sscanf (cstr "41 0C" ++ ([32, x1, x2, 32, y1, y2] ++ suf)) (cstr "41 0C %x %x") =
      (2, [(a : Int), (b : Int)]) := by
  obtain ⟨h1, h2, e1, e2, rfl, _⟩ := hex_byte_some x1 x2 a ha
  obtain ⟨k1, k2, f1, f2, rfl, _⟩ := hex_byte_some y1 y2 b hb
  have s1 := scan_x_two x1 x2 h1 h2 (32 :: y1 :: y2 :: suf) e1 e2 (ends_number_space _)
  have s2 := scan_x_two y1 y2 k1 k2 suf f1 f2 hsuf
  have k0 : skip_space (32 :: 48 :: 67 :: 32 :: x1 :: x2 :: 32 :: y1 :: y2 :: suf) =
      48 :: 67 :: 32 :: x1 :: x2 :: 32 :: y1 :: y2 :: suf := by
    simp [skip_space, isspace]
  have k1' : skip_space (32 :: x1 :: x2 :: 32 :: y1 :: y2 :: suf) =
      x1 :: x2 :: 32 :: y1 :: y2 :: suf := by
    have : isspace 32 = true := by decide
    rw [skip_space, if_pos this, skip_space_of_hex_digit x1 h1 _ e1]
  have k2' : skip_space (32 :: y1 :: y2 :: suf) = y1 :: y2 :: suf := by
    have : isspace 32 = true := by decide
    rw [skip_space, if_pos this, skip_space_of_hex_digit y1 k1 _ f1]
  rw [sscanf, format_separated, token_bytes]
  simp only [List.cons_append, List.nil_append, sscanf_run, if_true, k0, k1', k2',
    skip_space_of_hex_digit x1 h1 _ e1, skip_space_of_hex_digit y1 k1 _ f1, s1, s2,
    List.length_cons, List.length_nil]
  rfl

/-- The RPM formula on two bytes is the formula on natural numbers. -/
theorem rpm_formula_bytes (a b : Nat) (ha : a < 256) (hb : b < 256) :
    rpm_formula (a : Int) (b : Int) = (((a <<< 8 ||| b) / 4 : Nat) : Int) ∧
      (a <<< 8 ||| b) / 4 ≤ 16383 := by
  have hw : wrap_int ((a : Int) * 256) = ((a * 256 : Nat) : Int) := by
    have h0 : to_word ((a : Int) * 256) = a * 256 := by
      simp only [to_word, WORD_eq]
      omega
    rw [wrap_int, h0, to_int_of_lt _ (by omega)]
  have hs : a <<< 8 = a * 256 := by
    rw [Nat.shiftLeft_eq]
  have hlt : a <<< 8 ||| b < 2 ^ 16 := Nat.or_lt_two_pow (by rw [hs]; omega) (by omega)
  refine ⟨?_, by omega⟩
  rw [rpm_formula, hw, hs]
  rfl

/-- The decoder once `strstr` found the token `41 0C` and the first `sscanf`
made its two conversions. -/
theorem parse_pid_rpm_found (payload p : List Nat) (a b : Int)
    (hfind : strstr payload (cstr "41 0C") = some p)
    (hscan : sscanf p (cstr "41 0C %x %x") = (2, [a, b])) :
    parse_pid_rpm (some payload) = rpm_formula a b := by
  simp only [parse_pid_rpm, hfind, hscan]

theorem recompute_remaining_same_tick (hz : Nat) (T : Int) (start : Nat) (h0 : 0 ≤ T)
    (h1 : T < 2 ^ 31) : recompute_remaining hz T start start = T := by
  have e : (start + WORD - start) % WORD = 0 := by
    rw [Nat.add_sub_cancel_left, Nat.mod_self]
  unfold recompute_remaining
  rw [e, Nat.zero_mul, Nat.zero_mod]
  have := wrap_int_sub_to_int T 0 (by rw [WORD_eq]; omega) (by simp; omega) (by simp; omega)
  simpa using this

/-- Chunks that wait in the queue when the reader starts are dequeued within
any timeout, one after the other and without any wait. -/
theorem dequeue_all_queued (hz : Nat) (T : Int) (h0 : 0 < T) (h1 : T < 2 ^ 31) :
    ∀ (cs : List (List Nat)) (w : World) (cap : Nat) (more : List (Option (List Nat))),
      w.s_rx_queue = some ⟨cap, cs.map (fun c => some (c ++ [0])) ++ more⟩ →
      dequeue_all hz T w.tick cs T w = some (T, { w with s_rx_queue := some ⟨cap, more⟩ }) := by
  intro cs
  induction cs with
  | nil =>
    intro w cap more hq
    simp only [List.map_nil, List.nil_append] at hq
    simp only [dequeue_all, ← hq]
  | cons c cs ih =>
    intro w cap more hq
    have hstep := ih { w with s_rx_queue := some ⟨cap, cs.map (fun c => some (c ++ [0])) ++ more⟩ }
      cap more rfl
    simp only [dequeue_all, if_pos h0, hq, xQueueReceive, List.map_cons, List.cons_append,
      if_true, xTaskGetTickCount, recompute_remaining_same_tick hz T w.tick (le_of_lt h0) h1]
    exact hstep

/-- A data event leaves the clock and the chunks to come as they are; on an
idle queue it queues its packet or nothing. -/
theorem esp_spp_cb_data_queue (w : World) (data : List Nat) (hidle : queue_idle w) :
    (esp_spp_cb w (SppEvent.ESP_SPP_DATA_IND_EVT data)).tick = w.tick ∧
      (esp_spp_cb w (SppEvent.ESP_SPP_DATA_IND_EVT data)).feed = w.feed ∧
      (queue_idle (esp_spp_cb w (SppEvent.ESP_SPP_DATA_IND_EVT data)) ∨
        ∃ q, (esp_spp_cb w (SppEvent.ESP_SPP_DATA_IND_EVT data)).s_rx_queue = some q ∧
          q.items = [some (data ++ [0])]) := by
  simp only [esp_spp_cb]
  cases hm : pvPortMalloc w with
  | mk b w0 =>
    obtain ⟨_, _, f3, f4, f5, _, _⟩ := pvPortMalloc_frame w w0 b hm
    have hidle0 : queue_idle w0 := by
      unfold queue_idle at hidle ⊢
      rw [f3]
      exact hidle
    cases b with
    | false => exact ⟨f4, f5, Or.inl hidle0⟩
    | true =>
      simp only
      cases hq : w0.s_rx_queue with
      | none => exact ⟨f4, f5, Or.inl hidle0⟩
      | some q =>
        have hitems : q.items = [] := by
          rcases hidle0 with h | ⟨q', h, hi⟩
          · rw [hq] at h; simp at h
          · rw [hq] at h
            simp only [Option.some.injEq] at h
            rw [h]; exact hi
        simp only [xQueueSend, hitems, List.length_nil, List.nil_append]
        split
        · rename_i q1 heq
          split at heq
          · simp only [Prod.mk.injEq, true_and] at heq
            subst heq
            exact ⟨f4, f5, Or.inr ⟨_, rfl, rfl⟩⟩
          · simp at heq
        · exact ⟨f4, f5, Or.inl hidle0⟩

/-- Blocking on an idle queue: the clock advances by at most the wait, and by
the whole wait when no packet is got; a packet got uses up a chunk to come;
the queue is idle again afterwards. -/
theorem wait_for_chunk_progress : ∀ (feed : List (Nat × List Nat)) (wait : Nat) (w : World),
    queue_idle w →
    ∃ g, g ≤ wait ∧ (wait_for_chunk feed wait w).2.tick = (w.tick + g) % WORD ∧
      ((wait_for_chunk feed wait w).1 = none → g = wait) ∧
      queue_idle (wait_for_chunk feed wait w).2 ∧
      (wait_for_chunk feed wait w).2.feed.length ≤ feed.length ∧
      ((wait_for_chunk feed wait w).1 ≠ none →
        (wait_for_chunk feed wait w).2.feed.length < feed.length) := by
  intro feed
  induction feed with
  | nil =>
    intro wait w hidle
    exact ⟨wait, le_refl _, rfl, fun _ => rfl, hidle, le_refl _, fun h => absurd rfl h⟩
  | cons x rest ih =>
    intro wait w hidle
    obtain ⟨gap, data⟩ := x
    by_cases hgap : gap < wait
    · have hidle' : queue_idle { w with tick := (w.tick + gap) % WORD, feed := rest } := hidle
      obtain ⟨e1, e2, e3⟩ := esp_spp_cb_data_queue
        { w with tick := (w.tick + gap) % WORD, feed := rest } data hidle'
      simp only at e1 e2
      have hrec : ∀ w1 : World, w1.tick = (w.tick + gap) % WORD → queue_idle w1 →
          ∃ g, g ≤ wait ∧ (wait_for_chunk rest (wait - gap) w1).2.tick = (w.tick + g) % WORD ∧
            ((wait_for_chunk rest (wait - gap) w1).1 = none → g = wait) ∧
            queue_idle (wait_for_chunk rest (wait - gap) w1).2 ∧
            (wait_for_chunk rest (wait - gap) w1).2.feed.length ≤ (((gap, data) :: rest).length) ∧
            ((wait_for_chunk rest (wait - gap) w1).1 ≠ none →
              (wait_for_chunk rest (wait - gap) w1).2.feed.length < ((gap, data) :: rest).length) := by
        intro w1 ht hi
        obtain ⟨g, hg, i1, i2, i3, i4, i5⟩ := ih (wait - gap) w1 hi
        refine ⟨gap + g, by omega, ?_, fun h => by have := i2 h; omega, i3, ?_, ?_⟩
        · rw [i1, ht, Nat.mod_add_mod, Nat.add_assoc]
        · simp only [List.length_cons]; omega
        · intro h
          have := i5 h
          simp only [List.length_cons]; omega
      simp only [wait_for_chunk, if_pos hgap]
      split
      · rename_i q hq
        split
        · rename_i pkt more hitems
          have hmore : more = [] := by
            rcases e3 with h | ⟨q', h, hi⟩
            · rcases h with h | ⟨q', h, hi⟩
              · rw [hq] at h; simp at h
              · rw [hq] at h
                simp only [Option.some.injEq] at h
                subst h
                rw [hitems] at hi; simp at hi
            · rw [hq] at h
              simp only [Option.some.injEq] at h
              subst h
              rw [hitems] at hi
              simp only [List.cons.injEq] at hi
              exact hi.2
          refine ⟨gap, by omega, e1, fun h => by simp at h, Or.inr ⟨_, rfl, hmore⟩, ?_, ?_⟩
          · simp only [e2, List.length_cons]; omega
          · intro _
            simp only [e2, List.length_cons]; omega
        · rename_i hitems
          exact hrec _ e1 (Or.inr ⟨q, hq, hitems⟩)
      · rename_i hq
        exact hrec _ e1 (Or.inl hq)
    · simp only [wait_for_chunk, if_neg hgap]
      exact ⟨wait, le_refl _, rfl, fun _ => rfl, hidle, le_refl _, fun h => absurd rfl h⟩

theorem pending_of_idle (w : World) (h : queue_idle w) : pending w = w.feed.length := by
  unfold pending
  rcases h with h | ⟨q, h, hi⟩
  · simp [h]
  · simp [h, hi]

/-- A packet got by blocking on an idle queue was queued by the callback and is
not NULL. -/
theorem wait_for_chunk_not_null : ∀ (feed : List (Nat × List Nat)) (wait : Nat) (w : World),
    queue_idle w → (wait_for_chunk feed wait w).1 ≠ some none := by
  intro feed
  induction feed with
  | nil => intro wait w _; simp [wait_for_chunk]
  | cons x rest ih =>
    intro wait w hidle
    obtain ⟨gap, data⟩ := x
    by_cases hgap : gap < wait
    · have hidle' : queue_idle { w with tick := (w.tick + gap) % WORD, feed := rest } := hidle
      obtain ⟨_, _, e3⟩ := esp_spp_cb_data_queue
        { w with tick := (w.tick + gap) % WORD, feed := rest } data hidle'
      simp only [wait_for_chunk, if_pos hgap]
      split
      · rename_i q hq
        split
        · rename_i pkt more hitems
          rcases e3 with h | ⟨q', h, hi⟩
          · rcases h with h | ⟨q', h, hi⟩
            · rw [hq] at h; simp at h
            · rw [hq] at h
              simp only [Option.some.injEq] at h
              subst h
              rw [hitems] at hi; simp at hi
          · rw [hq] at h
            simp only [Option.some.injEq] at h
            subst h
            rw [hitems] at hi
            simp only [List.cons.injEq] at hi
            simp [hi.1]
        · rename_i hitems
          exact ih _ _ (Or.inr ⟨q, hq, hitems⟩)
      · rename_i hq
        exact ih _ _ (Or.inl hq)
    · simp [wait_for_chunk, hgap]

/-- One pop: the clock advances by at most the wait, by the whole wait when the
pop times out and not at all when it returns a NULL item; a pop that returns an
item uses up a pending chunk. -/
theorem xQueueReceive_progress (w : World) (q : Queue) (wait : Nat) (hq : w.s_rx_queue = some q)
    (htick : w.tick < WORD) :
    ∃ g, g ≤ wait ∧ (xQueueReceive w q wait).2.tick = (w.tick + g) % WORD ∧
      ((xQueueReceive w q wait).1 = none → g = wait) ∧
      ((xQueueReceive w q wait).1 = some none → g = 0) ∧
      pending (xQueueReceive w q wait).2 ≤ pending w ∧
      ((xQueueReceive w q wait).1 ≠ none → pending (xQueueReceive w q wait).2 < pending w) := by
  unfold xQueueReceive
  split
  · rename_i pkt more hitems
    refine ⟨0, Nat.zero_le _, ?_, fun h => by simp at h, fun _ => rfl, ?_, fun _ => ?_⟩
    · simp only [Nat.add_zero]
      exact (Nat.mod_eq_of_lt htick).symm
    · simp only [pending, hq, hitems, List.length_cons]; omega
    · simp only [pending, hq, hitems, List.length_cons]; omega
  · rename_i hitems
    have hidle : queue_idle w := Or.inr ⟨q, hq, hitems⟩
    obtain ⟨g, hg, i1, i2, i3, i4, i5⟩ := wait_for_chunk_progress w.feed wait w hidle
    refine ⟨g, hg, i1, i2, fun h => absurd h (wait_for_chunk_not_null _ _ _ hidle), ?_, fun h => ?_⟩
    · rw [pending_of_idle _ i3, pending_of_idle _ hidle]
      exact i4
    · rw [pending_of_idle _ i3, pending_of_idle _ hidle]
      exact i5 h

/-- The time left after a pop is the timeout less the time that passed since
the start, exactly: no 32-bit product or difference overflows on the way. -/
theorem recompute_remaining_exact (hz : Nat) (T : Int) (start e g : Nat)
    (h1 : 1 ≤ hz) (h2 : hz ≤ 1000) (hT2 : T < 2 ^ 31) (hstart : start < WORD)
    (hpos : 0 < T - ((e * portTICK_PERIOD_MS hz : Nat) : Int))
    (hg : g ≤ wait_ticks hz (T - ((e * portTICK_PERIOD_MS hz : Nat) : Int))) :
    recompute_remaining hz T start (((start + e) % WORD + g) % WORD) =
        T - (((e + g) * portTICK_PERIOD_MS hz : Nat) : Int) ∧
      ((start + e) % WORD + g) % WORD = (start + (e + g)) % WORD ∧
      (g * portTICK_PERIOD_MS hz : Nat) ≤ (e + g) * portTICK_PERIOD_MS hz - e * portTICK_PERIOD_MS hz := by
  have hp : 1 ≤ portTICK_PERIOD_MS hz := by
    unfold portTICK_PERIOD_MS
    exact (Nat.one_le_div_iff (by omega)).2 h2
  have hw := wait_ticks_mul_le hz _ h1 h2 hpos (by omega)
  have hgw : g * portTICK_PERIOD_MS hz ≤
      wait_ticks hz (T - ((e * portTICK_PERIOD_MS hz : Nat) : Int)) * portTICK_PERIOD_MS hz :=
    Nat.mul_le_mul_right _ hg
  have hmul : (e + g) * portTICK_PERIOD_MS hz =
      e * portTICK_PERIOD_MS hz + g * portTICK_PERIOD_MS hz := Nat.add_mul _ _ _
  have hgle : g ≤ g * portTICK_PERIOD_MS hz := Nat.le_mul_of_pos_right _ hp
  have hele : e ≤ e * portTICK_PERIOD_MS hz := Nat.le_mul_of_pos_right _ hp
  have hw2 : ((wait_ticks hz (T - ((e * portTICK_PERIOD_MS hz : Nat) : Int)) *
      portTICK_PERIOD_MS hz : Nat) : Int) ≤ max (T - ((e * portTICK_PERIOD_MS hz : Nat) : Int)) 1000 := hw
  generalize wait_ticks hz (T - ((e * portTICK_PERIOD_MS hz : Nat) : Int)) * portTICK_PERIOD_MS hz
    = W at hw2 hgw
  have hbound : ((e + g) * portTICK_PERIOD_MS hz : Nat) < WORD := by
    rw [WORD_eq, hmul]
    generalize e * portTICK_PERIOD_MS hz = A at hw2 hpos
    generalize g * portTICK_PERIOD_MS hz = B at hgw
    omega
  have hsmall : e + g < WORD := by
    have : e + g ≤ (e + g) * portTICK_PERIOD_MS hz := Nat.le_mul_of_pos_right _ hp
    omega
  have hnow : (((start + e) % WORD + g) % WORD + WORD - start) % WORD = e + g := by
    rw [WORD_eq]
    rw [WORD_eq] at hsmall hstart
    omega
  refine ⟨?_, ?_, by omega⟩
  · unfold recompute_remaining
    rw [hnow, Nat.mod_eq_of_lt hbound]
    apply wrap_int_sub_to_int _ _ hbound
    · rw [hmul]
      generalize e * portTICK_PERIOD_MS hz = A at hw2 hpos
      generalize g * portTICK_PERIOD_MS hz = B at hgw
      omega
    · omega
  · rw [WORD_eq]
    omega

/-- The reading loop returns: with a tick rate of 1 to 1000 Hz, every world and
every timeout, the loop is left after at most `(N + 1) * (M + 1)` iterations,
`N` bounding the chunks pending and `M` the milliseconds of the timeout. -/
theorem read_loop_returns (hz : Nat) (T : Int) (start out_sz M : Nat)
    (h1 : 1 ≤ hz) (h2 : hz ≤ 1000) (hT2 : T < 2 ^ 31) (hstart : start < WORD) (hM : T ≤ (M : Int)) :
    ∀ (N m e total : Nat) (out : Buf) (w : World),
      pending w ≤ N → w.tick = (start + e) % WORD →
      T - ((e * portTICK_PERIOD_MS hz : Nat) : Int) ≤ (m : Int) → m ≤ M →
      ∀ fuel, N * (M + 1) + m + 1 ≤ fuel →
        ∃ r, read_loop hz T start out_sz fuel (T - ((e * portTICK_PERIOD_MS hz : Nat) : Int))
          total out w = some r := by
  intro N
  induction N using Nat.strong_induction_on with
  | _ N ihN =>
    intro m
    induction m with
    | zero =>
      intro e total out w _ _ hm _ fuel hfuel
      obtain ⟨f, rfl⟩ : ∃ f, fuel = f + 1 := ⟨fuel - 1, by omega⟩
      exact ⟨_, read_loop_exit _ _ _ _ _ _ _ _ _ (by omega)⟩
    | succ m ihm =>
      intro e total out w hpend htick hm hmM fuel hfuel
      obtain ⟨f, rfl⟩ : ∃ f, fuel = f + 1 := ⟨fuel - 1, by omega⟩
      by_cases hc : 0 < T - ((e * portTICK_PERIOD_MS hz : Nat) : Int) ∧ total < out_sz - 1
      · cases hq : w.s_rx_queue with
        | none => exact ⟨(total, out, w), by simp only [read_loop, if_pos hc, hq]⟩
        | some q =>
          have htl : w.tick < WORD := by
            rw [htick]
            exact Nat.mod_lt _ (by rw [WORD_eq]; omega)
          obtain ⟨g, hg, p1, p2, p3, p4, p5⟩ := xQueueReceive_progress w q
            (wait_ticks hz (T - ((e * portTICK_PERIOD_MS hz : Nat) : Int))) hq htl
          obtain ⟨x1, x2, x3⟩ := recompute_remaining_exact hz T start e g h1 h2 hT2 hstart hc.1 hg
          rw [htick] at p1
          have hmono : T - (((e + g) * portTICK_PERIOD_MS hz : Nat) : Int) ≤ (M : Int) := by
            have : (0 : Int) ≤ (((e + g) * portTICK_PERIOD_MS hz : Nat) : Int) := Int.ofNat_nonneg _
            omega
          cases hr : xQueueReceive w q (wait_ticks hz (T - ((e * portTICK_PERIOD_MS hz : Nat) : Int))) with
          | mk res w1 =>
            rw [hr] at p1 p2 p3 p4 p5
            simp only at p1 p2 p3 p4 p5
            have hN : res ≠ none → ∃ N', N' < N ∧ pending w1 ≤ N' := by
              intro hne
              have := p5 hne
              exact ⟨N - 1, by omega, by omega⟩
            cases res with
            | none =>
              have hgw := p2 rfl
              have hwp := wait_ticks_pos hz (T - ((e * portTICK_PERIOD_MS hz : Nat) : Int))
              have hp : 1 ≤ portTICK_PERIOD_MS hz := by
                unfold portTICK_PERIOD_MS
                exact (Nat.one_le_div_iff (by omega)).2 h2
              have hgp : 1 ≤ g * portTICK_PERIOD_MS hz := by
                have : g ≤ g * portTICK_PERIOD_MS hz := Nat.le_mul_of_pos_right _ hp
                omega
              have hm2 : T - (((e + g) * portTICK_PERIOD_MS hz : Nat) : Int) ≤ (m : Int) := by
                have hmul : (e + g) * portTICK_PERIOD_MS hz =
                    e * portTICK_PERIOD_MS hz + g * portTICK_PERIOD_MS hz := Nat.add_mul _ _ _
                rw [hmul]
                generalize e * portTICK_PERIOD_MS hz = A at hm
                generalize g * portTICK_PERIOD_MS hz = B at hgp
                omega
              obtain ⟨r, hr2⟩ := ihm (e + g) total out w1 (by omega) (by rw [p1, x2]) hm2 (by omega)
                f (by omega)
              refine ⟨r, ?_⟩
              simp only [read_loop, if_pos hc, hq, hr, xTaskGetTickCount, p1, x1]
              exact hr2
            | some pkt =>
              obtain ⟨N', hN1, hN2⟩ := hN (by simp)
              have hfuel2 : N' * (M + 1) + M + 1 ≤ f := by
                have : (N' + 1) * (M + 1) ≤ N * (M + 1) := Nat.mul_le_mul_right _ hN1
                have e3 : (N' + 1) * (M + 1) = N' * (M + 1) + M + 1 := by ring
                omega
              cases pkt with
              | none =>
                have hg0 := p3 rfl
                subst hg0
                obtain ⟨r, hr2⟩ := ihN N' hN1 M e total out w1 hN2
                  (by rw [p1, Nat.add_zero, Nat.mod_mod]) (by omega) (le_refl _) f hfuel2
                refine ⟨r, ?_⟩
                simp only [read_loop, if_pos hc, hq, hr]
                exact hr2
              | some bytes =>
                obtain ⟨r, hr2⟩ := ihN N' hN1 M (e + g) (copy_pkt out_sz bytes out total).2
                  (copy_pkt out_sz bytes out total).1 w1 hN2 (by rw [p1, x2]) hmono (le_refl _)
                  f hfuel2
                by_cases hb : 0 < (copy_pkt out_sz bytes out total).2 ∧
                    (copy_pkt out_sz bytes out total).1 ((copy_pkt out_sz bytes out total).2 - 1) = PROMPT
                · exact ⟨_, by
                    rw [read_loop_chunk hz T start out_sz f _ total out w w1 q bytes hc hq hr,
                      if_pos hb]⟩
                · refine ⟨r, ?_⟩
                  rw [read_loop_chunk hz T start out_sz f _ total out w w1 q bytes hc hq hr,
                    if_neg hb, xTaskGetTickCount, p1, x1]
                  exact hr2
      · exact ⟨_, read_loop_exit _ _ _ _ _ _ _ _ _ hc⟩

/-- The command session returns: with a tick rate of 1 to 1000 Hz and a tick
counter and a timeout within their types, every call returns once the fuel
covers `(pending + 1) * (timeout + 1)` iterations of the reading loop. -/
theorem obd_send_cmd_and_read_returns (hz : Nat) (w : World) (cmd : Option (List Nat))
    (out : Option Buf) (out_sz : Nat) (timeout_ms : Int)
    (h1 : 1 ≤ hz) (h2 : hz ≤ 1000) (hT2 : timeout_ms < 2 ^ 31) (htick : w.tick < WORD) :
    ∀ fuel, (pending w + 1) * (timeout_ms.toNat + 1) ≤ fuel →
      ∃ r, obd_send_cmd_and_read hz fuel w cmd out out_sz timeout_ms = some r := by
  intro fuel hfuel
  cases cmd with
  | none => exact ⟨⟨-1, out, w⟩, by simp only [obd_send_cmd_and_read]⟩
  | some c =>
    cases out with
    | none => exact ⟨⟨-1, none, w⟩, by simp only [obd_send_cmd_and_read]⟩
    | some o =>
      simp only [obd_send_cmd_and_read]
      split
      · exact ⟨_, rfl⟩
      · split
        · exact ⟨_, rfl⟩
        · split
          · exact ⟨_, rfl⟩
          · rename_i w1 hsend
            obtain ⟨_, _, f3, f4, f5⟩ := send_cmd_frame w w1 c true hsend
            have hpend : pending w1 = pending w := by
              simp only [pending, f3, f5]
            have hloop := read_loop_returns hz timeout_ms (xTaskGetTickCount w1) out_sz
              timeout_ms.toNat h1 h2 hT2 (by rw [xTaskGetTickCount, f4]; exact htick) (by omega)
              (pending w) timeout_ms.toNat 0 0 o w1 (by omega)
              (by rw [xTaskGetTickCount, Nat.add_zero, Nat.mod_eq_of_lt]; rw [f4]; exact htick)
              (by simp only [Nat.zero_mul]; omega) (le_refl _) fuel
              (by
                have e3 : (pending w + 1) * (timeout_ms.toNat + 1) =
                    pending w * (timeout_ms.toNat + 1) + timeout_ms.toNat + 1 := by ring
                omega)
            simp only [Nat.zero_mul, Nat.cast_zero, sub_zero] at hloop
            obtain ⟨⟨total, out1, w2⟩, hr⟩ := hloop
            simp only [read_response, hr]
            split
            · exact ⟨_, rfl⟩
            · split <;> exact ⟨_, rfl⟩

theorem before_prompt_ne (s : List Nat) : ∀ b ∈ before_prompt s, b ≠ PROMPT := by
  intro b hb
  have := List.mem_takeWhile_imp hb
  simpa using this

/-- The bytes up to the first prompt are those before it, followed by the
prompt when there is one. -/
theorem upto_prompt_cases (s : List Nat) :
    (upto_prompt s = before_prompt s ∧ PROMPT ∉ s) ∨
      upto_prompt s = before_prompt s ++ [PROMPT] := by
  induction s with
  | nil => left; simp [upto_prompt, before_prompt]
  | cons b rest ih =>
    by_cases hb : b = PROMPT
    · right
      subst hb
      simp [upto_prompt, before_prompt]
    · have htw : before_prompt (b :: rest) = b :: before_prompt rest :=
        List.takeWhile_cons_of_pos (by simpa using hb)
      rcases ih with ⟨h1, h2⟩ | h
      · left
        refine ⟨by simp only [upto_prompt, if_neg hb, h1, htw], ?_⟩
        intro hm
        rcases List.mem_cons.1 hm with e | e
        · exact hb e.symm
        · exact h2 e
      · right
        simp only [upto_prompt, if_neg hb, h, htw, List.cons_append]

/-- The end of the reading part for bytes without a prompt: the buffer is
terminated after them and their number returned. -/
theorem finish_plain (hz fuel : Nat) (w w2 : World) (out : Buf) (out_sz : Nat) (T : Int)
    (t : List Nat) (hint : out_sz ≤ 2 ^ 31) (hlen : t.length ≤ out_sz - 1) (hsz : 1 ≤ out_sz)
    (hnp : ∀ b ∈ t, b ≠ PROMPT)
    (hloop : read_loop hz T (xTaskGetTickCount w) out_sz fuel T 0 out w =
      some (t.length, Buf.store out 0 t, w2)) :
    read_response hz fuel w out out_sz T =
      some ⟨(t.length : Nat), some ((Buf.store out 0 t).write t.length 0), w2⟩ := by
  simp only [read_response, hloop]
  by_cases h0 : t.length = 0
  · simp only [if_pos h0, h0]
    rfl
  · have hbrk : ¬ (0 < t.length ∧ Buf.store out 0 t (t.length - 1) = PROMPT) := by
      intro h
      have hl := store_last out 0 t h.1
      rw [Nat.zero_add] at hl
      rw [hl, List.getD_eq_getElem t 0 (by omega)] at h
      exact hnp _ (List.getElem_mem _) h.2
    rw [if_neg h0, if_neg hbrk, to_int_of_lt _ (by omega)]

/-- The end of the reading part for bytes that end with the prompt: the prompt
is replaced by NUL and the number of bytes before it returned. -/
theorem finish_prompt (hz fuel : Nat) (w w2 : World) (out : Buf) (out_sz : Nat) (T : Int)
    (u : List Nat) (hint : out_sz ≤ 2 ^ 31) (hlen : u.length + 1 ≤ out_sz - 1)
    (hloop : read_loop hz T (xTaskGetTickCount w) out_sz fuel T 0 out w =
      some ((u ++ [PROMPT]).length, Buf.store out 0 (u ++ [PROMPT]), w2)) :
    read_response hz fuel w out out_sz T =
      some ⟨(u.length : Nat), some ((Buf.store out 0 (u ++ [PROMPT])).write u.length 0), w2⟩ := by
  have hlast : Buf.store out 0 (u ++ [PROMPT]) (u.length + 1 - 1) = PROMPT := by
    have := store_last out 0 (u ++ [PROMPT]) (by simp)
    simp only [Nat.zero_add, List.length_append, List.length_singleton] at this
    rw [this]
    simp
  have hbrk : 0 < u.length + 1 ∧ Buf.store out 0 (u ++ [PROMPT]) (u.length + 1 - 1) = PROMPT :=
    ⟨by omega, hlast⟩
  simp only [Nat.add_sub_cancel] at hbrk
  simp only [List.length_append, List.length_singleton] at hloop
  simp only [read_response, hloop, Nat.add_one_ne_zero, if_false, Nat.add_sub_cancel]
  rw [if_pos hbrk, to_int_of_lt _ (by omega)]

/-- The end of the reading part in terms of the reply: when the loop is left
with the bytes up to the first prompt of `s`, cut to the room of the buffer,
the call leaves the bytes before that prompt, cut to the room and followed by
NUL, and returns their number. -/
theorem read_response_of_loop (hz fuel : Nat) (w w2 : World) (out : Buf) (out_sz : Nat) (T : Int)
    (s : List Nat) (hint : out_sz ≤ 2 ^ 31) (hsz : 1 ≤ out_sz)
    (hloop : read_loop hz T (xTaskGetTickCount w) out_sz fuel T 0 out w =
      some (((upto_prompt s).take (out_sz - 1)).length,
        Buf.store out 0 ((upto_prompt s).take (out_sz - 1)), w2)) :
    ∃ out1, read_response hz fuel w out out_sz T =
        some ⟨(((before_prompt s).take (out_sz - 1)).length : Nat), some out1, w2⟩ ∧
      out1.read (((before_prompt s).take (out_sz - 1)).length + 1) =
        (before_prompt s).take (out_sz - 1) ++ [0] := by
  have hplain : ∀ t : List Nat, (upto_prompt s).take (out_sz - 1) = t →
      t = (before_prompt s).take (out_sz - 1) →
      ∃ out1, read_response hz fuel w out out_sz T =
          some ⟨(((before_prompt s).take (out_sz - 1)).length : Nat), some out1, w2⟩ ∧
        out1.read (((before_prompt s).take (out_sz - 1)).length + 1) =
          (before_prompt s).take (out_sz - 1) ++ [0] := by
    intro t e1 e2
    rw [e1] at hloop
    have hnp : ∀ b ∈ t, b ≠ PROMPT := by
      intro b hb
      rw [e2] at hb
      exact before_prompt_ne s b (List.mem_of_mem_take hb)
    have hlen : t.length ≤ out_sz - 1 := by
      rw [e2, List.length_take]; omega
    have hr := finish_plain hz fuel w w2 out out_sz T t hint hlen hsz hnp hloop
    have hrd := read_store_write out t []
    rw [List.append_nil] at hrd
    rw [← e2]
    exact ⟨_, hr, hrd⟩
  rcases upto_prompt_cases s with ⟨h1, _⟩ | h
  · exact hplain _ rfl (by rw [h1])
  · by_cases hroom : out_sz - 1 ≤ (before_prompt s).length
    · exact hplain _ rfl (by rw [h, List.take_append_of_le_length hroom])
    · have e1 : (upto_prompt s).take (out_sz - 1) = before_prompt s ++ [PROMPT] := by
        rw [h, List.take_of_length_le]
        simp only [List.length_append, List.length_singleton]
        omega
      have e2 : (before_prompt s).take (out_sz - 1) = before_prompt s :=
        List.take_of_length_le (by omega)
      rw [e1] at hloop
      rw [e2]
      exact ⟨_, finish_prompt hz fuel w w2 out out_sz T (before_prompt s) hint (by omega) hloop,
        read_store_write out (before_prompt s) [PROMPT]⟩

/-- The reading part on chunks that make the reader stop, by a prompt or a
full buffer: the call leaves the bytes before the first prompt, cut to the
room of the buffer and followed by NUL, returns their number, and has dequeued
the chunks needed and no more. -/
theorem read_response_stops (hz : Nat) (w1 w2 : World) (out : Buf) (out_sz : Nat)
    (T rem : Int) (cs : List (List Nat)) (hsz : 1 ≤ out_sz) (hint : out_sz ≤ 2 ^ 31)
    (hnul : ∀ c ∈ cs, ∀ b ∈ c, b ≠ 0)
    (hstop : PROMPT ∈ cs.flatten ∨ out_sz - 1 ≤ cs.flatten.length)
    (hdq : dequeue_all hz T (xTaskGetTickCount w1) (cs.take (chunks_needed (out_sz - 1) cs)) T w1 =
      some (rem, w2)) :
    ∀ fuel, chunks_needed (out_sz - 1) cs + 1 ≤ fuel →
      ∃ out1, read_response hz fuel w1 out out_sz T =
          some ⟨(((before_prompt cs.flatten).take (out_sz - 1)).length : Nat), some out1, w2⟩ ∧
        out1.read (((before_prompt cs.flatten).take (out_sz - 1)).length + 1) =
          (before_prompt cs.flatten).take (out_sz - 1) ++ [0] := by
  intro fuel hfuel
  have hloop := read_loop_stops hz T (xTaskGetTickCount w1) out_sz cs T 0 out w1 (rem, w2) hnul
    (by simp) (by simpa using hstop) (by simpa using hdq) fuel (by simpa using hfuel)
  simp only [Nat.sub_zero, Nat.zero_add] at hloop
  exact read_response_of_loop hz fuel w1 w2 out out_sz T cs.flatten hint hsz hloop

/-- A string that does not hold the needle: `strstr` returns `NULL`. -/
theorem strstr_none (needle : List Nat) : ∀ hay : List Nat,
    ¬ needle <:+: hay → strstr hay needle = none := by
  intro hay
  induction hay with
  | nil =>
    intro h
    have : needle.isPrefixOf [] = false := by
      rw [Bool.eq_false_iff]
      intro hp
      rw [List.isPrefixOf_iff_prefix] at hp
      exact h hp.isInfix
    simp only [strstr, this, Bool.false_eq_true, if_false]
  | cons c rest ih =>
    intro h
    have h1 : needle.isPrefixOf (c :: rest) = false := by
      rw [Bool.eq_false_iff]
      intro hp
      rw [List.isPrefixOf_iff_prefix] at hp
      exact h hp.isInfix
    have h2 : ¬ needle <:+: rest := fun hi =>
      h (List.IsInfix.trans hi (List.suffix_cons c rest).isInfix)
    rw [strstr_cons, h1]
    simp only [Bool.false_eq_true, if_false]
    exact ih h2

theorem skip_space_idem : ∀ t : List Nat, skip_space (skip_space t) = skip_space t := by
  intro t
  induction t with
  | nil => rfl
  | cons c rest ih =>
    by_cases hc : isspace c = true
    · simp only [skip_space, if_pos hc, ih]
    · simp only [skip_space, if_neg hc]

theorem scan_x_skip_space (t : List Nat) : scan_x (skip_space t) = scan_x t := by
  simp only [scan_x, skip_space_idem]

theorem scan_x_of_skip_nil (t : List Nat) (h : skip_space t = []) : scan_x t = none := by
  simp only [scan_x, h, scan_sign, scan_hex_mark, hex_run, has_hex_mark, Bool.false_eq_true,
    if_false]

/-- The two conversions of the decoder formats, run on the text after the
token: both are made exactly when the text starts with two numbers. -/
theorem sscanf_run_values (t : List Nat) :
    sscanf_run [Directive.space, Directive.hex, Directive.space, Directive.hex] t [] =
      match scan_x t with
      | none => (if skip_space t = [] then EOF else 0, [])
      | some (a, r) =>
        match scan_x r with
        | none => (1, [a])
        | some (b, _) => (2, [a, b]) := by
  simp only [sscanf_run, skip_space_idem]
  cases hs : skip_space t with
  | nil =>
    simp only [scan_x_of_skip_nil t hs]
    rfl
  | cons d rest =>
    have e1 : scan_x (d :: rest) = scan_x t := by rw [← hs, scan_x_skip_space]
    simp only [e1]
    cases h1 : scan_x t with
    | none => simp
    | some v =>
      obtain ⟨a, r⟩ := v
      simp only [List.nil_append, skip_space_idem]
      cases hs2 : skip_space r with
      | nil =>
        simp only [scan_x_of_skip_nil r hs2]
        rfl
      | cons d2 rest2 =>
        have e2 : scan_x (d2 :: rest2) = scan_x r := by rw [← hs2, scan_x_skip_space]
        simp only [e2]
        cases h2 : scan_x r with
        | none => simp
        | some v2 =>
          obtain ⟨b, r2⟩ := v2
          simp [sscanf_run]

/-- Both formats of the decoder, on the separated token followed by `t`: the
first runs its conversions on `t`, the second stops at the space of the
token. -/
theorem sscanf_after_separated (t : List Nat) :
    sscanf (cstr "41 0C" ++ t) (cstr "41 0C %x %x") =
        sscanf_run [Directive.space, Directive.hex, Directive.space, Directive.hex] t [] ∧
      sscanf (cstr "41 0C" ++ t) (cstr "410C %x %x") = (0, []) := by
  constructor
  · rw [sscanf, format_separated, token_bytes]
    simp [sscanf_run, skip_space, isspace]
  · rw [sscanf, format_joined, token_bytes]
    simp [sscanf_run]

/-- Both formats of the decoder, on the joined token followed by `t`: each runs
its conversions on `t`. -/
theorem sscanf_after_joined (t : List Nat) :
    sscanf (cstr "410C" ++ t) (cstr "41 0C %x %x") =
        sscanf_run [Directive.space, Directive.hex, Directive.space, Directive.hex] t [] ∧
      sscanf (cstr "410C" ++ t) (cstr "410C %x %x") =
        sscanf_run [Directive.space, Directive.hex, Directive.space, Directive.hex] t [] := by
  have e : cstr "410C" = [52, 49, 48, 67] := by decide
  constructor
  · rw [sscanf, format_separated, e]
    simp [sscanf_run, skip_space, isspace]
  · rw [sscanf, format_joined, e]
    simp [sscanf_run]

/-- The conversions on a text that does not start with two numbers: fewer than
two are made. -/
theorem sscanf_run_short (t : List Nat) (h : two_hex_values t = false) :
    ∃ n vals, sscanf_run [Directive.space, Directive.hex, Directive.space, Directive.hex] t [] =
      (n, vals) ∧ n ≠ 2 := by
  rw [sscanf_run_values]
  unfold two_hex_values at h
  cases h1 : scan_x t with
  | none =>
    refine ⟨_, _, rfl, ?_⟩
    split
    · decide
    · decide
  | some v =>
    obtain ⟨a, r⟩ := v
    rw [h1] at h
    simp only at h
    cases h2 : scan_x r with
    | none => exact ⟨1, [a], by simp only [h2], by decide⟩
    | some v2 => rw [h2] at h; simp at h

/-- The decoder on a payload whose token, the one `strstr` finds, is not
followed by two numbers. -/
theorem parse_pid_rpm_short (payload t : List Nat)
    (hfound : strstr payload (cstr "41 0C") = some (cstr "41 0C" ++ t) ∨
      (strstr payload (cstr "41 0C") = none ∧
        strstr payload (cstr "410C") = some (cstr "410C" ++ t)))
    (hbad : two_hex_values t = false) : parse_pid_rpm (some payload) = -1 := by
  obtain ⟨n, vals, hrun, hn⟩ := sscanf_run_short t hbad
  rcases hfound with h | ⟨h1, h2⟩
  · simp only [parse_pid_rpm, h, (sscanf_after_separated t).1, (sscanf_after_separated t).2, hrun]
    split
    · rename_i heq
      simp only [Prod.mk.injEq] at heq
      exact absurd heq.1 hn
    · rfl
  · simp only [parse_pid_rpm, h1, h2, (sscanf_after_joined t).1, (sscanf_after_joined t).2, hrun]
    split
    · rename_i heq
      simp only [Prod.mk.injEq] at heq
      exact absurd heq.1 hn
    · split
      · rename_i heq
        simp only [Prod.mk.injEq] at heq
        exact absurd heq.1 hn
      · rfl

/-- The decoder on a payload without any token. -/
theorem parse_pid_rpm_no_token (payload : List Nat) (h1 : ¬ cstr "41 0C" <:+: payload)
    (h2 : ¬ cstr "410C" <:+: payload) : parse_pid_rpm (some payload) = -1 := by
  simp only [parse_pid_rpm, strstr_none _ _ h1, strstr_none _ _ h2]

/-- The sleep and the reply of an iteration whose exchange did not fail are the
same whatever the decoder returns. -/
theorem poll_exchange_decoded (hz fuel : Nat) (w : World) (interval : Int) (reply : Buf)
    (tried : Bool) (r : Reply)
    (hcall : obd_send_cmd_and_read hz fuel w (some (cstr "010C")) (some reply) 512 3000 = some r)
    (hret : 0 ≤ r.ret) :
    poll_exchange hz fuel w interval reply tried =
      some ⟨tried,
        if 0 ≤ parse_pid_rpm (some (c_string (r.out.getD reply) 512)) then
          PollOutcome.rpm (parse_pid_rpm (some (c_string (r.out.getD reply) 512)))
        else PollOutcome.decode_failed,
        r.out.getD reply, vTaskDelay r.world (pdMS_TO_TICKS hz interval)⟩ := by
  have h : ¬ r.ret < 0 := by omega
  simp only [poll_exchange, hcall, if_neg h]

/-- Bringing the stack up touches nothing of the world but the answers left
for the coming bring-up calls. -/
theorem bring_up_frame : ∀ (n : Nat) (w : World),
    (bring_up n w).2 = { w with stack_ret := (bring_up n w).2.stack_ret } := by
  intro n
  induction n with
  | zero => intro w; rfl
  | succ n ih =>
    intro w
    simp only [bring_up, stack_call]
    cases hs : w.stack_ret with
    | nil =>
      simp only [ESP_OK, ne_eq, not_true_eq_false, if_false]
      rw [ih w]
    | cons r rest =>
      simp only
      split
      · rfl
      · rw [ih { w with stack_ret := rest }]

/-- The world `obd_bt_init` leaves when it created the queue. -/
theorem obd_bt_init_queue (w0 w : World) (ret : Int) (hinit : obd_bt_init w0 = (ret, w))
    (hnone : w0.s_rx_queue = none) (hq : w.s_rx_queue ≠ none) :
    w.s_rx_queue = some ⟨16, []⟩ := by
  have hf := bring_up_frame 6 w0
  have hq1 : (bring_up 6 w0).2.s_rx_queue = none := by rw [hf]; exact hnone
  unfold obd_bt_init at hinit
  split at hinit
  rename_i r w1 hb
  rw [hb] at hq1
  simp only at hq1
  split at hinit
  · simp only [Prod.mk.injEq] at hinit
    obtain ⟨_, rfl⟩ := hinit
    exact absurd hq1 hq
  · simp only [hq1, xQueueCreate] at hinit
    cases hm : pvPortMalloc w1 with
    | mk b w2 =>
      rw [hm] at hinit
      cases b with
      | true =>
        simp only [Prod.mk.injEq] at hinit
        obtain ⟨_, rfl⟩ := hinit
        rfl
      | false =>
        simp only [Prod.mk.injEq] at hinit
        obtain ⟨_, rfl⟩ := hinit
        exact absurd rfl hq

/-- A data event on a world with a queue: the packet is appended when its
buffer was allocated and the queue has room, else the queue is as before; the
rest of the world is the one the allocation left. -/
theorem esp_spp_cb_data_step (w : World) (q : Queue) (data : List Nat)
    (hq : w.s_rx_queue = some q) :
    esp_spp_cb w (SppEvent.ESP_SPP_DATA_IND_EVT data) =
      if (pvPortMalloc w).1 = true ∧ q.items.length < q.uxLength then
        { (pvPortMalloc w).2 with s_rx_queue := some { q with items := q.items ++ [packet data] } }
      else (pvPortMalloc w).2 := by
  simp only [esp_spp_cb]
  cases hm : pvPortMalloc w with
  | mk b w1 =>
    obtain ⟨_, _, f3, _⟩ := pvPortMalloc_frame w w1 b hm
    cases b with
    | false => simp
    | true =>
      simp only [f3, hq, xQueueSend, true_and]
      by_cases hroom : q.items.length < q.uxLength
      · simp only [if_pos hroom, packet]
      · simp only [if_neg hroom]

/-- The queue after a data event. -/
theorem esp_spp_cb_data_items (w : World) (q : Queue) (data : List Nat)
    (hq : w.s_rx_queue = some q) :
    (esp_spp_cb w (SppEvent.ESP_SPP_DATA_IND_EVT data)).s_rx_queue =
      some { q with items := q.items ++
        (if (pvPortMalloc w).1 = true ∧ q.items.length < q.uxLength then [packet data] else []) } := by
  rw [esp_spp_cb_data_step w q data hq]
  have f3 : (pvPortMalloc w).2.s_rx_queue = w.s_rx_queue :=
    (pvPortMalloc_frame w (pvPortMalloc w).2 (pvPortMalloc w).1 rfl).2.2.1
  split
  · rfl
  · simp only [List.append_nil, f3, hq]

/-- A pop that does not wait, on a world with a queue: the oldest item is
received if there is one. -/
theorem pop_step (w : World) (q : Queue) (hq : w.s_rx_queue = some q) :
    (queue_op w QueueOp.pop).1 = q.items.head? ∧
      (queue_op w QueueOp.pop).2.s_rx_queue = some { q with items := q.items.tail } := by
  simp only [queue_op, hq, xQueueReceive]
  cases hi : q.items with
  | nil =>
    cases hf : w.feed with
    | nil =>
      simp only [wait_for_chunk, List.head?_nil, List.tail_nil, hq, true_and]
      rw [← hi]
    | cons x rest =>
      obtain ⟨gap, data⟩ := x
      simp only [wait_for_chunk, Nat.not_lt_zero, if_false, List.head?_nil, List.tail_nil, hq,
        true_and]
      rw [← hi]
  | cons pkt more => simp

theorem queue_run_append : ∀ (a b : List QueueOp) (w : World),
    queue_run (a ++ b) w =
      ((queue_run a w).1 ++ (queue_run b (queue_run a w).2).1, (queue_run b (queue_run a w).2).2) := by
  intro a
  induction a with
  | nil => intro b w; simp [queue_run]
  | cons op a ih =>
    intro b w
    rw [List.cons_append]
    cases h : queue_op w op with
    | mk r w1 =>
      cases r with
      | none => simp only [queue_run, h, ih]
      | some pkt => simp only [queue_run, h, ih, List.cons_append]

/-- The invariant of the inbound queue under deliveries and pops: the capacity
stays, the length stays within it, and the items popped followed by the items
still queued are the items queued at the start followed by some of the packets
delivered, in the order of their arrival. -/
theorem queue_run_inv : ∀ (ops : List QueueOp) (w : World) (cap : Nat)
    (items : List (Option (List Nat))),
    w.s_rx_queue = some ⟨cap, items⟩ → items.length ≤ cap →
    ∃ items1 kept, (queue_run ops w).2.s_rx_queue = some ⟨cap, items1⟩ ∧ items1.length ≤ cap ∧
      kept.Sublist (delivered ops) ∧ (queue_run ops w).1 ++ items1 = items ++ kept := by
  intro ops
  induction ops with
  | nil =>
    intro w cap items hq hlen
    exact ⟨items, [], hq, hlen, List.Sublist.refl _, by simp [queue_run]⟩
  | cons op ops ih =>
    intro w cap items hq hlen
    cases op with
    | deliver data =>
      have hstep := esp_spp_cb_data_items w ⟨cap, items⟩ data hq
      simp only [queue_run, queue_op, delivered]
      by_cases hroom : (pvPortMalloc w).1 = true ∧ items.length < cap
      · simp only [if_pos hroom] at hstep
        have hlen1 : (items ++ [packet data]).length ≤ cap := by
          simp only [List.length_append, List.length_singleton]
          omega
        obtain ⟨items1, kept, h1, h2, h3, h4⟩ := ih _ cap (items ++ [packet data]) hstep hlen1
        refine ⟨items1, packet data :: kept, h1, h2, h3.cons₂ _, ?_⟩
        rw [h4]
        simp
      · simp only [if_neg hroom, List.append_nil] at hstep
        obtain ⟨items1, kept, h1, h2, h3, h4⟩ := ih _ cap items hstep hlen
        exact ⟨items1, kept, h1, h2, h3.cons _, h4⟩
    | pop =>
      obtain ⟨p1, p2⟩ := pop_step w ⟨cap, items⟩ hq
      simp only at p1 p2
      simp only [queue_run, delivered]
      cases hop : queue_op w QueueOp.pop with
      | mk r w1 =>
        rw [hop] at p1 p2
        simp only at p1 p2
        cases items with
        | nil =>
          simp only [List.head?_nil] at p1
          subst p1
          simp only [List.tail_nil] at p2
          exact ih w1 cap [] p2 hlen
        | cons pkt more =>
          simp only [List.head?_cons] at p1
          subst p1
          simp only [List.tail_cons] at p2
          simp only [List.length_cons] at hlen
          obtain ⟨items1, kept, h1, h2, h3, h4⟩ := ih w1 cap more p2 (by omega)
          refine ⟨items1, kept, h1, h2, h3, ?_⟩
          simp only [List.cons_append, h4]

/-- A delivery on a full queue: the queue, the clock and the link state are as
before, whatever the allocation of its buffer gave. -/
theorem esp_spp_cb_data_full (w : World) (q : Queue) (data : List Nat)
    (hq : w.s_rx_queue = some q) (hfull : q.uxLength ≤ q.items.length) :
    esp_spp_cb w (SppEvent.ESP_SPP_DATA_IND_EVT data) = (pvPortMalloc w).2 ∧
      (esp_spp_cb w (SppEvent.ESP_SPP_DATA_IND_EVT data)).s_rx_queue = some q ∧
      (esp_spp_cb w (SppEvent.ESP_SPP_DATA_IND_EVT data)).tick = w.tick := by
  have hstep := esp_spp_cb_data_step w q data hq
  have hno : ¬ ((pvPortMalloc w).1 = true ∧ q.items.length < q.uxLength) := by omega
  rw [if_neg hno] at hstep
  obtain ⟨_, _, f3, f4, _⟩ := pvPortMalloc_frame w (pvPortMalloc w).2 (pvPortMalloc w).1 rfl
  refine ⟨hstep, ?_, ?_⟩
  · rw [hstep, f3, hq]
  · rw [hstep, f4]

theorem pvPortMalloc_ok (w : World) (h : ∀ b ∈ w.heap, b = true) :
    (pvPortMalloc w).1 = true ∧ ∀ b ∈ (pvPortMalloc w).2.heap, b = true := by
  unfold pvPortMalloc
  cases hh : w.heap with
  | nil => simp [hh]
  | cons b rest =>
    rw [hh] at h
    simp only
    exact ⟨h b (List.mem_cons_self _ _), fun c hc => h c (List.mem_cons_of_mem _ hc)⟩

/-- Deliveries whose buffers are all allocated: the packets queue up in the
order of arrival as long as there is room. -/
theorem deliver_all : ∀ (ds : List (List Nat)) (w : World) (cap : Nat)
    (items : List (Option (List Nat))),
    w.s_rx_queue = some ⟨cap, items⟩ → (∀ b ∈ w.heap, b = true) →
    (queue_run (ds.map QueueOp.deliver) w).1 = [] ∧
      (queue_run (ds.map QueueOp.deliver) w).2.s_rx_queue =
        some ⟨cap, items ++ (ds.map packet).take (cap - items.length)⟩ := by
  intro ds
  induction ds with
  | nil => intro w cap items hq _; simp [queue_run, hq]
  | cons d ds ih =>
    intro w cap items hq hheap
    obtain ⟨m1, m2⟩ := pvPortMalloc_ok w hheap
    have hstep := esp_spp_cb_data_step w ⟨cap, items⟩ d hq
    have hitems := esp_spp_cb_data_items w ⟨cap, items⟩ d hq
    simp only [List.map_cons, queue_run, queue_op]
    by_cases hroom : items.length < cap
    · have hc : (pvPortMalloc w).1 = true ∧ items.length < cap := ⟨m1, hroom⟩
      simp only [if_pos hc] at hstep hitems
      have hheap1 : ∀ b ∈ (esp_spp_cb w (SppEvent.ESP_SPP_DATA_IND_EVT d)).heap, b = true := by
        rw [hstep]; exact m2
      obtain ⟨h1, h2⟩ := ih _ cap (items ++ [packet d]) hitems hheap1
      refine ⟨h1, ?_⟩
      rw [h2]
      have e : cap - items.length = (cap - (items ++ [packet d]).length) + 1 := by
        simp only [List.length_append, List.length_singleton]; omega
      rw [e, List.take_succ_cons]
      simp
    · have hc : ¬ ((pvPortMalloc w).1 = true ∧ items.length < cap) := fun h => hroom h.2
      simp only [if_neg hc, List.append_nil] at hstep hitems
      have hheap1 : ∀ b ∈ (esp_spp_cb w (SppEvent.ESP_SPP_DATA_IND_EVT d)).heap, b = true := by
        rw [hstep]; exact m2
      obtain ⟨h1, h2⟩ := ih _ cap items hitems hheap1
      refine ⟨h1, ?_⟩
      rw [h2]
      have e : cap - items.length = 0 := by omega
      simp [e]

/-- Pops that do not wait receive the queued items oldest first. -/
theorem pop_all : ∀ (n : Nat) (w : World) (cap : Nat) (items : List (Option (List Nat))),
    w.s_rx_queue = some ⟨cap, items⟩ →
    (queue_run (List.replicate n QueueOp.pop) w).1 = items.take n ∧
      (queue_run (List.replicate n QueueOp.pop) w).2.s_rx_queue = some ⟨cap, items.drop n⟩ := by
  intro n
  induction n with
  | zero => intro w cap items hq; simp [queue_run, hq]
  | succ n ih =>
    intro w cap items hq
    obtain ⟨p1, p2⟩ := pop_step w ⟨cap, items⟩ hq
    simp only at p1 p2
    simp only [List.replicate_succ, queue_run]
    cases hop : queue_op w QueueOp.pop with
    | mk r w1 =>
      rw [hop] at p1 p2
      simp only at p1 p2
      cases items with
      | nil =>
        simp only [List.head?_nil] at p1
        subst p1
        simp only [List.tail_nil] at p2
        simpa using ih w1 cap [] p2
      | cons pkt more =>
        simp only [List.head?_cons] at p1
        subst p1
        simp only [List.tail_cons] at p2
        obtain ⟨h1, h2⟩ := ih w1 cap more p2
        simp only [h1, h2, List.take_succ_cons, List.drop_succ_cons, and_self]

/-- A connect request changes neither `s_connected` nor `s_spp_handle`. -/
theorem obd_bt_connect_link (w : World) (mac_str : Option (List Nat)) :
    (obd_bt_connect w mac_str).2.s_connected = w.s_connected ∧
      (obd_bt_connect w mac_str).2.s_spp_handle = w.s_spp_handle ∧
      (obd_bt_connect w mac_str).2.s_rx_queue = w.s_rx_queue := by
  unfold obd_bt_connect
  cases mac_str with
  | none => simp
  | some mac =>
    simp only
    split
    · simp
    · split
      · simp
      · simp only [esp_spp_connect]
        cases hr : w.spp_connect_ret with
        | nil => simp only; split <;> simp
        | cons r rest => simp only; split <;> simp

/-- A disconnect request changes neither `s_connected` nor `s_spp_handle`. -/
theorem obd_bt_disconnect_link (w : World) :
    (obd_bt_disconnect w).s_connected = w.s_connected ∧
      (obd_bt_disconnect w).s_spp_handle = w.s_spp_handle ∧
      (obd_bt_disconnect w).s_rx_queue = w.s_rx_queue ∧
      (obd_bt_disconnect w).tick = w.tick ∧
      (obd_bt_disconnect w).delay_events = w.delay_events := by
  unfold obd_bt_disconnect esp_spp_disconnect
  split <;> simp

/-- A command session changes neither `s_connected` nor `s_spp_handle`. -/
theorem obd_send_cmd_and_read_link (hz fuel : Nat) (w : World) (cmd : Option (List Nat))
    (out : Option Buf) (out_sz : Nat) (timeout_ms : Int) (r : Reply)
    (h : obd_send_cmd_and_read hz fuel w cmd out out_sz timeout_ms = some r) :
    r.world.s_connected = w.s_connected ∧ r.world.s_spp_handle = w.s_spp_handle := by
  cases cmd with
  | none =>
    simp only [obd_send_cmd_and_read, Option.some.injEq] at h
    subst h
    simp
  | some cmd =>
    cases out with
    | none =>
      simp only [obd_send_cmd_and_read, Option.some.injEq] at h
      subst h
      simp
    | some out =>
      simp only [obd_send_cmd_and_read] at h
      split at h
      · simp only [Option.some.injEq] at h
        subst h
        simp
      · split at h
        · simp only [Option.some.injEq] at h
          subst h
          simp
        · cases hs : send_cmd w cmd with
          | mk b w1 =>
            obtain ⟨s1, s2, _⟩ := send_cmd_frame w w1 cmd b hs
            rw [hs] at h
            cases b with
            | false =>
              simp only [Option.some.injEq] at h
              subst h
              exact ⟨s1, s2⟩
            | true =>
              simp only at h
              obtain ⟨_, r2, r3, _⟩ := read_response_frame hz fuel w1 out out_sz timeout_ms r h
              exact ⟨r2.trans s1, r3.trans s2⟩

/-- Every action other than an open event with the handle 0 keeps the handle
present exactly when the state is Connected. -/
theorem act_handle_iff_connected (hz fuel : Nat) (w w1 : World) (a : Action)
    (hinv : handle_iff_connected w) (ha : a ≠ Action.event (SppEvent.ESP_SPP_OPEN_EVT 0))
    (hact : act hz fuel w a = some w1) : handle_iff_connected w1 := by
  unfold handle_iff_connected at hinv ⊢
  cases a with
  | event e =>
    simp only [act, Option.some.injEq] at hact
    subst hact
    cases e with
    | ESP_SPP_OPEN_EVT handle =>
      have hne : handle ≠ 0 := fun h0 => ha (by rw [h0])
      simp [esp_spp_cb, hne]
    | ESP_SPP_CLOSE_EVT => simp [esp_spp_cb]
    | ESP_SPP_DATA_IND_EVT data =>
      obtain ⟨_, e2, e3, _⟩ := esp_spp_cb_data_frame w data
      rw [e2, e3]
      exact hinv
    | ESP_SPP_INIT_EVT => exact hinv
    | ESP_SPP_START_EVT => exact hinv
    | ESP_SPP_CONG_EVT => exact hinv
    | other => exact hinv
  | connect mac_str =>
    simp only [act, Option.some.injEq] at hact
    subst hact
    obtain ⟨e1, e2, _⟩ := obd_bt_connect_link w mac_str
    rw [e1, e2]
    exact hinv
  | disconnect =>
    simp only [act, Option.some.injEq] at hact
    subst hact
    obtain ⟨e1, e2, _⟩ := obd_bt_disconnect_link w
    rw [e1, e2]
    exact hinv
  | send cmd out out_sz timeout_ms =>
    simp only [act, Option.map_eq_some'] at hact
    obtain ⟨r, hr, rfl⟩ := hact
    obtain ⟨e1, e2⟩ := obd_send_cmd_and_read_link hz fuel w cmd out out_sz timeout_ms r hr
    rw [e1, e2]
    exact hinv

theorem open_handles_cons (a : Action) (rest : List Action)
    (h : 0 ∉ open_handles (a :: rest)) :
    a ≠ Action.event (SppEvent.ESP_SPP_OPEN_EVT 0) ∧ 0 ∉ open_handles rest := by
  cases a with
  | event e =>
    cases e with
    | ESP_SPP_OPEN_EVT handle =>
      simp only [open_handles, List.mem_cons, not_or] at h
      refine ⟨?_, h.2⟩
      intro he
      simp only [Action.event.injEq, SppEvent.ESP_SPP_OPEN_EVT.injEq] at he
      exact h.1 he.symm
    | ESP_SPP_CLOSE_EVT => exact ⟨by simp, by simpa [open_handles] using h⟩
    | ESP_SPP_DATA_IND_EVT data => exact ⟨by simp, by simpa [open_handles] using h⟩
    | ESP_SPP_INIT_EVT => exact ⟨by simp, by simpa [open_handles] using h⟩
    | ESP_SPP_START_EVT => exact ⟨by simp, by simpa [open_handles] using h⟩
    | ESP_SPP_CONG_EVT => exact ⟨by simp, by simpa [open_handles] using h⟩
    | other => exact ⟨by simp, by simpa [open_handles] using h⟩
  | connect mac_str => exact ⟨by simp, by simpa [open_handles] using h⟩
  | disconnect => exact ⟨by simp, by simpa [open_handles] using h⟩
  | send cmd out out_sz timeout_ms => exact ⟨by simp, by simpa [open_handles] using h⟩

/-- The invariant of the link state along a sequence of actions without an
open event for the handle 0. -/
theorem run_handle_iff_connected (hz fuel : Nat) : ∀ (acts : List Action) (w w1 : World),
    handle_iff_connected w → 0 ∉ open_handles acts →
    run hz fuel acts w = some w1 → handle_iff_connected w1 := by
  intro acts
  induction acts with
  | nil =>
    intro w w1 hinv _ hrun
    simp only [run, Option.some.injEq] at hrun
    subst hrun
    exact hinv
  | cons a rest ih =>
    intro w w1 hinv hne hrun
    obtain ⟨hne1, hne2⟩ := open_handles_cons a rest hne
    simp only [run] at hrun
    cases hact : act hz fuel w a with
    | none => rw [hact] at hrun; simp at hrun
    | some w2 =>
      rw [hact] at hrun
      simp only at hrun
      exact ih w2 w1 (act_handle_iff_connected hz fuel w w2 a hinv hne1 hact) hne2 hrun

theorem foldl_esp_spp_cb_connected : ∀ (evs : List SppEvent) (w : World),
    (evs.foldl esp_spp_cb w).s_connected = link_after w.s_connected evs := by
  intro evs
  induction evs with
  | nil => intro w; rfl
  | cons e rest ih =>
    intro w
    rw [List.foldl_cons, ih]
    cases e with
    | ESP_SPP_OPEN_EVT handle => rfl
    | ESP_SPP_CLOSE_EVT => rfl
    | ESP_SPP_DATA_IND_EVT data =>
      rw [(esp_spp_cb_data_frame w data).2.1]
      rfl
    | ESP_SPP_INIT_EVT => rfl
    | ESP_SPP_START_EVT => rfl
    | ESP_SPP_CONG_EVT => rfl
    | other => rfl

/-- The link state after a delay is the one the events delivered meanwhile
leave. -/
theorem vTaskDelay_connected (w : World) (ticks : Nat) :
    (vTaskDelay w ticks).s_connected = link_after w.s_connected (w.delay_events.headD []) := by
  unfold vTaskDelay
  cases h : w.delay_events with
  | nil => rfl
  | cons evs rest =>
    simp only [List.headD_cons]
    rw [foldl_esp_spp_cb_connected]

theorem link_after_close (c : Bool) : ∀ pre : List SppEvent,
    link_after c (pre ++ [SppEvent.ESP_SPP_CLOSE_EVT]) = false := by
  intro pre
  induction pre generalizing c with
  | nil => rfl
  | cons e rest ih =>
    cases e <;> exact ih _

/-- The iteration of the polling loop from a world, by its link state. -/
theorem obd_polling_iteration_branch (hz fuel : Nat) (w : World) (mac : List Nat)
    (interval : Int) (reply : Buf) :
    obd_polling_iteration hz fuel w mac interval reply =
      if obd_bt_is_connected w = false then connect_branch hz fuel w mac interval reply
      else poll_exchange hz fuel w interval reply false := by
  rfl

/-- The world after a disconnect request. -/
theorem obd_bt_disconnect_eq (w : World) :
    obd_bt_disconnect w =
      if w.s_connected = true ∧ w.s_spp_handle ≠ 0 then
        { w with link_ops := w.link_ops ++ [LinkOp.spp_disconnect w.s_spp_handle] }
      else w := by
  rfl

/-- Chunks that neither hold a prompt nor fill the room are all needed. -/
theorem chunks_needed_plain : ∀ (cs : List (List Nat)) (room : Nat),
    PROMPT ∉ cs.flatten → cs.flatten.length < room → chunks_needed room cs = cs.length := by
  intro cs
  induction cs with
  | nil => intro room _ _; rfl
  | cons c cs ih =>
    intro room hp hlen
    simp only [List.flatten_cons, List.mem_append, not_or, List.length_append] at hp hlen
    have h0 : room ≠ 0 := by omega
    have hc : ¬ (PROMPT ∈ c ∨ room ≤ c.length) := by
      intro h
      rcases h with h | h
      · exact hp.1 h
      · omega
    simp only [chunks_needed, if_neg h0, if_neg hc, List.length_cons]
    rw [ih (room - c.length) hp.2 (by omega)]
    omega

/-- The reader on chunks without a prompt that leave room: once they are
dequeued the loop goes on from the state their bytes leave. -/
theorem read_loop_plain (hz : Nat) (T : Int) (start out_sz : Nat) :
    ∀ (cs : List (List Nat)) (rem : Int) (total : Nat) (out : Buf) (w : World) (r : Int × World),
      (∀ c ∈ cs, ∀ b ∈ c, b ≠ 0) →
      (0 < total → out (total - 1) ≠ PROMPT) →
      PROMPT ∉ cs.flatten → cs.flatten.length < out_sz - 1 - total →
      dequeue_all hz T start cs rem w = some r →
      ∀ fuel,
        read_loop hz T start out_sz (cs.length + fuel) rem total out w =
          read_loop hz T start out_sz fuel r.1 (total + cs.flatten.length)
            (Buf.store out total cs.flatten) r.2 := by
  intro cs
  induction cs with
  | nil =>
    intro rem total out w r _ _ _ _ hdq fuel
    simp only [dequeue_all, Option.some.injEq] at hdq
    subst hdq
    simp [Buf.store]
  | cons c cs ih =>
    intro rem total out w r hnul hinv hp hlen hdq fuel
    simp only [List.flatten_cons, List.mem_append, not_or, List.length_append] at hp hlen
    simp only [dequeue_all] at hdq
    split at hdq
    · rename_i hrem
      split at hdq
      · simp at hdq
      · rename_i q hq
        split at hdq
        · rename_i pkt w1 hrecv
          split at hdq
          · rename_i hpkt
            subst hpkt
            obtain ⟨hinv1, hstep⟩ := read_loop_plain_chunk hz T start out_sz (cs.length + fuel) rem
              total out w w1 q c (fun b hb => hnul c (List.mem_cons_self _ _) b hb) hinv
              ⟨hrem, by omega⟩ hq hrecv hp.1 (by omega)
            have e : (c :: cs).length + fuel = cs.length + fuel + 1 := by
              simp only [List.length_cons]; omega
            rw [e, hstep]
            have := ih _ (total + c.length) (Buf.store out total c) w1 r
              (fun c1 hc1 => hnul c1 (List.mem_cons_of_mem _ hc1)) hinv1 hp.2 (by omega) hdq fuel
            rw [this, List.flatten_cons, store_append, List.length_append, Nat.add_assoc]
          · simp at hdq
        · simp at hdq
    · simp at hdq

/-- The reader on a queue that stays empty, with `total` bytes read before: it
leaves the loop with these bytes once the time is used up. -/
theorem read_loop_idle_from (hz : Nat) (T : Int) (start out_sz total : Nat) (out : Buf) (q : Queue)
    (h1 : 1 ≤ hz) (h2 : hz ≤ 1000) (hT2 : T < 2 ^ 31) (hstart : start < WORD)
    (hitems : q.items = []) :
    ∀ (m e : Nat) (w : World),
      w.s_rx_queue = some q → w.feed = [] → w.tick = (start + e) % WORD →
      T - ((e * portTICK_PERIOD_MS hz : Nat) : Int) ≤ (m : Int) →
      ∀ fuel, m + 1 ≤ fuel →
        ∃ w1, read_loop hz T start out_sz fuel (T - ((e * portTICK_PERIOD_MS hz : Nat) : Int)) total out w =
            some (total, out, w1) ∧ w1.s_rx_queue = some q ∧ w1.feed = [] ∧
          w1.s_connected = w.s_connected ∧ w1.s_spp_handle = w.s_spp_handle ∧
          w1.link_ops = w.link_ops := by
  intro m
  induction m with
  | zero =>
    intro e w _ _ _ hm fuel hfuel
    obtain ⟨f, rfl⟩ : ∃ f, fuel = f + 1 := ⟨fuel - 1, by omega⟩
    exact ⟨w, read_loop_exit _ _ _ _ _ _ _ _ _ (by omega), by assumption, by assumption, rfl, rfl, rfl⟩
  | succ m ih =>
    intro e w hq hfeed htick hm fuel hfuel
    obtain ⟨f, rfl⟩ : ∃ f, fuel = f + 1 := ⟨fuel - 1, by omega⟩
    by_cases hc : 0 < T - ((e * portTICK_PERIOD_MS hz : Nat) : Int) ∧ total < out_sz - 1
    · have hp : 1 ≤ portTICK_PERIOD_MS hz := by
        unfold portTICK_PERIOD_MS
        exact (Nat.one_le_div_iff (by omega)).2 h2
      have hw := wait_ticks_mul_le hz _ h1 h2 hc.1 (by omega)
      have hwp := wait_ticks_pos hz (T - ((e * portTICK_PERIOD_MS hz : Nat) : Int))
      generalize hwt : wait_ticks hz (T - ((e * portTICK_PERIOD_MS hz : Nat) : Int)) = wt at hw hwp
      have hrecv := xQueueReceive_idle w q wt hitems hfeed
      have hwle : wt ≤ wt * portTICK_PERIOD_MS hz := Nat.le_mul_of_pos_right _ hp
      have hele : e ≤ e * portTICK_PERIOD_MS hz := Nat.le_mul_of_pos_right _ hp
      have hmul : (e + wt) * portTICK_PERIOD_MS hz =
          e * portTICK_PERIOD_MS hz + wt * portTICK_PERIOD_MS hz := Nat.add_mul _ _ _
      have hw2 : ((wt * portTICK_PERIOD_MS hz : Nat) : Int) ≤
          max (T - ((e * portTICK_PERIOD_MS hz : Nat) : Int)) 1000 := hw
      have hbound : ((e + wt) * portTICK_PERIOD_MS hz : Nat) < WORD := by
        rw [WORD_eq, hmul]
        generalize e * portTICK_PERIOD_MS hz = A at hw2 hc
        generalize wt * portTICK_PERIOD_MS hz = B at hw2
        omega
      have hsmall : e + wt < WORD := by
        have : e + wt ≤ (e + wt) * portTICK_PERIOD_MS hz := Nat.le_mul_of_pos_right _ hp
        omega
      have hnow : ((w.tick + wt) % WORD + WORD - start) % WORD = e + wt := by
        rw [htick, WORD_eq]
        rw [WORD_eq] at hsmall hstart
        omega
      have hrec : recompute_remaining hz T start ((w.tick + wt) % WORD) =
          T - (((e + wt) * portTICK_PERIOD_MS hz : Nat) : Int) := by
        unfold recompute_remaining
        rw [hnow, Nat.mod_eq_of_lt hbound]
        apply wrap_int_sub_to_int _ _ hbound
        · rw [hmul]
          generalize e * portTICK_PERIOD_MS hz = A at hw2 hc
          generalize wt * portTICK_PERIOD_MS hz = B at hw2
          omega
        · omega
      have hstep : read_loop hz T start out_sz (f + 1)
          (T - ((e * portTICK_PERIOD_MS hz : Nat) : Int)) total out w =
          read_loop hz T start out_sz f (T - (((e + wt) * portTICK_PERIOD_MS hz : Nat) : Int)) total out
            { w with tick := (w.tick + wt) % WORD, feed := [] } := by
        rw [← hrec]
        simp only [read_loop, if_pos hc, hq, hwt, hrecv, xTaskGetTickCount]
      rw [hstep]
      have htick2 : ({ w with tick := (w.tick + wt) % WORD, feed := [] } : World).tick =
          (start + (e + wt)) % WORD := by
        show (w.tick + wt) % WORD = _
        rw [htick, WORD_eq]
        omega
      have hm2 : T - (((e + wt) * portTICK_PERIOD_MS hz : Nat) : Int) ≤ (m : Int) := by
        rw [hmul]
        have hB : 1 ≤ wt * portTICK_PERIOD_MS hz := by omega
        generalize e * portTICK_PERIOD_MS hz = A at hm
        generalize wt * portTICK_PERIOD_MS hz = B at hB
        omega
      obtain ⟨w1, hr, ha, hb, hc1, hd, he⟩ :=
        ih (e + wt) { w with tick := (w.tick + wt) % WORD, feed := [] } hq rfl htick2 hm2 f (by omega)
      exact ⟨w1, hr, ha, hb, hc1, hd, he⟩
    · exact ⟨w, read_loop_exit _ _ _ _ _ _ _ _ _ hc, hq, hfeed, rfl, rfl, rfl⟩

/-- The time left after the chunks `cs` were dequeued is the timeout less the
time that passed since the start, exactly. -/
theorem dequeue_all_time (hz : Nat) (T : Int) (start : Nat) (h1 : 1 ≤ hz) (h2 : hz ≤ 1000)
    (hT2 : T < 2 ^ 31) (hstart : start < WORD) :
    ∀ (cs : List (List Nat)) (e : Nat) (w : World) (r : Int × World),
      w.tick = (start + e) % WORD →
      dequeue_all hz T start cs (T - ((e * portTICK_PERIOD_MS hz : Nat) : Int)) w = some r →
      ∃ e2, r.1 = T - ((e2 * portTICK_PERIOD_MS hz : Nat) : Int) ∧
        r.2.tick = (start + e2) % WORD := by
  intro cs
  induction cs with
  | nil =>
    intro e w r htick hdq
    simp only [dequeue_all, Option.some.injEq] at hdq
    subst hdq
    exact ⟨e, rfl, htick⟩
  | cons c cs ih =>
    intro e w r htick hdq
    simp only [dequeue_all] at hdq
    split at hdq
    · rename_i hrem
      split at hdq
      · simp at hdq
      · rename_i q hq
        have hlt : w.tick < WORD := by
          rw [htick]
          exact Nat.mod_lt _ (by rw [WORD_eq]; omega)
        obtain ⟨g, hg, htk, _⟩ := xQueueReceive_progress w q
          (wait_ticks hz (T - ((e * portTICK_PERIOD_MS hz : Nat) : Int))) hq hlt
        split at hdq
        · rename_i pkt w1 hrecv
          rw [hrecv] at htk
          simp only at htk
          split at hdq
          · obtain ⟨r1, r2, _⟩ := recompute_remaining_exact hz T start e g h1 h2 hT2 hstart hrem hg
            rw [htick] at htk
            have hrec : recompute_remaining hz T start (xTaskGetTickCount w1) =
                T - (((e + g) * portTICK_PERIOD_MS hz : Nat) : Int) := by
              rw [xTaskGetTickCount, htk, r1]
            rw [hrec] at hdq
            exact ih (e + g) w1 r (by rw [htk, r2]) hdq
          · simp at hdq
        · simp at hdq
    · simp at hdq

theorem chunks_needed_le : ∀ (cs : List (List Nat)) (room : Nat),
    chunks_needed room cs ≤ cs.length := by
  intro cs
  induction cs with
  | nil => intro room; simp [chunks_needed]
  | cons c cs ih =>
    intro room
    simp only [chunks_needed, List.length_cons]
    split
    · omega
    · split
      · omega
      · have := ih (room - c.length)
        omega

/-- The reader with `total` bytes read, on a world whose queue is missing or
stays empty: it leaves the loop with these bytes, the queue and the link as
they are. -/
theorem read_loop_quiet (hz : Nat) (T : Int) (start out_sz total e : Nat) (out : Buf)
    (w : World) (h1 : 1 ≤ hz) (h2 : hz ≤ 1000) (hT2 : T < 2 ^ 31) (hstart : start < WORD)
    (hidle : queue_idle w) (hfeed : w.feed = []) (htick : w.tick = (start + e) % WORD) :
    ∀ fuel, T.toNat + 1 ≤ fuel →
      ∃ w1, read_loop hz T start out_sz fuel (T - ((e * portTICK_PERIOD_MS hz : Nat) : Int))
          total out w = some (total, out, w1) ∧ w1.s_rx_queue = w.s_rx_queue ∧ w1.feed = [] := by
  intro fuel hfuel
  rcases hidle with hnone | ⟨q, hq, hitems⟩
  · obtain ⟨f, rfl⟩ : ∃ f, fuel = f + 1 := ⟨fuel - 1, by omega⟩
    refine ⟨w, ?_, rfl, hfeed⟩
    by_cases hc : 0 < T - ((e * portTICK_PERIOD_MS hz : Nat) : Int) ∧ total < out_sz - 1
    · simp only [read_loop, if_pos hc, hnone]
    · exact read_loop_exit _ _ _ _ _ _ _ _ _ hc
  · obtain ⟨w1, hr, ha, hb, _⟩ := read_loop_idle_from hz T start out_sz total out q h1 h2 hT2
      hstart hitems T.toNat e w hq hfeed htick (by omega) fuel hfuel
    exact ⟨w1, hr, ha.trans hq.symm, hb⟩

/-- The reading part on chunks that do not make the reader stop, after which
nothing more arrives: the call returns when the time is used up, with all their
bytes followed by NUL in the buffer and their number as its value. -/
theorem read_response_plain (hz : Nat) (w1 w2 : World) (out : Buf) (out_sz : Nat)
    (T rem : Int) (cs : List (List Nat)) (h1 : 1 ≤ hz) (h2 : hz ≤ 1000) (hT2 : T < 2 ^ 31)
    (htick : w1.tick < WORD) (hsz : 1 ≤ out_sz) (hint : out_sz ≤ 2 ^ 31)
    (hnul : ∀ c ∈ cs, ∀ b ∈ c, b ≠ 0)
    (hp : PROMPT ∉ cs.flatten) (hlen : cs.flatten.length < out_sz - 1)
    (hdq : dequeue_all hz T (xTaskGetTickCount w1) cs T w1 = some (rem, w2))
    (hidle : queue_idle w2) (hfeed : w2.feed = []) :
    ∀ fuel, cs.length + T.toNat + 1 ≤ fuel →
      ∃ out1 w3, read_response hz fuel w1 out out_sz T =
          some ⟨(cs.flatten.length : Nat), some out1, w3⟩ ∧
        out1.read (cs.flatten.length + 1) = cs.flatten ++ [0] ∧
        w3.s_rx_queue = w2.s_rx_queue ∧ w3.feed = w2.feed := by
  intro fuel hfuel
  obtain ⟨f, rfl⟩ : ∃ f, fuel = cs.length + f := ⟨fuel - cs.length, by omega⟩
  have hT0 : T = T - ((0 * portTICK_PERIOD_MS hz : Nat) : Int) := by simp
  have hdq0 : dequeue_all hz T w1.tick cs (T - ((0 * portTICK_PERIOD_MS hz : Nat) : Int)) w1 =
      some (rem, w2) := by
    rw [← hT0]
    exact hdq
  obtain ⟨e2, hrem, htick2⟩ := dequeue_all_time hz T w1.tick h1 h2 hT2 htick cs 0 w1 (rem, w2)
    (by rw [Nat.add_zero, Nat.mod_eq_of_lt htick]) hdq0
  simp only at hrem htick2
  have hplain := read_loop_plain hz T (xTaskGetTickCount w1) out_sz cs T 0 out w1 (rem, w2) hnul
    (by simp) hp (by omega) hdq f
  simp only [Nat.zero_add] at hplain
  obtain ⟨w3, hquiet, hq3, hf3⟩ := read_loop_quiet hz T w1.tick out_sz cs.flatten.length e2
    (Buf.store out 0 cs.flatten) w2 h1 h2 hT2 htick hidle hfeed htick2 f (by omega)
  rw [← hrem] at hquiet
  have hloop : read_loop hz T (xTaskGetTickCount w1) out_sz (cs.length + f) T 0 out w1 =
      some (cs.flatten.length, Buf.store out 0 cs.flatten, w3) := by
    rw [hplain]
    exact hquiet
  have hfin := finish_plain hz (cs.length + f) w1 w3 out out_sz T cs.flatten hint (by omega) hsz
    (fun b hb hbp => hp (hbp ▸ hb)) hloop
  refine ⟨_, w3, hfin, ?_, hq3, by rw [hf3, hfeed]⟩
  have := read_store_write out cs.flatten []
  rwa [List.append_nil] at this

theorem upto_prompt_is_start : ∀ s : List Nat, upto_prompt s <+: s := by
  intro s
  induction s with
  | nil => exact List.prefix_refl _
  | cons c rest ih =>
    unfold upto_prompt
    split
    · exact ⟨rest, rfl⟩
    · exact (List.prefix_cons_inj c).2 ih

/-- The bytes before the first NUL are among the bytes before any NUL. -/
theorem takeWhile_before_nul : ∀ (data : List Nat) (k : Nat), k < data.length →
    data.getD k 1 = 0 → data.takeWhile (fun b => b ≠ 0) <+: data.take k := by
  intro data
  induction data with
  | nil => intro k hk; simp at hk
  | cons b rest ih =>
    intro k hk hz
    by_cases hb : b = 0
    · subst hb
      simp [List.takeWhile]
    · cases k with
      | zero =>
        simp only [List.getD_cons_zero] at hz
        exact absurd hz hb
      | succ k =>
        simp only [List.length_cons] at hk
        simp only [List.getD_cons_succ] at hz
        rw [List.takeWhile_cons_of_pos (by simpa using hb), List.take_succ_cons]
        exact (List.prefix_cons_inj b).2 (ih k (by omega) hz)

/-- The bytes the reader copies from the packet of a chunk with a NUL at index
`k` are among the first `k` bytes of the chunk. -/
theorem copied_before_nul (data : List Nat) (k room : Nat) (hk : k < data.length)
    (hz : data.getD k 1 = 0) :
    copied room (data ++ [0]) <+: data.take k ∧ (copied room (data ++ [0])).length ≤ k := by
  have h1 : copied room (data ++ [0]) <+: data.take k := by
    rw [copied_chunk]
    exact ((List.take_prefix _ _).trans (upto_prompt_is_start _)).trans
      (takeWhile_before_nul data k hk hz)
  refine ⟨h1, ?_⟩
  have := h1.length_le
  simp only [List.length_take] at this
  omega

/-- A packet that starts with NUL gives the reader nothing. -/
theorem copied_nothing (data : List Nat) (room : Nat) (h : data.headD 0 = 0) :
    copied room (data ++ [0]) = [] := by
  cases data with
  | nil => simp [copied]
  | cons b rest =>
    simp only [List.headD_cons] at h
    subst h
    simp [copied]

/-- What `strstr` returns starts with the needle. -/
theorem strstr_some (needle : List Nat) : ∀ (hay p : List Nat),
    strstr hay needle = some p → ∃ t, p = needle ++ t := by
  intro hay
  induction hay with
  | nil =>
    intro p h
    simp only [strstr] at h
    split at h
    · rename_i hp
      simp only [Option.some.injEq] at h
      subst h
      rw [List.isPrefixOf_iff_prefix] at hp
      obtain ⟨t, ht⟩ := hp
      exact ⟨t, ht.symm⟩
    · simp at h
  | cons c rest ih =>
    intro p h
    rw [strstr_cons] at h
    split at h
    · rename_i hp
      simp only [Option.some.injEq] at h
      subst h
      rw [List.isPrefixOf_iff_prefix] at hp
      obtain ⟨t, ht⟩ := hp
      exact ⟨t, ht.symm⟩
    · exact ih p h

/-- The decoder on every string: -1 when no token is found, else the decoding
of the text after the token found. -/
theorem parse_pid_rpm_eq (payload : List Nat) :
    parse_pid_rpm (some payload) =
      match token_tail payload with
      | none => -1
      | some t => decode_tail t := by
  simp only [parse_pid_rpm, token_tail]
  cases h1 : strstr payload (cstr "41 0C") with
  | some p =>
    obtain ⟨t, rfl⟩ := strstr_some _ _ _ h1
    have hd : (cstr "41 0C" ++ t).drop 5 = t := by
      rw [token_bytes]
      rfl
    simp only [hd, (sscanf_after_separated t).1, (sscanf_after_separated t).2, sscanf_run_values,
      decode_tail]
    cases hx : scan_x t with
    | none =>
      by_cases hs : skip_space t = []
      · simp only [hs, if_true, EOF]
      · simp only [hs, if_false]
    | some v =>
      obtain ⟨a, r⟩ := v
      cases hy : scan_x r with
      | none => simp only [hy]
      | some v2 => simp only [hy]
  | none =>
    cases h2 : strstr payload (cstr "410C") with
    | none => rfl
    | some p =>
      obtain ⟨t, rfl⟩ := strstr_some _ _ _ h2
      have hd : (cstr "410C" ++ t).drop 4 = t := rfl
      simp only [hd, (sscanf_after_joined t).1, (sscanf_after_joined t).2, sscanf_run_values,
        decode_tail]
      cases hx : scan_x t with
      | none =>
        by_cases hs : skip_space t = []
        · simp only [hs, if_true, EOF]
        · simp only [hs, if_false]
      | some v =>
        obtain ⟨a, r⟩ := v
        cases hy : scan_x r with
        | none => simp only [hy]
        | some v2 => simp only [hy]

/-- A data event whose buffer cannot be allocated: the chunk is dropped, the
world is the one the failed allocation left. -/
theorem esp_spp_cb_data_refused (v : World) (data : List Nat)
    (h : (pvPortMalloc v).1 = false) :
    esp_spp_cb v (SppEvent.ESP_SPP_DATA_IND_EVT data) = (pvPortMalloc v).2 ∧
      (esp_spp_cb v (SppEvent.ESP_SPP_DATA_IND_EVT data)).s_rx_queue = v.s_rx_queue ∧
      (esp_spp_cb v (SppEvent.ESP_SPP_DATA_IND_EVT data)).tick = v.tick := by
  have he : esp_spp_cb v (SppEvent.ESP_SPP_DATA_IND_EVT data) = (pvPortMalloc v).2 := by
    simp only [esp_spp_cb]
    cases hm : pvPortMalloc v with
    | mk b v1 =>
      rw [hm] at h
      simp only at h
      subst h
      rfl
  obtain ⟨_, _, f3, f4, _⟩ := pvPortMalloc_frame v (pvPortMalloc v).2 (pvPortMalloc v).1 rfl
  exact ⟨he, by rw [he, f3], by rw [he, f4]⟩

/-- Every string either holds a token followed by two numbers or is answered
with -1. -/
theorem parse_pid_rpm_cases (p : List Nat) :
    parse_pid_rpm (some p) = -1 ∨ ∃ t, token_tail p = some t ∧ two_hex_values t = true := by
  rw [parse_pid_rpm_eq]
  cases h : token_tail p with
  | none => exact Or.inl rfl
  | some t =>
    simp only [decode_tail]
    cases hx : scan_x t with
    | none => exact Or.inl rfl
    | some v =>
      obtain ⟨a, r⟩ := v
      cases hy : scan_x r with
      | none =>
        left
        simp only [hy]
      | some v2 =>
        refine Or.inr ⟨t, rfl, ?_⟩
        simp only [two_hex_values, hx, hy, Option.isSome_some]

/-! ## The claims -/

/-- C1. A reply whose prompt is the last byte of its last chunk: when the
chunks `init ++ [last ++ [PROMPT]]` hold no NUL and no other prompt, the bytes
before the prompt fit in `out_sz - 2` cells and every chunk is dequeued within
the timeout, a call that passes its checks and sends its command returns the
number of bytes before the prompt and leaves these bytes, in arrival order and
followed by NUL, in `out`; the prompt is removed. -/
theorem reply_ends_at_prompt (hz : Nat) (w w1 w2 : World) (cmd : List Nat) (out : Buf)
    (out_sz : Nat) (timeout_ms rem : Int) (init : List (List Nat)) (last : List Nat)
    (hsz : 2 ≤ out_sz) (hint : out_sz ≤ 2 ^ 31)
    (hconn : w.s_connected = true) (hhandle : w.s_spp_handle ≠ 0)
    (hsend : send_cmd w cmd = (true, w1))
    (hnul : ∀ c ∈ init ++ [last ++ [PROMPT]], ∀ b ∈ c, b ≠ 0)
    (hprompt : PROMPT ∉ init.flatten ++ last)
    (hfit : (init.flatten ++ last).length ≤ out_sz - 2)
    (hdq : dequeue_all hz timeout_ms (xTaskGetTickCount w1) (init ++ [last ++ [PROMPT]])
      timeout_ms w1 = some (rem, w2)) :
    ∀ fuel, init.length + 2 ≤ fuel →
      ∃ out1, obd_send_cmd_and_read hz fuel w (some cmd) (some out) out_sz timeout_ms =
          some ⟨((init.flatten ++ last).length : Nat), some out1, w2⟩ ∧
        out1.read ((init.flatten ++ last).length + 1) = init.flatten ++ last ++ [0] := by
  intro fuel hfuel
  have hp1 : PROMPT ∉ init.flatten := fun h => hprompt (List.mem_append.2 (Or.inl h))
  have hlen : init.flatten.length + last.length + 1 ≤ out_sz - 1 - 0 := by
    simp only [List.length_append] at hfit
    omega
  have hk := chunks_needed_all last init (out_sz - 1 - 0) hp1 hlen
  have hflat : (init ++ [last ++ [PROMPT]]).flatten = (init.flatten ++ last) ++ [PROMPT] := by
    simp
  have hstop : PROMPT ∈ (init ++ [last ++ [PROMPT]]).flatten ∨
      out_sz - 1 - 0 ≤ (init ++ [last ++ [PROMPT]]).flatten.length := by
    left
    rw [hflat]
    simp
  have hdq2 : dequeue_all hz timeout_ms (xTaskGetTickCount w1)
      ((init ++ [last ++ [PROMPT]]).take (chunks_needed (out_sz - 1 - 0) (init ++ [last ++ [PROMPT]])))
      timeout_ms w1 = some (rem, w2) := by
    rw [hk, List.take_of_length_le (by simp)]
    exact hdq
  have hloop := read_loop_stops hz timeout_ms (xTaskGetTickCount w1) out_sz
    (init ++ [last ++ [PROMPT]]) timeout_ms 0 out w1 (rem, w2) hnul (by simp) hstop hdq2 fuel
    (by rw [hk]; omega)
  have hupto : (upto_prompt (init ++ [last ++ [PROMPT]]).flatten).take (out_sz - 1 - 0) =
      (init.flatten ++ last) ++ [PROMPT] := by
    rw [hflat, upto_prompt_append_of_not_mem _ _ hprompt]
    have : upto_prompt [PROMPT] = [PROMPT] := by simp [upto_prompt]
    rw [this, List.take_of_length_le]
    simp only [List.length_append, List.length_singleton]
    simp only [List.length_append] at hfit
    omega
  rw [hupto] at hloop
  rw [obd_send_cmd_and_read_sent hz fuel w w1 cmd out out_sz timeout_ms (by omega) hconn hhandle hsend]
  generalize hb : init.flatten ++ last = bytes at *
  simp only [Nat.zero_add, List.length_append, List.length_singleton] at hloop
  have hlast : Buf.store out 0 (bytes ++ [PROMPT]) (bytes.length + 1 - 1) = PROMPT := by
    have := store_last out 0 (bytes ++ [PROMPT]) (by simp)
    simp only [Nat.zero_add, List.length_append, List.length_singleton] at this
    rw [this]
    simp
  refine ⟨(Buf.store out 0 (bytes ++ [PROMPT])).write bytes.length 0, ?_, read_store_write out bytes [PROMPT]⟩
  have hbrk : 0 < bytes.length + 1 ∧ Buf.store out 0 (bytes ++ [PROMPT]) (bytes.length + 1 - 1) = PROMPT :=
    ⟨by omega, hlast⟩
  simp only [Nat.add_sub_cancel] at hbrk
  simp only [read_response, hloop, Nat.add_one_ne_zero, if_false, Nat.add_sub_cancel]
  rw [if_pos hbrk, to_int_of_lt _ (by omega)]

theorem reply_ends_at_prompt_witness :
    ∃ out1, obd_send_cmd_and_read 100 3 world_two_chunks (some [48, 49, 48, 67])
        (some (fun _ => 255)) 512 3000 = some ⟨10, some out1, world_two_chunks_read⟩ ∧
      out1.read 11 = [52, 49, 32, 48, 67, 32, 48, 66, 66, 56, 0] :=
  reply_ends_at_prompt 100 world_two_chunks world_two_chunks_sent world_two_chunks_read
    [48, 49, 48, 67] (fun _ => 255) 512 3000 2800 [[52, 49, 32, 48, 67, 32, 48, 66]] [66, 56]
    (by decide) (by decide) (by decide) (by decide) (by decide) (by decide) (by decide) (by decide)
    (by decide) 3 (by decide)

/-- C2 (amended). A reply longer than the buffer: when the chunks hold no NUL,
more than `out_sz - 1` bytes come before their first prompt and the chunks
needed to fill the buffer are dequeued within the timeout, a call that passes
its checks and sends its command returns `out_sz - 1` and leaves the first
`out_sz - 1` bytes followed by NUL in `out`; the world is the one after the
needed chunks were dequeued, each of which was dequeued with the buffer not yet
full. -/
theorem reply_truncated (hz : Nat) (w w1 w2 : World) (cmd : List Nat) (out : Buf)
    (out_sz : Nat) (timeout_ms rem : Int) (cs : List (List Nat))
    (hsz : 1 ≤ out_sz) (hint : out_sz ≤ 2 ^ 31)
    (hconn : w.s_connected = true) (hhandle : w.s_spp_handle ≠ 0)
    (hsend : send_cmd w cmd = (true, w1))
    (hnul : ∀ c ∈ cs, ∀ b ∈ c, b ≠ 0)
    (hmore : out_sz - 1 < (cs.flatten.takeWhile (fun b => b ≠ PROMPT)).length)
    (hdq : dequeue_all hz timeout_ms (xTaskGetTickCount w1)
      (cs.take (chunks_needed (out_sz - 1) cs)) timeout_ms w1 = some (rem, w2)) :
    ∀ fuel, chunks_needed (out_sz - 1) cs + 1 ≤ fuel →
      ∃ out1, obd_send_cmd_and_read hz fuel w (some cmd) (some out) out_sz timeout_ms =
          some ⟨((out_sz - 1 : Nat) : Int), some out1, w2⟩ ∧
        out1.read out_sz = cs.flatten.take (out_sz - 1) ++ [0] ∧
        ∀ j, j < chunks_needed (out_sz - 1) cs → (cs.take j).flatten.length < out_sz - 1 := by
  intro fuel hfuel
  have htwle : (cs.flatten.takeWhile (fun b => b ≠ PROMPT)).length ≤ cs.flatten.length :=
    (List.takeWhile_sublist _).length_le
  have hstop : PROMPT ∈ cs.flatten ∨ out_sz - 1 - 0 ≤ cs.flatten.length := Or.inr (by omega)
  have hloop := read_loop_stops hz timeout_ms (xTaskGetTickCount w1) out_sz cs timeout_ms 0 out w1
    (rem, w2) hnul (by simp) hstop hdq fuel hfuel
  obtain ⟨ht1, ht2⟩ := take_upto_prompt cs.flatten (out_sz - 1) (by omega)
  simp only [Nat.sub_zero, Nat.zero_add] at hloop
  rw [obd_send_cmd_and_read_sent hz fuel w w1 cmd out out_sz timeout_ms (by omega) hconn hhandle hsend]
  have hmin : ∀ j, j < chunks_needed (out_sz - 1) cs → (cs.take j).flatten.length < out_sz - 1 :=
    fun j hj => (chunks_needed_minimal cs (out_sz - 1) j hj).2
  rw [← ht2]
  generalize ht : (upto_prompt cs.flatten).take (out_sz - 1) = t at *
  have hlen : t.length = out_sz - 1 := by
    rw [ht2, List.length_take]
    omega
  have hnp : ∀ b ∈ t, b ≠ PROMPT := by
    intro b hb
    rw [ht1] at hb
    have := List.mem_takeWhile_imp (List.mem_of_mem_take hb)
    simpa using this
  have hread : ((Buf.store out 0 t).write t.length 0).read out_sz = t ++ [0] := by
    have := read_store_write out t []
    rw [List.append_nil] at this
    have e : out_sz = t.length + 1 := by omega
    rw [e]
    exact this
  refine ⟨(Buf.store out 0 t).write t.length 0, ?_, hread, hmin⟩
  simp only [read_response, hloop]
  by_cases h0 : t.length = 0
  · simp only [if_pos h0, ← hlen, h0]
    rfl
  · have hbrk : ¬ (0 < t.length ∧ Buf.store out 0 t (t.length - 1) = PROMPT) := by
      intro h
      have hl := store_last out 0 t h.1
      rw [Nat.zero_add] at hl
      rw [hl, List.getD_eq_getElem t 0 (by omega)] at h
      exact hnp _ (List.getElem_mem _) h.2
    rw [if_neg h0, if_neg hbrk, to_int_of_lt _ (by omega), hlen]

theorem reply_truncated_witness :
    ∃ out1, obd_send_cmd_and_read 100 2 world_two_chunks (some [48, 49, 48, 67])
          (some (fun _ => 255)) 5 3000 =
          some ⟨((5 - 1 : Nat) : Int), some out1, world_two_chunks_first_read⟩ ∧
        out1.read 5 = ([[52, 49, 32, 48, 67, 32, 48, 66], [66, 56, 62]] : List (List Nat)).flatten.take
          (5 - 1) ++ [0] ∧
        ∀ j, j < chunks_needed (5 - 1) [[52, 49, 32, 48, 67, 32, 48, 66], [66, 56, 62]] →
          (([[52, 49, 32, 48, 67, 32, 48, 66], [66, 56, 62]] : List (List Nat)).take j).flatten.length
            < 5 - 1 :=
  reply_truncated 100 world_two_chunks world_two_chunks_sent world_two_chunks_first_read
    [48, 49, 48, 67] (fun _ => 255) 5 3000 3000 [[52, 49, 32, 48, 67, 32, 48, 66], [66, 56, 62]]
    (by decide) (by decide) (by decide) (by decide) (by decide) (by decide) (by decide) (by decide)
    2 (by decide)

/-- C2, as stated, fails on a chunk with an embedded NUL: with `out_sz = 3` and
the only chunk `65, 0, 66, 67` (four bytes, more than `out_sz - 1 = 2`), the
call returns 1, not 2, and the buffer holds the one byte 65 followed by NUL. -/
theorem reply_truncated_counterexample :
    (obd_send_cmd_and_read 100 4 world_nul_chunk (some [48, 49, 48, 67])
        (some (fun _ => 255)) 3 3000).map
      (fun r => (r.ret, r.out.map (fun o => o.read 3), r.world.s_rx_queue)) =
      some (1, some [65, 0, 255], some ⟨16, []⟩) := by
  decide

/-- C3. No data: when the queue is empty and no chunk is delivered during the
call, so that every pop times out and the clock advances by the wait, a call
with a timeout `T > 0` that passes its checks and sends its command returns
with enough fuel (`T + 1` iterations suffice), returns 0, the value for no data
(the error value is -1), and leaves the empty string in `out`. -/
theorem no_data_returns_zero (hz : Nat) (w w1 : World) (cmd : List Nat) (out : Buf)
    (out_sz : Nat) (timeout_ms : Int) (q : Queue)
    (h1 : 1 ≤ hz) (h2 : hz ≤ 1000) (hT : 0 < timeout_ms) (hT2 : timeout_ms < 2 ^ 31)
    (hsz : 1 ≤ out_sz) (hconn : w.s_connected = true) (hhandle : w.s_spp_handle ≠ 0)
    (hsend : send_cmd w cmd = (true, w1)) (htick : w.tick < WORD)
    (hq : w.s_rx_queue = some q) (hitems : q.items = []) (hfeed : w.feed = []) :
    ∀ fuel, timeout_ms.toNat + 1 ≤ fuel →
      ∃ w2, obd_send_cmd_and_read hz fuel w (some cmd) (some out) out_sz timeout_ms =
          some ⟨0, some (out.write 0 0), w2⟩ ∧ (out.write 0 0) 0 = 0 := by
  intro fuel hfuel
  obtain ⟨_, _, hq1, ht1, hf1⟩ := send_cmd_frame w w1 cmd true hsend
  rw [obd_send_cmd_and_read_sent hz fuel w w1 cmd out out_sz timeout_ms (by omega) hconn hhandle hsend]
  have hidle := read_loop_idle hz timeout_ms (xTaskGetTickCount w1) out_sz out q h1 h2 hT2
    (by rw [xTaskGetTickCount, ht1]; exact htick) hitems timeout_ms.toNat 0 w1 (by rw [hq1, hq])
    (by rw [hf1, hfeed])
    (by rw [xTaskGetTickCount, Nat.add_zero, Nat.mod_eq_of_lt]; rw [ht1]; exact htick)
    (by simp only [Nat.zero_mul]; omega) fuel hfuel
  simp only [Nat.zero_mul, Int.ofNat_zero, sub_zero, Nat.cast_zero] at hidle
  obtain ⟨w2, hloop, _⟩ := hidle
  refine ⟨w2, ?_, by simp [Buf.write]⟩
  simp only [read_response, hloop, if_true]

theorem no_data_returns_zero_witness :
    ∃ w2, obd_send_cmd_and_read 100 3001 world_silent (some [48, 49, 48, 67])
        (some (fun _ => 255)) 512 3000 =
          some ⟨0, some (Buf.write (fun _ => 255) 0 0), w2⟩ ∧
        (Buf.write (fun _ => 255) 0 0) 0 = 0 :=
  no_data_returns_zero 100 world_silent
    { world_silent with link_ops := [LinkOp.spp_write 7 5 [48, 49, 48, 67, 13]] }
    [48, 49, 48, 67] (fun _ => 255) 512 3000 ⟨16, []⟩
    (by decide) (by decide) (by decide) (by decide) (by decide) (by decide) (by decide) (by decide)
    (by decide) (by decide) (by decide) (by decide) 3001 (by decide)

/-- C4. The reply buffer on return: for every command, buffer size (a `size_t`),
timeout, world and fuel, when `obd_send_cmd_and_read` returns a value `n` that
is not negative, then `n <= out_sz - 1`, `out[n]` is NUL, none of
`out[0..n-1]` is NUL, so that `n` is the length of the string left in `out`,
and no cell at an index `>= out_sz` differs from what it held before. -/
theorem reply_buffer_terminated (hz fuel : Nat) (w : World) (cmd : Option (List Nat)) (out : Buf)
    (out_sz : Nat) (timeout_ms : Int) (r : Reply) (hsz : out_sz ≤ WORD)
    (hcall : obd_send_cmd_and_read hz fuel w cmd (some out) out_sz timeout_ms = some r)
    (hret : 0 ≤ r.ret) :
    ∃ (out1 : Buf) (n : Nat), r.out = some out1 ∧ r.ret = (n : Int) ∧ n ≤ out_sz - 1 ∧ out1 n = 0 ∧
      (∀ i, i < n → out1 i ≠ 0) ∧ (∀ i, out_sz ≤ i → out1 i = out i) := by
  cases cmd with
  | none =>
    simp only [obd_send_cmd_and_read, Option.some.injEq] at hcall
    subst hcall
    simp at hret
  | some c =>
    simp only [obd_send_cmd_and_read] at hcall
    split at hcall
    · simp only [Option.some.injEq] at hcall
      subst hcall
      simp at hret
    · rename_i hsz0
      split at hcall
      · simp only [Option.some.injEq] at hcall
        subst hcall
        simp at hret
      · split at hcall
        · simp only [Option.some.injEq] at hcall
          subst hcall
          simp at hret
        · rename_i w1 hsend
          exact read_response_inv hz fuel w1 out out_sz timeout_ms r (by omega) hsz hcall hret

theorem reply_buffer_terminated_witness :
    ∃ (out1 : Buf) (n : Nat), (some (Buf.write (Buf.store (fun _ => 255) 0
        [52, 49, 32, 48, 67, 32, 48, 66, 66, 56, 62]) 10 0) : Option Buf) = some out1 ∧
      (10 : Int) = (n : Int) ∧ n ≤ 512 - 1 ∧ out1 n = 0 ∧
      (∀ i, i < n → out1 i ≠ 0) ∧ (∀ i, 512 ≤ i → out1 i = (fun _ => 255) i) :=
  reply_buffer_terminated 100 3 world_two_chunks (some [48, 49, 48, 67]) (fun _ => 255) 512 3000
    ⟨10, some (Buf.write (Buf.store (fun _ => 255) 0
        [52, 49, 32, 48, 67, 32, 48, 66, 66, 56, 62]) 10 0), world_two_chunks_read⟩
    (by decide) (by rfl) (by decide)

/-- C5 (amended). The queue was never created: a call that passes its checks
and sends its command finds `s_rx_queue` NULL, leaves the loop at once and
returns 0, the value for no data, with the empty string in `out`; it does not
return -1. -/
theorem null_queue_returns_zero (hz : Nat) (w w1 : World) (cmd : List Nat) (out : Buf)
    (out_sz : Nat) (timeout_ms : Int) (hsz : 1 ≤ out_sz) (hconn : w.s_connected = true)
    (hhandle : w.s_spp_handle ≠ 0) (hsend : send_cmd w cmd = (true, w1))
    (hq : w.s_rx_queue = none) :
    ∀ fuel, 1 ≤ fuel →
      obd_send_cmd_and_read hz fuel w (some cmd) (some out) out_sz timeout_ms =
        some ⟨0, some (out.write 0 0), w1⟩ := by
  intro fuel hfuel
  obtain ⟨f, rfl⟩ : ∃ f, fuel = f + 1 := ⟨fuel - 1, by omega⟩
  obtain ⟨_, _, hq1, _, _⟩ := send_cmd_frame w w1 cmd true hsend
  rw [obd_send_cmd_and_read_sent hz _ w w1 cmd out out_sz timeout_ms (by omega) hconn hhandle hsend]
  have hloop : read_loop hz timeout_ms (xTaskGetTickCount w1) out_sz (f + 1) timeout_ms 0 out w1 =
      some (0, out, w1) := by
    simp only [read_loop, hq1, hq]
    split <;> rfl
  simp only [read_response, hloop, if_true]

theorem null_queue_returns_zero_witness :
    obd_send_cmd_and_read 100 1 world_no_queue (some [48, 49, 48, 67]) (some (fun _ => 255)) 512 3000 =
      some ⟨0, some (Buf.write (fun _ => 255) 0 0),
        { world_no_queue with link_ops := [LinkOp.spp_write 7 5 [48, 49, 48, 67, 13]] }⟩ :=
  null_queue_returns_zero 100 world_no_queue
    { world_no_queue with link_ops := [LinkOp.spp_write 7 5 [48, 49, 48, 67, 13]] }
    [48, 49, 48, 67] (fun _ => 255) 512 3000 (by decide) (by decide) (by decide) (by decide)
    (by decide) 1 (by decide)

/-- C5, as stated, fails: with `s_rx_queue` NULL, arguments valid, the link
connected, the write successful and a timeout of 3000 ms, the call returns 0,
the same value as for no data, and not -1. -/
theorem null_queue_counterexample :
    (obd_send_cmd_and_read 100 5 world_no_queue (some [48, 49, 48, 67])
        (some (fun _ => 255)) 512 3000).map (fun r => r.ret) = some 0 ∧
      world_no_queue.s_rx_queue = none := by
  decide

/-- C6. The checks of a command session: when `cmd` is NULL, `out` is NULL,
`out_sz` is 0 or the link is not connected (`s_connected` false or
`s_spp_handle` 0), the call returns -1 and leaves the buffer and the whole
world as they were: nothing is written to the link, no chunk leaves the queue
and the link state is unchanged. -/
theorem rejected_call_has_no_effect (hz fuel : Nat) (w : World) (cmd : Option (List Nat))
    (out : Option Buf) (out_sz : Nat) (timeout_ms : Int)
    (h : cmd = none ∨ out = none ∨ out_sz = 0 ∨ w.s_connected = false ∨ w.s_spp_handle = 0) :
    obd_send_cmd_and_read hz fuel w cmd out out_sz timeout_ms = some ⟨-1, out, w⟩ := by
  cases cmd with
  | none => simp [obd_send_cmd_and_read]
  | some c =>
    cases out with
    | none => simp [obd_send_cmd_and_read]
    | some o =>
      simp only [false_or, reduceCtorEq] at h
      simp only [obd_send_cmd_and_read]
      by_cases h0 : out_sz = 0
      · rw [if_pos h0]
      · rw [if_neg h0]
        have h1 : w.s_connected = false ∨ w.s_spp_handle = 0 := by
          rcases h with h | h
          · exact absurd h h0
          · exact h
        rw [if_pos h1]

theorem rejected_call_has_no_effect_witness :
    obd_send_cmd_and_read 100 5 { world_two_chunks with s_connected := false, s_spp_handle := 0 }
        (some [48, 49, 48, 67]) (some (fun _ => 255)) 512 3000 =
      some ⟨-1, some (fun _ => 255), { world_two_chunks with s_connected := false, s_spp_handle := 0 }⟩ :=
  rejected_call_has_no_effect 100 5 { world_two_chunks with s_connected := false, s_spp_handle := 0 }
    (some [48, 49, 48, 67]) (some (fun _ => 255)) 512 3000 (Or.inr (Or.inr (Or.inr (Or.inl rfl))))

/-- C7 (amended). The wire format of a command: for every command `cmd`, a call
that passes its argument and link checks and gets its send buffer from
`pvPortMalloc` makes one `esp_spp_write`, on the current handle, of the bytes
of `cmd` followed by one CR, `strlen(cmd) + 1` bytes (the NUL after the CR is
not sent); whatever the call then returns, the log of link operations holds
this one write more and nothing else. When `pvPortMalloc` returns NULL instead,
in any world `v` that passes the same checks, the call returns -1 with the
buffer untouched and without any write: the log of link operations is as it
was. -/
theorem command_written_once (hz fuel : Nat) (w w0 : World) (cmd : List Nat) (out : Buf)
    (out_sz : Nat) (timeout_ms : Int) (hsz : out_sz ≠ 0) (hconn : w.s_connected = true)
    (hhandle : w.s_spp_handle ≠ 0) (hmalloc : pvPortMalloc w = (true, w0)) :
    (∃ b w1, send_cmd w cmd = (b, w1) ∧
      w1.link_ops = w.link_ops ++ [LinkOp.spp_write w.s_spp_handle (cmd.length + 1) (cmd ++ [CR])]) ∧
    (∀ r, obd_send_cmd_and_read hz fuel w (some cmd) (some out) out_sz timeout_ms = some r →
      r.world.link_ops =
        w.link_ops ++ [LinkOp.spp_write w.s_spp_handle (cmd.length + 1) (cmd ++ [CR])]) ∧
    ∀ v v0 : World, v.s_connected = true → v.s_spp_handle ≠ 0 → pvPortMalloc v = (false, v0) →
      obd_send_cmd_and_read hz fuel v (some cmd) (some out) out_sz timeout_ms =
          some ⟨-1, some out, v0⟩ ∧
        v0.link_ops = v.link_ops := by
  have hs := send_cmd_writes w w0 cmd hmalloc
  refine ⟨hs, ?_, ?_⟩
  · obtain ⟨b, w1, hsend, hops⟩ := hs
    intro r hr
    have h : ¬ (w.s_connected = false ∨ w.s_spp_handle = 0) := by
      simp [hconn, hhandle]
    simp only [obd_send_cmd_and_read, if_neg hsz, if_neg h, hsend] at hr
    cases b with
    | false =>
      simp only [Option.some.injEq] at hr
      subst hr
      exact hops
    | true =>
      simp only at hr
      rw [(read_response_frame hz fuel w1 out out_sz timeout_ms r hr).1]
      exact hops
  · intro v v0 hvc hvh hvm
    have h : ¬ (v.s_connected = false ∨ v.s_spp_handle = 0) := by
      simp [hvc, hvh]
    refine ⟨?_, (pvPortMalloc_frame v v0 false hvm).2.2.2.2.2.2⟩
    simp only [obd_send_cmd_and_read, if_neg hsz, if_neg h, send_cmd, hvm]

theorem command_written_once_witness :
    (∃ b w1, send_cmd world_two_chunks [48, 49, 48, 67] = (b, w1) ∧
      w1.link_ops = world_two_chunks.link_ops ++
        [LinkOp.spp_write world_two_chunks.s_spp_handle (([48, 49, 48, 67] : List Nat).length + 1)
          ([48, 49, 48, 67] ++ [CR])]) ∧
    (∀ r, obd_send_cmd_and_read 100 3 world_two_chunks (some [48, 49, 48, 67])
        (some (fun _ => 255)) 512 3000 = some r →
      r.world.link_ops = world_two_chunks.link_ops ++
        [LinkOp.spp_write world_two_chunks.s_spp_handle (([48, 49, 48, 67] : List Nat).length + 1)
          ([48, 49, 48, 67] ++ [CR])]) ∧
    ∀ v v0 : World, v.s_connected = true → v.s_spp_handle ≠ 0 → pvPortMalloc v = (false, v0) →
      obd_send_cmd_and_read 100 3 v (some [48, 49, 48, 67]) (some (fun _ => 255)) 512 3000 =
          some ⟨-1, some (fun _ => 255), v0⟩ ∧
        v0.link_ops = v.link_ops :=
  command_written_once 100 3 world_two_chunks world_two_chunks [48, 49, 48, 67] (fun _ => 255)
    512 3000 (by decide) (by decide) (by decide) (by decide)

/-- C7, as stated, fails when `pvPortMalloc` returns NULL: the call passes its
argument and link checks, returns -1 and makes no write at all. -/
theorem command_written_once_counterexample :
    (obd_send_cmd_and_read 100 5 world_heap_full (some [48, 49, 48, 67])
        (some (fun _ => 255)) 512 3000).map (fun r => (r.ret, r.world.link_ops)) =
      some (-1, []) ∧
    world_heap_full.s_connected = true ∧ world_heap_full.s_spp_handle ≠ 0 := by
  decide

/-- C8. A failed write: when `esp_spp_write` answers with a value other than
`ESP_OK`, the call returns -1 whatever the fuel of the reading loop, which is
not run: the buffer is as it was, and the queue, the chunks to come and the
clock are unchanged. -/
theorem write_failure_skips_reader (hz fuel : Nat) (w w0 : World) (cmd : List Nat) (out : Buf)
    (out_sz : Nat) (timeout_ms : Int) (err : Int) (rest : List Int)
    (hsz : out_sz ≠ 0) (hconn : w.s_connected = true) (hhandle : w.s_spp_handle ≠ 0)
    (hmalloc : pvPortMalloc w = (true, w0)) (hret : w.spp_write_ret = err :: rest)
    (herr : err ≠ ESP_OK) :
    ∃ w1, obd_send_cmd_and_read hz fuel w (some cmd) (some out) out_sz timeout_ms =
        some ⟨-1, some out, w1⟩ ∧
      w1.s_rx_queue = w.s_rx_queue ∧ w1.feed = w.feed ∧ w1.tick = w.tick := by
  obtain ⟨_, _, f3, f4, f5, f6, _⟩ := pvPortMalloc_frame w w0 true hmalloc
  have h : ¬ (w.s_connected = false ∨ w.s_spp_handle = 0) := by
    simp [hconn, hhandle]
  have hd : decide (err = ESP_OK) = false := by simpa using herr
  refine ⟨{ w0 with
    link_ops := w0.link_ops ++
      [LinkOp.spp_write w0.s_spp_handle (cmd.length + 1) ((cmd ++ [CR, 0]).take (cmd.length + 1))]
    spp_write_ret := rest }, ?_, f3, f5, f4⟩
  simp only [obd_send_cmd_and_read, if_neg hsz, if_neg h, send_cmd, hmalloc, esp_spp_write,
    f6, hret, hd]

theorem write_failure_skips_reader_witness :
    ∃ w1, obd_send_cmd_and_read 100 0 world_write_fails (some [48, 49, 48, 67])
        (some (fun _ => 255)) 512 3000 = some ⟨-1, some (fun _ => 255), w1⟩ ∧
      w1.s_rx_queue = world_write_fails.s_rx_queue ∧ w1.feed = world_write_fails.feed ∧
      w1.tick = world_write_fails.tick :=
  write_failure_skips_reader 100 0 world_write_fails world_write_fails [48, 49, 48, 67]
    (fun _ => 255) 512 3000 (-1) [] (by decide) (by decide) (by decide) (by decide) (by decide)
    (by decide)

/-- C9. The RPM formula on a reply with separated bytes: for all bytes `a` and
`b`, spelled by the hexadecimal digits `x1 x2` and `y1 y2` in either letter
case, and every reply `pre ++ "41 0C x1x2 y1y2" ++ suf` in which `pre` does not
hold `41 0C` and `suf` is empty or starts with a character that is no
hexadecimal digit, `parse_pid_rpm` returns `((a << 8) | b) / 4`, a value
between 0 and 16383. -/
theorem rpm_of_separated_reply (pre suf : List Nat) (x1 x2 y1 y2 a b : Nat)
    (ha : hex_byte x1 x2 = some a) (hb : hex_byte y1 y2 = some b)
    (hpre : ¬ cstr "41 0C" <:+: pre) (hsuf : ends_number suf) :
    parse_pid_rpm (some (pre ++ (cstr "41 0C" ++ ([32, x1, x2, 32, y1, y2] ++ suf)))) =
        (((a <<< 8 ||| b) / 4 : Nat) : Int) ∧
      (a <<< 8 ||| b) / 4 ≤ 16383 := by
  obtain ⟨_, _, _, _, _, ha2⟩ := hex_byte_some x1 x2 a ha
  obtain ⟨_, _, _, _, _, hb2⟩ := hex_byte_some y1 y2 b hb
  obtain ⟨hf, hbound⟩ := rpm_formula_bytes a b ha2 hb2
  refine ⟨?_, hbound⟩
  rw [parse_pid_rpm_found _ _ (a : Int) (b : Int) (strstr_token pre _ hpre)
    (sscanf_separated x1 x2 y1 y2 a b suf ha hb hsuf)]
  exact hf

theorem rpm_of_separated_reply_witness :
    parse_pid_rpm (some (cstr "SEARCHING...\r" ++ (cstr "41 0C" ++
        ([32, 48, 66, 32, 66, 56] ++ cstr "\r\r")))) = (((11 <<< 8 ||| 184) / 4 : Nat) : Int) ∧
      (11 <<< 8 ||| 184) / 4 ≤ 16383 :=
  rpm_of_separated_reply (cstr "SEARCHING...\r") (cstr "\r\r") 48 66 66 56 11 184
    (by decide) (by decide) (by decide) (Or.inr ⟨13, [13], by decide, by decide⟩)

/-- C10 (amended). The spellings the decoder accepts: after the token `41 0C`
the two data bytes may be spelled in either letter case; for all bytes `a` and
`b` and any two spellings of them, `x1 x2`, `y1 y2` and `u1 u2`, `v1 v2`, the
replies `41 0C x1x2 y1y2` and `41 0C u1u2 v1v2` decode to the same value
`((a << 8) | b) / 4`, which is 750 for `41 0C 0B B8` and `41 0C 0b b8`. The
token itself is matched as written: `41 0c 0b b8` gives -1. -/
theorem rpm_same_for_letter_cases (x1 x2 y1 y2 u1 u2 v1 v2 a b : Nat)
    (ha : hex_byte x1 x2 = some a) (hb : hex_byte y1 y2 = some b)
    (hc : hex_byte u1 u2 = some a) (hd : hex_byte v1 v2 = some b) :
    parse_pid_rpm (some (cstr "41 0C" ++ [32, x1, x2, 32, y1, y2])) =
        (((a <<< 8 ||| b) / 4 : Nat) : Int) ∧
      parse_pid_rpm (some (cstr "41 0C" ++ [32, u1, u2, 32, v1, v2])) =
        (((a <<< 8 ||| b) / 4 : Nat) : Int) ∧
      parse_pid_rpm (some (cstr "41 0C 0B B8")) = 750 ∧
      parse_pid_rpm (some (cstr "41 0C 0b b8")) = 750 ∧
      parse_pid_rpm (some (cstr "41 0c 0b b8")) = -1 := by
  obtain ⟨_, _, _, _, _, ha2⟩ := hex_byte_some x1 x2 a ha
  obtain ⟨_, _, _, _, _, hb2⟩ := hex_byte_some y1 y2 b hb
  have hf := (rpm_formula_bytes a b ha2 hb2).1
  have hfind : ∀ tail : List Nat,
      strstr (cstr "41 0C" ++ tail) (cstr "41 0C") = some (cstr "41 0C" ++ tail) := by
    intro tail
    have := strstr_token [] tail (by rw [token_bytes]; simp)
    simpa using this
  have h1 := sscanf_separated x1 x2 y1 y2 a b [] ha hb (Or.inl rfl)
  have h2 := sscanf_separated u1 u2 v1 v2 a b [] hc hd (Or.inl rfl)
  rw [List.append_nil] at h1 h2
  refine ⟨?_, ?_, by decide, by decide, by decide⟩
  · rw [parse_pid_rpm_found _ _ (a : Int) (b : Int) (hfind _) h1]
    exact hf
  · rw [parse_pid_rpm_found _ _ (a : Int) (b : Int) (hfind _) h2]
    exact hf

theorem rpm_same_for_letter_cases_witness :
    parse_pid_rpm (some (cstr "41 0C" ++ [32, 48, 66, 32, 66, 56])) =
        (((11 <<< 8 ||| 184) / 4 : Nat) : Int) ∧
      parse_pid_rpm (some (cstr "41 0C" ++ [32, 48, 98, 32, 98, 56])) =
        (((11 <<< 8 ||| 184) / 4 : Nat) : Int) ∧
      parse_pid_rpm (some (cstr "41 0C 0B B8")) = 750 ∧
      parse_pid_rpm (some (cstr "41 0C 0b b8")) = 750 ∧
      parse_pid_rpm (some (cstr "41 0c 0b b8")) = -1 :=
  rpm_same_for_letter_cases 48 66 66 56 48 98 98 56 11 184
    (by decide) (by decide) (by decide) (by decide)

/-- C10, as stated, fails on two of its own examples: the byte-concatenated
reply `410C0BB8` and the reply with a lower-case token `41 0c 0b b8` both give
-1, not 750, while `41 0C 0B B8` gives 750. -/
theorem rpm_spellings_counterexample :
    parse_pid_rpm (some (cstr "410C0BB8")) = -1 ∧
      parse_pid_rpm (some (cstr "41 0c 0b b8")) = -1 ∧
      parse_pid_rpm (some (cstr "41 0C 0B B8")) = 750 := by
  decide

/-- C12. The decoder returns -1 for a NULL payload, for a payload `plain` that
holds neither `41 0C` nor `410C`, and for a payload in which the token that
`strstr` finds is followed by a text `t` that does not start with two numbers
`%x` can convert. It is defined on every string (a function without fuel), and
every string either gets the result -1 or holds a token followed by two such
numbers. In the polling loop an exchange that did not fail and whose reply the
decoder refuses ends like one it decodes: the same sleep for the polling
interval on the world the exchange left, the connect branch taken or not as
before, only the outcome noted differs. -/
theorem decode_failure_is_minus_one (plain payload t : List Nat)
    (hno1 : ¬ cstr "41 0C" <:+: plain) (hno2 : ¬ cstr "410C" <:+: plain)
    (hfound : strstr payload (cstr "41 0C") = some (cstr "41 0C" ++ t) ∨
      (strstr payload (cstr "41 0C") = none ∧
        strstr payload (cstr "410C") = some (cstr "410C" ++ t)))
    (hbad : two_hex_values t = false) :
    parse_pid_rpm none = -1 ∧ parse_pid_rpm (some plain) = -1 ∧
      parse_pid_rpm (some payload) = -1 ∧
      (∀ p : List Nat, parse_pid_rpm (some p) = -1 ∨
        ∃ t, token_tail p = some t ∧ two_hex_values t = true) ∧
      (∀ (hz fuel : Nat) (w : World) (interval : Int) (reply : Buf) (tried : Bool) (r : Reply),
        obd_send_cmd_and_read hz fuel w (some (cstr "010C")) (some reply) 512 3000 = some r →
        0 ≤ r.ret →
        (∃ o, poll_exchange hz fuel w interval reply tried =
          some ⟨tried, o, r.out.getD reply, vTaskDelay r.world (pdMS_TO_TICKS hz interval)⟩) ∧
        (parse_pid_rpm (some (c_string (r.out.getD reply) 512)) = -1 →
          poll_exchange hz fuel w interval reply tried =
            some ⟨tried, PollOutcome.decode_failed, r.out.getD reply,
              vTaskDelay r.world (pdMS_TO_TICKS hz interval)⟩)) := by
  refine ⟨rfl, parse_pid_rpm_no_token plain hno1 hno2, parse_pid_rpm_short payload t hfound hbad,
    parse_pid_rpm_cases, ?_⟩
  intro hz fuel w interval reply tried r hcall hret
  have h := poll_exchange_decoded hz fuel w interval reply tried r hcall hret
  refine ⟨⟨_, h⟩, ?_⟩
  intro hfail
  rw [h, hfail]
  rfl

theorem decode_failure_is_minus_one_witness :
    parse_pid_rpm none = -1 ∧ parse_pid_rpm (some (cstr "NO DATA")) = -1 ∧
      parse_pid_rpm (some (cstr "SEARCHING 41 0C 0B")) = -1 ∧
      (∀ p : List Nat, parse_pid_rpm (some p) = -1 ∨
        ∃ t, token_tail p = some t ∧ two_hex_values t = true) ∧
      (∀ (hz fuel : Nat) (w : World) (interval : Int) (reply : Buf) (tried : Bool) (r : Reply),
        obd_send_cmd_and_read hz fuel w (some (cstr "010C")) (some reply) 512 3000 = some r →
        0 ≤ r.ret →
        (∃ o, poll_exchange hz fuel w interval reply tried =
          some ⟨tried, o, r.out.getD reply, vTaskDelay r.world (pdMS_TO_TICKS hz interval)⟩) ∧
        (parse_pid_rpm (some (c_string (r.out.getD reply) 512)) = -1 →
          poll_exchange hz fuel w interval reply tried =
            some ⟨tried, PollOutcome.decode_failed, r.out.getD reply,
              vTaskDelay r.world (pdMS_TO_TICKS hz interval)⟩)) :=
  decode_failure_is_minus_one (cstr "NO DATA") (cstr "SEARCHING 41 0C 0B") (cstr " 0B")
    (by decide) (by decide) (Or.inl (by decide)) (by decide)

/-- C13. On the queue `obd_bt_init` created, after any sequence `ops` of
deliveries and pops: the queue has capacity 16 and holds at most 16 items; the
items popped so far followed by the items still queued are packets delivered,
in the order of their arrival; a delivery that finds 16 items queued leaves the
queue and the clock as they are (the callback does not wait and the packet is
dropped). After 17 deliveries whose buffers were all allocated and no pop,
17 pops receive the packets of chunks 1..16 in the original order and nothing
of chunk 17, and the queue is empty. A chunk whose buffer cannot be allocated
is dropped by the callback in any world `v`, whatever its queue holds: the
world is the one the failed allocation left, the queue and the clock as they
were. -/
theorem queue_bounded_drop_newest (w0 w : World) (ret : Int) (ops : List QueueOp)
    (hinit : obd_bt_init w0 = (ret, w)) (hnone : w0.s_rx_queue = none)
    (hq : w.s_rx_queue ≠ none) :
    (∃ items kept, (queue_run ops w).2.s_rx_queue = some ⟨16, items⟩ ∧ items.length ≤ 16 ∧
      kept.Sublist (delivered ops) ∧ (queue_run ops w).1 ++ items = kept) ∧
    (∀ data, (queue_items (queue_run ops w).2).length = 16 →
      (esp_spp_cb (queue_run ops w).2 (SppEvent.ESP_SPP_DATA_IND_EVT data)).s_rx_queue =
          (queue_run ops w).2.s_rx_queue ∧
        (esp_spp_cb (queue_run ops w).2 (SppEvent.ESP_SPP_DATA_IND_EVT data)).tick =
          (queue_run ops w).2.tick) ∧
    (∀ ds : List (List Nat), ds.length = 17 → (∀ b ∈ w.heap, b = true) →
      (queue_run (ds.map QueueOp.deliver ++ List.replicate 17 QueueOp.pop) w).1 =
          (ds.take 16).map packet ∧
        queue_items (queue_run (ds.map QueueOp.deliver ++ List.replicate 17 QueueOp.pop) w).2 =
          []) ∧
    (∀ (v : World) (data : List Nat), (pvPortMalloc v).1 = false →
      esp_spp_cb v (SppEvent.ESP_SPP_DATA_IND_EVT data) = (pvPortMalloc v).2 ∧
        (esp_spp_cb v (SppEvent.ESP_SPP_DATA_IND_EVT data)).s_rx_queue = v.s_rx_queue ∧
        (esp_spp_cb v (SppEvent.ESP_SPP_DATA_IND_EVT data)).tick = v.tick) := by
  have hw := obd_bt_init_queue w0 w ret hinit hnone hq
  obtain ⟨items, kept, h1, h2, h3, h4⟩ := queue_run_inv ops w 16 [] hw (by simp)
  refine ⟨⟨items, kept, h1, h2, h3, by simpa using h4⟩, ?_, ?_, esp_spp_cb_data_refused⟩
  · intro data hfull
    simp only [queue_items, h1] at hfull
    obtain ⟨_, e2, e3⟩ := esp_spp_cb_data_full (queue_run ops w).2 ⟨16, items⟩ data h1
      (by simp only [hfull]; exact Nat.le_refl _)
    exact ⟨e2.trans h1.symm, e3⟩
  · intro ds hlen hheap
    obtain ⟨d1, d2⟩ := deliver_all ds w 16 [] hw hheap
    simp only [List.nil_append, List.length_nil, Nat.sub_zero] at d2
    obtain ⟨p1, p2⟩ := pop_all 17 (queue_run (ds.map QueueOp.deliver) w).2 16 _ d2
    rw [queue_run_append]
    simp only [d1, List.nil_append, p1, queue_items, p2]
    have hl : ((ds.map packet).take 16).length = 16 := by
      simp only [List.length_take, List.length_map, hlen]
      rfl
    constructor
    · rw [List.take_of_length_le (by omega), List.map_take]
    · rw [List.drop_of_length_le (by omega)]

theorem queue_bounded_drop_newest_witness :
    (∃ items kept,
      (queue_run [QueueOp.deliver [52, 49], QueueOp.pop, QueueOp.pop, QueueOp.deliver [62]]
          (obd_bt_init world_boot).2).2.s_rx_queue = some ⟨16, items⟩ ∧ items.length ≤ 16 ∧
      kept.Sublist
        (delivered [QueueOp.deliver [52, 49], QueueOp.pop, QueueOp.pop, QueueOp.deliver [62]]) ∧
      (queue_run [QueueOp.deliver [52, 49], QueueOp.pop, QueueOp.pop, QueueOp.deliver [62]]
          (obd_bt_init world_boot).2).1 ++ items = kept) ∧
    (∀ data,
      (queue_items
        (queue_run [QueueOp.deliver [52, 49], QueueOp.pop, QueueOp.pop, QueueOp.deliver [62]]
          (obd_bt_init world_boot).2).2).length = 16 →
      (esp_spp_cb
          (queue_run [QueueOp.deliver [52, 49], QueueOp.pop, QueueOp.pop, QueueOp.deliver [62]]
            (obd_bt_init world_boot).2).2 (SppEvent.ESP_SPP_DATA_IND_EVT data)).s_rx_queue =
          (queue_run [QueueOp.deliver [52, 49], QueueOp.pop, QueueOp.pop, QueueOp.deliver [62]]
            (obd_bt_init world_boot).2).2.s_rx_queue ∧
        (esp_spp_cb
          (queue_run [QueueOp.deliver [52, 49], QueueOp.pop, QueueOp.pop, QueueOp.deliver [62]]
            (obd_bt_init world_boot).2).2 (SppEvent.ESP_SPP_DATA_IND_EVT data)).tick =
          (queue_run [QueueOp.deliver [52, 49], QueueOp.pop, QueueOp.pop, QueueOp.deliver [62]]
            (obd_bt_init world_boot).2).2.tick) ∧
    (∀ ds : List (List Nat), ds.length = 17 → (∀ b ∈ (obd_bt_init world_boot).2.heap, b = true) →
      (queue_run (ds.map QueueOp.deliver ++ List.replicate 17 QueueOp.pop)
          (obd_bt_init world_boot).2).1 = (ds.take 16).map packet ∧
        queue_items (queue_run (ds.map QueueOp.deliver ++ List.replicate 17 QueueOp.pop)
          (obd_bt_init world_boot).2).2 = []) ∧
    (∀ (v : World) (data : List Nat), (pvPortMalloc v).1 = false →
      esp_spp_cb v (SppEvent.ESP_SPP_DATA_IND_EVT data) = (pvPortMalloc v).2 ∧
        (esp_spp_cb v (SppEvent.ESP_SPP_DATA_IND_EVT data)).s_rx_queue = v.s_rx_queue ∧
        (esp_spp_cb v (SppEvent.ESP_SPP_DATA_IND_EVT data)).tick = v.tick) :=
  queue_bounded_drop_newest world_boot (obd_bt_init world_boot).2 0
    [QueueOp.deliver [52, 49], QueueOp.pop, QueueOp.pop, QueueOp.deliver [62]] (by decide)
    (by decide) (by decide)

/-- C13, as stated, fails in its last part: when the buffer of chunk 1 cannot be
allocated the callback drops chunk 1, the 17 deliveries queue chunks 2..17, and
the pops receive chunk 17 (the chunks are the single bytes 65..81). -/
theorem queue_drop_counterexample :
    obd_bt_init world_boot_tight =
        (0, { world_boot with s_rx_queue := some ⟨16, []⟩, heap := [false] }) ∧
      (queue_run ((List.range 17).map (fun i => QueueOp.deliver [65 + i]) ++
          List.replicate 17 QueueOp.pop) (obd_bt_init world_boot_tight).2).1 =
        (List.range 16).map (fun i => packet [66 + i]) := by
  decide

/-- C14, for open events with a handle other than 0. In every state reached
from a state with `s_connected = false` and `s_spp_handle = 0` by callback
events (open with a nonzero handle, close, data and the others) and calls of
`obd_bt_connect`, `obd_bt_disconnect` and `obd_send_cmd_and_read`, the handle is
nonzero exactly when `s_connected` is true; and a close event takes any state
to `s_connected = false` with the handle 0. An open event with the handle 0
takes any state to `s_connected = true` with the handle 0. -/
theorem handle_present_iff_connected (hz fuel : Nat) (acts : List Action) (w w1 : World)
    (hconn : w.s_connected = false) (hhandle : w.s_spp_handle = 0)
    (hopen : 0 ∉ open_handles acts) (hrun : run hz fuel acts w = some w1) :
    (w1.s_spp_handle ≠ 0 ↔ w1.s_connected = true) ∧
      (∀ w2 : World, (esp_spp_cb w2 SppEvent.ESP_SPP_CLOSE_EVT).s_connected = false ∧
        (esp_spp_cb w2 SppEvent.ESP_SPP_CLOSE_EVT).s_spp_handle = 0) ∧
      ∀ w2 : World, (esp_spp_cb w2 (SppEvent.ESP_SPP_OPEN_EVT 0)).s_connected = true ∧
        (esp_spp_cb w2 (SppEvent.ESP_SPP_OPEN_EVT 0)).s_spp_handle = 0 := by
  have hinv : handle_iff_connected w := by
    unfold handle_iff_connected
    simp [hconn, hhandle]
  exact ⟨run_handle_iff_connected hz fuel acts w w1 hinv hopen hrun, fun w2 => ⟨rfl, rfl⟩,
    fun w2 => ⟨rfl, rfl⟩⟩

theorem handle_present_iff_connected_witness :
    (((run 100 3 (session_actions.take 4) world_boot).getD world_boot).s_spp_handle ≠ 0 ↔
        ((run 100 3 (session_actions.take 4) world_boot).getD world_boot).s_connected = true) ∧
      (∀ w2 : World, (esp_spp_cb w2 SppEvent.ESP_SPP_CLOSE_EVT).s_connected = false ∧
        (esp_spp_cb w2 SppEvent.ESP_SPP_CLOSE_EVT).s_spp_handle = 0) ∧
      ∀ w2 : World, (esp_spp_cb w2 (SppEvent.ESP_SPP_OPEN_EVT 0)).s_connected = true ∧
        (esp_spp_cb w2 (SppEvent.ESP_SPP_OPEN_EVT 0)).s_spp_handle = 0 :=
  handle_present_iff_connected 100 3 (session_actions.take 4) world_boot
    ((run 100 3 (session_actions.take 4) world_boot).getD world_boot) (by decide) (by decide)
    (by decide) (by decide)

/-- C14, as stated, fails: an open event with the handle value 0 leaves
`s_connected = true` with `s_spp_handle = 0`, a Connected state without a
handle, in which `obd_send_cmd_and_read` answers -1 without writing. -/
theorem handle_zero_counterexample :
    (run 100 3 [Action.event (SppEvent.ESP_SPP_OPEN_EVT 0)] world_boot).map
        (fun w => (w.s_connected, w.s_spp_handle)) = some (true, 0) ∧
      (run 100 3 [Action.event (SppEvent.ESP_SPP_OPEN_EVT 0),
          Action.send (some (cstr "010C")) (some (fun _ => 255)) 512 3000] world_boot).map
        (fun w => (w.s_connected, w.s_spp_handle, w.link_ops)) = some (true, 0, []) := by
  decide

/-- C15. For every address string that is not NULL, well formed or not, a call
of `obd_bt_connect` in the Connected state returns 0 and leaves the whole world
as it is: no `esp_spp_connect` or other link operation is logged, and
`s_connected` and `s_spp_handle` are unchanged. Two calls in a row are the same
as one. -/
theorem connect_when_connected (w : World) (mac : List Nat) (mac2 : List Nat)
    (hconn : w.s_connected = true) :
    obd_bt_connect w (some mac) = (0, w) ∧
      (obd_bt_connect w (some mac)).2.link_ops = w.link_ops ∧
      (obd_bt_connect w (some mac)).2.s_connected = w.s_connected ∧
      (obd_bt_connect w (some mac)).2.s_spp_handle = w.s_spp_handle ∧
      obd_bt_connect (obd_bt_connect w (some mac)).2 (some mac2) = obd_bt_connect w (some mac) := by
  have h : ∀ m : List Nat, obd_bt_connect w (some m) = (0, w) := by
    intro m
    simp only [obd_bt_connect, hconn, if_true]
  simp only [h, and_self]

theorem connect_when_connected_witness :
    obd_bt_connect world_linked (some (cstr "not an address")) = (0, world_linked) ∧
      (obd_bt_connect world_linked (some (cstr "not an address"))).2.link_ops =
        world_linked.link_ops ∧
      (obd_bt_connect world_linked (some (cstr "not an address"))).2.s_connected =
        world_linked.s_connected ∧
      (obd_bt_connect world_linked (some (cstr "not an address"))).2.s_spp_handle =
        world_linked.s_spp_handle ∧
      obd_bt_connect (obd_bt_connect world_linked (some (cstr "not an address"))).2
          (some (cstr "AA:BB:CC:DD:EE:FF")) =
        obd_bt_connect world_linked (some (cstr "not an address")) :=
  connect_when_connected world_linked (cstr "not an address") (cstr "AA:BB:CC:DD:EE:FF")
    (by decide)

/-- C16, with the link state decided by the provider's events. When
`obd_send_cmd_and_read` returns a negative value the iteration of the polling
loop calls `obd_bt_disconnect` and sleeps 1000 ms. The call of
`obd_bt_disconnect` requests `esp_spp_disconnect` on the handle when the state is
Connected with a nonzero handle and leaves `s_connected` as it is. The state
after the sleep is the one left by the events delivered during it: Disconnected
when the last open or close event among them is a close event (so when the
batch ends with one), or when there is none and the state was Disconnected. The
next iteration takes the connect branch when that state is Disconnected and
sends the command again without connecting when it is Connected. -/
theorem failed_exchange_requests_teardown (hz fuel : Nat) (w : World) (interval : Int)
    (reply : Buf) (tried : Bool) (r : Reply)
    (hcall : obd_send_cmd_and_read hz fuel w (some (cstr "010C")) (some reply) 512 3000 = some r)
    (hneg : r.ret < 0) :
    poll_exchange hz fuel w interval reply tried =
        some ⟨tried, PollOutcome.exchange_failed, r.out.getD reply,
          vTaskDelay (obd_bt_disconnect r.world) (pdMS_TO_TICKS hz 1000)⟩ ∧
      obd_bt_disconnect r.world =
        (if w.s_connected = true ∧ w.s_spp_handle ≠ 0 then
          { r.world with link_ops := r.world.link_ops ++ [LinkOp.spp_disconnect w.s_spp_handle] }
        else r.world) ∧
      obd_bt_is_connected (obd_bt_disconnect r.world) = obd_bt_is_connected w ∧
      obd_bt_is_connected (vTaskDelay (obd_bt_disconnect r.world) (pdMS_TO_TICKS hz 1000)) =
        link_after (obd_bt_is_connected w) (r.world.delay_events.headD []) ∧
      (∀ (c : Bool) (pre : List SppEvent),
        link_after c (pre ++ [SppEvent.ESP_SPP_CLOSE_EVT]) = false) ∧
      (∀ (mac : List Nat) (reply2 : Buf),
        obd_polling_iteration hz fuel
            (vTaskDelay (obd_bt_disconnect r.world) (pdMS_TO_TICKS hz 1000)) mac interval reply2 =
          if link_after (obd_bt_is_connected w) (r.world.delay_events.headD []) = false then
            connect_branch hz fuel
              (vTaskDelay (obd_bt_disconnect r.world) (pdMS_TO_TICKS hz 1000)) mac interval reply2
          else
            poll_exchange hz fuel
              (vTaskDelay (obd_bt_disconnect r.world) (pdMS_TO_TICKS hz 1000)) interval reply2
              false) := by
  obtain ⟨e1, e2⟩ := obd_send_cmd_and_read_link hz fuel w _ _ _ _ r hcall
  obtain ⟨d1, d2, _, _, d5⟩ := obd_bt_disconnect_link r.world
  have hstate : obd_bt_is_connected (vTaskDelay (obd_bt_disconnect r.world)
      (pdMS_TO_TICKS hz 1000)) =
        link_after (obd_bt_is_connected w) (r.world.delay_events.headD []) := by
    unfold obd_bt_is_connected
    rw [vTaskDelay_connected, d1, d5, e1]
  refine ⟨?_, ?_, ?_, hstate, link_after_close, ?_⟩
  · simp only [poll_exchange, hcall, if_pos hneg]
  · simp only [obd_bt_disconnect_eq, e1, e2]
  · unfold obd_bt_is_connected
    rw [d1, e1]
  · intro mac reply2
    rw [obd_polling_iteration_branch, hstate]

theorem failed_exchange_requests_teardown_witness :
    poll_exchange 100 3 world_write_fails_closed 1000 (fun _ => 255) false =
        some ⟨false, PollOutcome.exchange_failed, reply_write_failed.out.getD (fun _ => 255),
          vTaskDelay (obd_bt_disconnect reply_write_failed.world) (pdMS_TO_TICKS 100 1000)⟩ ∧
      obd_bt_disconnect reply_write_failed.world =
        (if world_write_fails_closed.s_connected = true ∧
            world_write_fails_closed.s_spp_handle ≠ 0 then
          { reply_write_failed.world with
            link_ops := reply_write_failed.world.link_ops ++
              [LinkOp.spp_disconnect world_write_fails_closed.s_spp_handle] }
        else reply_write_failed.world) ∧
      obd_bt_is_connected (obd_bt_disconnect reply_write_failed.world) =
        obd_bt_is_connected world_write_fails_closed ∧
      obd_bt_is_connected
          (vTaskDelay (obd_bt_disconnect reply_write_failed.world) (pdMS_TO_TICKS 100 1000)) =
        link_after (obd_bt_is_connected world_write_fails_closed)
          (reply_write_failed.world.delay_events.headD []) ∧
      (∀ (c : Bool) (pre : List SppEvent),
        link_after c (pre ++ [SppEvent.ESP_SPP_CLOSE_EVT]) = false) ∧
      (∀ (mac : List Nat) (reply2 : Buf),
        obd_polling_iteration 100 3
            (vTaskDelay (obd_bt_disconnect reply_write_failed.world) (pdMS_TO_TICKS 100 1000))
            mac 1000 reply2 =
          if link_after (obd_bt_is_connected world_write_fails_closed)
              (reply_write_failed.world.delay_events.headD []) = false then
            connect_branch 100 3
              (vTaskDelay (obd_bt_disconnect reply_write_failed.world) (pdMS_TO_TICKS 100 1000))
              mac 1000 reply2
          else
            poll_exchange 100 3
              (vTaskDelay (obd_bt_disconnect reply_write_failed.world) (pdMS_TO_TICKS 100 1000))
              1000 reply2 false) :=
  failed_exchange_requests_teardown 100 3 world_write_fails_closed 1000 (fun _ => 255) false
    reply_write_failed rfl (by decide)

/-- C16, as stated, fails: `obd_bt_disconnect` only asks the provider to close
the link and `s_connected` changes on the provider's events alone. In a
Connected world whose write fails and to which no close event is delivered
during the cooldown, the iteration ends with a failed exchange, the state is
still Connected (`obd_bt_is_connected` is true), and the next iteration does not
take the connect branch: it writes the command again on the handle 7. -/
theorem failed_exchange_counterexample :
    (poll_exchange 100 3 world_write_fails 1000 (fun _ => 255) false).map
        (fun r => (r.outcome, obd_bt_is_connected r.world, r.world.link_ops)) =
      some (PollOutcome.exchange_failed, true,
        [LinkOp.spp_write 7 5 (cstr "010C\r"), LinkOp.spp_disconnect 7]) ∧
    ((poll_exchange 100 3 world_write_fails 1000 (fun _ => 255) false).bind
        (fun r => obd_polling_iteration 100 3 r.world (cstr "AA:BB:CC:DD:EE:FF") 1000
          r.reply)).map
        (fun r => (r.tried_connect, r.world.link_ops)) =
      some (false, [LinkOp.spp_write 7 5 (cstr "010C\r"), LinkOp.spp_disconnect 7,
        LinkOp.spp_write 7 5 (cstr "010C\r")]) := by
  decide

/-- C18. For every `out_sz >= 1` (within the range of `int`) and every sequence
`cs` of NUL-free chunks, with `s` their concatenation in the order of arrival:
when the command was written and the chunks the reader needs (all of them unless
a prompt or a full buffer stops it before) are dequeued by its pops within the
timeout, nothing more arriving after them when it does not stop, the call
returns once the fuel covers the chunks and the milliseconds of the timeout. It
leaves in `out` exactly the first `out_sz - 1` bytes of the longest part of `s`
before any `>`, followed by NUL, and returns their number. When the reader
stopped, the world left is the one after the pop of the last chunk needed: that
chunk is gone whole, the bytes after its `>` with it, and when the chunks were
queued before the call the items after it are all still queued. -/
theorem assembled_reply_reference (hz : Nat) (w w1 w2 : World) (cmd : List Nat) (out : Buf)
    (out_sz : Nat) (T rem : Int) (cs : List (List Nat))
    (h1 : 1 ≤ hz) (h2 : hz ≤ 1000) (hT2 : T < 2 ^ 31) (htick : w.tick < WORD)
    (hsz : 1 ≤ out_sz) (hint : out_sz ≤ 2 ^ 31)
    (hconn : w.s_connected = true) (hhandle : w.s_spp_handle ≠ 0)
    (hsend : send_cmd w cmd = (true, w1))
    (hnul : ∀ c ∈ cs, ∀ b ∈ c, b ≠ 0)
    (hdq : dequeue_all hz T (xTaskGetTickCount w1) (cs.take (chunks_needed (out_sz - 1) cs)) T w1 =
      some (rem, w2))
    (hlast : PROMPT ∉ cs.flatten → cs.flatten.length < out_sz - 1 →
      queue_idle w2 ∧ w2.feed = []) :
    ∀ fuel, cs.length + T.toNat + 1 ≤ fuel →
      ∃ out1 w3, obd_send_cmd_and_read hz fuel w (some cmd) (some out) out_sz T =
          some ⟨(((before_prompt cs.flatten).take (out_sz - 1)).length : Nat), some out1, w3⟩ ∧
        out1.read (((before_prompt cs.flatten).take (out_sz - 1)).length + 1) =
          (before_prompt cs.flatten).take (out_sz - 1) ++ [0] ∧
        w3.s_rx_queue = w2.s_rx_queue ∧ w3.feed = w2.feed ∧
        ((PROMPT ∈ cs.flatten ∨ out_sz - 1 ≤ cs.flatten.length) → w3 = w2) ∧
        (∀ (cap : Nat) (more : List (Option (List Nat))), 0 < T →
          w1.s_rx_queue = some ⟨cap, (cs.take (chunks_needed (out_sz - 1) cs)).map
            (fun c => some (c ++ [0])) ++ more⟩ →
          w3.s_rx_queue = some ⟨cap, more⟩) := by
  intro fuel hfuel
  obtain ⟨_, _, _, f4, _⟩ := send_cmd_frame w w1 cmd true hsend
  have hcall := obd_send_cmd_and_read_sent hz fuel w w1 cmd out out_sz T (by omega) hconn hhandle
    hsend
  have hqueued : ∀ (w3 : World), w3.s_rx_queue = w2.s_rx_queue →
      ∀ (cap : Nat) (more : List (Option (List Nat))), 0 < T →
        w1.s_rx_queue = some ⟨cap, (cs.take (chunks_needed (out_sz - 1) cs)).map
          (fun c => some (c ++ [0])) ++ more⟩ → w3.s_rx_queue = some ⟨cap, more⟩ := by
    intro w3 h3 cap more hT0 hq
    have := dequeue_all_queued hz T hT0 hT2 _ w1 cap more hq
    rw [xTaskGetTickCount] at hdq
    rw [hdq] at this
    simp only [Option.some.injEq, Prod.mk.injEq] at this
    rw [h3, this.2]
  by_cases hstop : PROMPT ∈ cs.flatten ∨ out_sz - 1 ≤ cs.flatten.length
  · obtain ⟨out1, hr, hread⟩ := read_response_stops hz w1 w2 out out_sz T rem cs hsz hint hnul
      hstop hdq fuel (by have := chunks_needed_le cs (out_sz - 1); omega)
    exact ⟨out1, w2, by rw [hcall, hr], hread, rfl, rfl, fun _ => rfl, hqueued w2 rfl⟩
  · simp only [not_or, Nat.not_le] at hstop
    obtain ⟨hidle, hfeed⟩ := hlast hstop.1 hstop.2
    rw [chunks_needed_plain cs (out_sz - 1) hstop.1 hstop.2, List.take_length] at hdq
    obtain ⟨out1, w3, hr, hread, hq3, hf3⟩ := read_response_plain hz w1 w2 out out_sz T rem cs
      h1 h2 hT2 (by rw [f4]; exact htick) hsz hint hnul hstop.1 hstop.2 hdq hidle hfeed fuel hfuel
    have href : (before_prompt cs.flatten).take (out_sz - 1) = cs.flatten := by
      have : before_prompt cs.flatten = cs.flatten := by
        unfold before_prompt
        rw [List.takeWhile_eq_self_iff]
        intro b hb
        simp only [ne_eq, decide_eq_true_eq]
        exact fun hbp => hstop.1 (hbp ▸ hb)
      rw [this, List.take_of_length_le (by omega)]
    rw [href]
    refine ⟨out1, w3, by rw [hcall, hr], hread, hq3, hf3, ?_, hqueued w3 hq3⟩
    intro h
    rcases h with h | h
    · exact absurd h hstop.1
    · omega

theorem assembled_reply_reference_witness :
    (before_prompt chunks_three.flatten).take (512 - 1) = cstr "41 0C 0B B8" ∧
    ∀ fuel, chunks_three.length + (3000 : Int).toNat + 1 ≤ fuel →
      ∃ out1 w3, obd_send_cmd_and_read 100 fuel world_three_queued (some (cstr "010C"))
          (some (fun _ => 255)) 512 3000 =
          some ⟨(((before_prompt chunks_three.flatten).take (512 - 1)).length : Nat), some out1,
            w3⟩ ∧
        out1.read (((before_prompt chunks_three.flatten).take (512 - 1)).length + 1) =
          (before_prompt chunks_three.flatten).take (512 - 1) ++ [0] ∧
        w3.s_rx_queue = world_three_read.s_rx_queue ∧ w3.feed = world_three_read.feed ∧
        ((PROMPT ∈ chunks_three.flatten ∨ 512 - 1 ≤ chunks_three.flatten.length) →
          w3 = world_three_read) ∧
        (∀ (cap : Nat) (more : List (Option (List Nat))), 0 < (3000 : Int) →
          world_three_sent.s_rx_queue =
            some ⟨cap, (chunks_three.take (chunks_needed (512 - 1) chunks_three)).map
              (fun c => some (c ++ [0])) ++ more⟩ →
          w3.s_rx_queue = some ⟨cap, more⟩) :=
  ⟨by decide, assembled_reply_reference 100 world_three_queued world_three_sent world_three_read
    (cstr "010C") (fun _ => 255) 512 3000 3000 chunks_three (by decide) (by decide) (by decide)
    (by decide) (by decide) (by decide) (by decide) (by decide) (by decide) (by decide)
    (by decide) (fun h => absurd (by decide) h)⟩

/-- C19. A chunk delivered by `ESP_SPP_DATA_IND_EVT`, when its buffer is
allocated and the queue has room, is queued as its bytes followed by one NUL,
and nothing else. For a chunk with a NUL at index `k` the inner loop of the
reader copies the bytes before the first NUL (up to a prompt and to the room
left), which are among the first `k` bytes of the chunk: `total` grows by at
most `k` and the cells from `total + k` on are untouched. The pop hands over
the whole packet and the queue keeps nothing of it, so the other bytes are
lost. A chunk `d` that is empty or starts with NUL is queued all the same, one
more item in the queue, and leaves the buffer and `total` as they are. -/
theorem nul_cuts_chunk_short (w : World) (q : Queue) (data : List Nat) (k : Nat) (out : Buf)
    (out_sz total : Nat) (hq : w.s_rx_queue = some q) (hroom : q.items.length < q.uxLength)
    (hmalloc : (pvPortMalloc w).1 = true) (hk : k < data.length) (hzero : data.getD k 1 = 0) :
    (esp_spp_cb w (SppEvent.ESP_SPP_DATA_IND_EVT data)).s_rx_queue =
        some { q with items := q.items ++ [some (data ++ [0])] } ∧
      copy_pkt out_sz (data ++ [0]) out total =
        (Buf.store out total
            ((upto_prompt (data.takeWhile (fun b => b ≠ 0))).take (out_sz - 1 - total)),
          total + ((upto_prompt (data.takeWhile (fun b => b ≠ 0))).take
            (out_sz - 1 - total)).length) ∧
      (upto_prompt (data.takeWhile (fun b => b ≠ 0))).take (out_sz - 1 - total) <+: data.take k ∧
      (copy_pkt out_sz (data ++ [0]) out total).2 ≤ total + k ∧
      (∀ j, total + k ≤ j → (copy_pkt out_sz (data ++ [0]) out total).1 j = out j) ∧
      (∀ (w2 : World) (cap wait : Nat) (more : List (Option (List Nat))),
        xQueueReceive w2 ⟨cap, some (data ++ [0]) :: more⟩ wait =
          (some (some (data ++ [0])), { w2 with s_rx_queue := some ⟨cap, more⟩ })) ∧
      (∀ d : List Nat, d.headD 0 = 0 →
        (esp_spp_cb w (SppEvent.ESP_SPP_DATA_IND_EVT d)).s_rx_queue =
            some { q with items := q.items ++ [some (d ++ [0])] } ∧
          copy_pkt out_sz (d ++ [0]) out total = (out, total)) := by
  have hc : (pvPortMalloc w).1 = true ∧ q.items.length < q.uxLength := ⟨hmalloc, hroom⟩
  have hqueue : ∀ d : List Nat, (esp_spp_cb w (SppEvent.ESP_SPP_DATA_IND_EVT d)).s_rx_queue =
      some { q with items := q.items ++ [some (d ++ [0])] } := by
    intro d
    rw [esp_spp_cb_data_items w q d hq, if_pos hc]
    rfl
  obtain ⟨hpre, hlen⟩ := copied_before_nul data k (out_sz - 1 - total) hk hzero
  have hcopy := copy_pkt_eq out_sz (data ++ [0]) out total
  rw [copied_chunk] at hcopy hpre hlen
  refine ⟨hqueue data, hcopy, hpre, ?_, ?_, ?_, ?_⟩
  · rw [hcopy]
    simp only
    omega
  · intro j hj
    rw [hcopy]
    simp only
    rw [store_apply, if_neg (by omega)]
  · intro w2 cap wait more
    rfl
  · intro d hd
    refine ⟨hqueue d, ?_⟩
    rw [copy_pkt_eq, copied_nothing d _ hd]
    rfl

theorem nul_cuts_chunk_short_witness :
    (obd_send_cmd_and_read 100 4 world_nul_chunk (some [48, 49, 48, 67])
        (some (fun _ => 255)) 8 3000).map
      (fun r => (r.ret, r.out.map (fun o => o.read 8), r.world.s_rx_queue)) =
      some (1, some [65, 0, 255, 255, 255, 255, 255, 255], some ⟨16, []⟩) ∧
    ((esp_spp_cb world_linked (SppEvent.ESP_SPP_DATA_IND_EVT [65, 0, 66, 67])).s_rx_queue =
        some { (⟨16, []⟩ : Queue) with items := [] ++ [some ([65, 0, 66, 67] ++ [0])] } ∧
      copy_pkt 8 ([65, 0, 66, 67] ++ [0]) (fun _ => 255) 0 =
        (Buf.store (fun _ => 255) 0
            ((upto_prompt (([65, 0, 66, 67] : List Nat).takeWhile (fun b => b ≠ 0))).take
              (8 - 1 - 0)),
          0 + ((upto_prompt (([65, 0, 66, 67] : List Nat).takeWhile (fun b => b ≠ 0))).take
            (8 - 1 - 0)).length) ∧
      (upto_prompt (([65, 0, 66, 67] : List Nat).takeWhile (fun b => b ≠ 0))).take (8 - 1 - 0) <+:
        ([65, 0, 66, 67] : List Nat).take 1 ∧
      (copy_pkt 8 ([65, 0, 66, 67] ++ [0]) (fun _ => 255) 0).2 ≤ 0 + 1 ∧
      (∀ j, 0 + 1 ≤ j → (copy_pkt 8 ([65, 0, 66, 67] ++ [0]) (fun _ => 255) 0).1 j =
        (fun _ => 255) j) ∧
      (∀ (w2 : World) (cap wait : Nat) (more : List (Option (List Nat))),
        xQueueReceive w2 ⟨cap, some ([65, 0, 66, 67] ++ [0]) :: more⟩ wait =
          (some (some ([65, 0, 66, 67] ++ [0])), { w2 with s_rx_queue := some ⟨cap, more⟩ })) ∧
      (∀ d : List Nat, d.headD 0 = 0 →
        (esp_spp_cb world_linked (SppEvent.ESP_SPP_DATA_IND_EVT d)).s_rx_queue =
            some { (⟨16, []⟩ : Queue) with items := [] ++ [some (d ++ [0])] } ∧
          copy_pkt 8 (d ++ [0]) (fun _ => 255) 0 = (fun _ => 255, 0))) :=
  ⟨by decide, nul_cuts_chunk_short world_linked ⟨16, []⟩ [65, 0, 66, 67] 1 (fun _ => 255) 8 0
    (by decide) (by decide) (by decide) (by decide) (by decide)⟩

end ObdBluetooth
